import Mathlib

/-!
# Subscription link generation of xray-api-bridge

A shallow embedding of `generateSubscriptionLinks`
(`src/apiserver/handlers_subscription.go`) together with the library
functions it calls, followed by theorems about it.

Conventions of the embedding.

* Go `string` values that come from decoded JSON or from the request are
  Lean `String`s.  Operations that Go performs on bytes (`len`, slicing,
  `url.QueryEscape`, key sorting) go through `goBytes`, the UTF-8 encoding
  of the string as a list of byte values.
* Go maps with string keys are association lists with pairwise distinct
  keys.  Map iteration (`for k, v := range m`), whose order Go leaves
  unspecified, takes the order from an explicit `MapOrder` argument.
* `encoding/json` is an argument of type `EncodingJSON`; an inbound's
  client list is the already decoded value of `settings.clients`.
* The environment variable `XRAY_API_BRIDGE_SUBS_SUPERKEY` is the argument
  `superKey`.
-/

namespace Subscription

/-! ## Strings and bytes -/

/-- A Go string seen as its bytes. -/
abbrev GoBytes := List Nat

/-- UTF-8 encoding of one code point. -/
def utf8EncodeChar (c : Char) : GoBytes :=
  let n := c.toNat
  if n < 0x80 then [n]
  else if n < 0x800 then [0xC0 + n / 0x40, 0x80 + n % 0x40]
  else if n < 0x10000 then [0xE0 + n / 0x1000, 0x80 + n / 0x40 % 0x40, 0x80 + n % 0x40]
  else [0xF0 + n / 0x40000, 0x80 + n / 0x1000 % 0x40, 0x80 + n / 0x40 % 0x40, 0x80 + n % 0x40]

/-- The bytes of a string value. -/
def goBytes (s : String) : GoBytes :=
  s.data.foldr (fun c acc => utf8EncodeChar c ++ acc) []

/-- Go `len(s)`: the number of bytes. -/
def goLen (s : String) : Nat := (goBytes s).length

/-- Go `unicode.IsSpace`. -/
def isSpace (c : Char) : Bool :=
  let n := c.toNat
  (0x09 ≤ n && n ≤ 0x0D) || n == 0x20 || n == 0x85 || n == 0xA0 || n == 0x1680 ||
  (0x2000 ≤ n && n ≤ 0x200A) || n == 0x2028 || n == 0x2029 || n == 0x202F ||
  n == 0x205F || n == 0x3000

/-- Go `strings.TrimSpace`. -/
def TrimSpace (s : String) : String :=
  ⟨((s.data.dropWhile isSpace).reverse.dropWhile isSpace).reverse⟩

/-- Pieces of a character list between occurrences of `sep`. -/
def splitChars (sep : Char) : List Char → List (List Char)
  | [] => [[]]
  | c :: cs =>
    if c = sep then [] :: splitChars sep cs
    else
      match splitChars sep cs with
      | [] => [[c]]
      | p :: ps => (c :: p) :: ps

/-- Go `strings.Split(s, sep)` for a one-character separator. -/
def Split (s : String) (sep : Char) : List String :=
  (splitChars sep s.data).map String.mk

/-- Go `strings.ReplaceAll(s, " ", "")`. -/
def removeSpaces (s : String) : String :=
  ⟨s.data.filter (fun c => c != ' ')⟩

/-- Upper-case hexadecimal digit, as in `net/url`. -/
def upperhex (n : Nat) : Char :=
  if n < 10 then Char.ofNat (48 + n) else Char.ofNat (55 + n)

/-- Bytes that `url.QueryEscape` leaves alone: letters, digits, `-`, `_`, `.`, `~`. -/
def unreserved (b : Nat) : Bool :=
  (97 ≤ b && b ≤ 122) || (65 ≤ b && b ≤ 90) || (48 ≤ b && b ≤ 57) ||
  b == 45 || b == 95 || b == 46 || b == 126

/-- Escaping of one byte by `url.QueryEscape`. -/
def escapeByte (b : Nat) : List Char :=
  if b = 32 then ['+']
  else if unreserved b then [Char.ofNat b]
  else ['%', upperhex (b / 16), upperhex (b % 16)]

/-- Go `url.QueryEscape` on the bytes of its argument. -/
def escapeBytes (bs : GoBytes) : String :=
  ⟨bs.foldr (fun b acc => escapeByte b ++ acc) []⟩

/-- Go `url.QueryEscape`. -/
def QueryEscape (s : String) : String := escapeBytes (goBytes s)

/-- Decimal digits of a natural number, as printed by `%d`. -/
def decimal (n : Nat) : String := toString n

/-- Go `fmt.Sprintf("%05d", n)` for a non-negative `n`. -/
def decimal05 (n : Nat) : String :=
  ⟨List.replicate (5 - (decimal n).length) '0'⟩ ++ decimal n

/-- Byte-wise lexicographic `≤`, the order of `sort.Strings`. -/
def bytesLe : GoBytes → GoBytes → Bool
  | [], _ => true
  | _ :: _, [] => false
  | a :: as, b :: bs => a < b || (a == b && bytesLe as bs)

/-- Insertion of a key into a list sorted by `bytesLe`. -/
def insertKey (k : String) : List String → List String
  | [] => [k]
  | x :: xs => if bytesLe (goBytes k) (goBytes x) then k :: x :: xs else x :: insertKey k xs

/-- Keys in ascending byte order. -/
def sortKeys (ks : List String) : List String :=
  ks.foldr insertKey []

/-! ## Maps with string keys -/

/-- A Go `map[string][]α`. -/
abbrev SliceMap (α : Type) := List (String × List α)

/-- Go `m[key]` on a map of slices: the zero value is the empty slice. -/
def mapGet {α : Type} : SliceMap α → String → List α
  | [], _ => []
  | (k, v) :: m, key => if k = key then v else mapGet m key

/-- Go `m[key] = append(m[key], vs...)`. -/
def mapAppend {α : Type} : SliceMap α → String → List α → SliceMap α
  | [], key, vs => [(key, vs)]
  | (k, v) :: m, key, vs =>
    if k = key then (k, v ++ vs) :: m else (k, v) :: mapAppend m key vs

/-- The order in which one `range` statement over a map of slices visits its
entries: the argument `Nat` tells the executions of the statement apart. -/
abbrev MapOrder (α : Type) := Nat → SliceMap α → SliceMap α

/-- A map order visits every entry exactly once. -/
def MapOrder.Valid {α : Type} (order : MapOrder α) : Prop :=
  ∀ i m, (order i m).Perm m

/-- Visiting the entries in insertion order. -/
def insertionOrder {α : Type} : MapOrder α := fun _ m => m

/-- Visiting the entries in reverse insertion order. -/
def reverseOrder {α : Type} : MapOrder α := fun _ m => m.reverse

/-- Go `url.Values`. -/
abbrev Values := SliceMap String

/-- Go `url.Values.Add`. -/
def Values.Add (v : Values) (key value : String) : Values :=
  mapAppend v key [value]

/-- The `key=value` pairs of `url.Values.Encode`, keys ascending. -/
def Values.pairs (v : Values) : List String :=
  (sortKeys (v.map Prod.fst)).foldr
    (fun k acc => (mapGet v k).map (fun x => QueryEscape k ++ "=" ++ QueryEscape x) ++ acc) []

/-- Go `url.Values.Encode`. -/
def Values.Encode (v : Values) : String :=
  "&".intercalate (Values.pairs v)

/-! ## Data model -/

/-- The local type `clientInfo` of `generateSubscriptionLinks`. -/
structure clientInfo where
  ID : String
  Email : String
  Flow : String
  Level : Int
deriving DecidableEq, Repr

/-- The field of `conf.REALITYConfig` that is read. -/
structure REALITYConfig where
  ShortIds : List String
deriving DecidableEq, Repr

/-- The field of `conf.SplitHTTPConfig` that is read. -/
structure SplitHTTPConfig where
  Path : String
deriving DecidableEq, Repr

/-- The field of `conf.GRPCConfig` that is read. -/
structure GRPCConfig where
  ServiceName : String
deriving DecidableEq, Repr

/-- The fields of `conf.KCPConfig` that are read: the raw header document
(`none` for a nil `json.RawMessage`) and the seed pointer. -/
structure KCPConfig where
  HeaderConfig : Option String
  Seed : Option String
deriving DecidableEq, Repr

/-- The fields of `conf.StreamConfig` that are read. -/
structure StreamConfig where
  Network : Option String
  Security : String
  REALITYSettings : Option REALITYConfig
  XHTTPSettings : Option SplitHTTPConfig
  GRPCSettings : Option GRPCConfig
  KCPSettings : Option KCPConfig
deriving DecidableEq, Repr

/-- The fields of `conf.InboundDetourConfig` that are read.  `Clients` is the
value left in the local variable `clients` by the two `json.Unmarshal` calls
on `Settings`: empty when `Settings` is nil or cannot be decoded. -/
structure InboundDetourConfig where
  Protocol : String
  StreamSetting : Option StreamConfig
  Clients : List clientInfo
deriving DecidableEq, Repr

/-- The type `SubscriptionProfile` of `requests.go`.  `Port` is a `uint16`;
`Extra` is the raw JSON text, empty when the field is absent. -/
structure SubscriptionProfile where
  Level : Int
  Address : String
  Port : Nat
  Protocol : String
  Network : String
  Security : String
  Description : String
  Encryption : String
  Fingerprint : String
  ServerName : String
  Flow : String
  Password : String
  Mldsa65Verify : String
  Alpn : List String
  EchConfigList : String
  Host : String
  Mode : String
  Extra : String
  Path : String
deriving DecidableEq, Repr

/-- A value stored in a Go `interface{}` by `json.Unmarshal`.  A number is
the bit pattern of its `float64`; a string is kept as its bytes. -/
inductive Json where
  | null
  | bool (b : Bool)
  | number (bits : Nat)
  | string (s : GoBytes)
  | array (xs : List Json)
  | object (kvs : List (String × Json))

/-- A Go `map[string]interface{}`. -/
abbrev JsonObject := List (String × Json)

/-- Go `v, ok := m[key]` on a `map[string]interface{}`. -/
def jsonGet : JsonObject → String → Option Json
  | [], _ => none
  | (k, v) :: m, key => if k = key then some v else jsonGet m key

/-- Go `m[key] = v` on a `map[string]interface{}`. -/
def jsonSet : JsonObject → String → Json → JsonObject
  | [], key, v => [(key, v)]
  | (k, w) :: m, key, v => if k = key then (k, v) :: m else (k, w) :: jsonSet m key v

/-- The calls into `encoding/json` made while a link is built.
* `UnmarshalMap raw`: `json.Unmarshal(raw, &m)` for an empty
  `map[string]interface{}` `m`; `none` on error, else the resulting map.
* `UnmarshalDownloadSecurity raw`: `json.Unmarshal(raw, &extraConfig)` for the
  struct with the single path `downloadSettings.security`; `none` on error,
  else the decoded field.
* `UnmarshalHeaderType raw`: `json.Unmarshal(raw, &header)` for the struct
  with the single field `type`; `none` on error, else the decoded field.
* `Marshal m`: the text of `json.Marshal(m)`. -/
structure EncodingJSON where
  UnmarshalMap : String → Option JsonObject
  UnmarshalDownloadSecurity : String → Option String
  UnmarshalHeaderType : String → Option String
  Marshal : JsonObject → String

/-! ## Step 1: clients by protocol and network (lines 86-121) -/

/-- The network name of an inbound: `"tcp"` when unset, and `"tcp"` read as
`"raw"` (lines 95-101 and 250-256). -/
def inboundNetwork (inbound : InboundDetourConfig) : String :=
  let inbNetwork :=
    match inbound.StreamSetting with
    | some ss =>
      match ss.Network with
      | some n => n
      | none => "tcp"
    | none => "tcp"
  if inbNetwork = "tcp" then "raw" else inbNetwork

/-- The test of line 90, negated: the inbound is a vless or vmess inbound. -/
def isSpecialProtocol (inbound : InboundDetourConfig) : Bool :=
  !(inbound.Protocol != "vless" && inbound.Protocol != "vmess")

/-- The map `categorizedClients` after the loop of lines 89-117, started
from `acc`. -/
def categorizeFrom (acc : SliceMap clientInfo) :
    List InboundDetourConfig → SliceMap clientInfo
  | [] => acc
  | inbound :: rest =>
    if inbound.Protocol != "vless" && inbound.Protocol != "vmess" then
      categorizeFrom acc rest
    else
      let key := inbound.Protocol ++ "_" ++ inboundNetwork inbound
      let clients := inbound.Clients
      if clients.length > 0 then
        categorizeFrom (mapAppend acc key clients) rest
      else
        categorizeFrom acc rest

/-- The map `categorizedClients` built from the inbounds. -/
def categorizedClients (inbounds : List InboundDetourConfig) : SliceMap clientInfo :=
  categorizeFrom [] inbounds

/-- The flag `foundSpecialProtocol` after the loop of lines 89-117. -/
def foundSpecialProtocol (inbounds : List InboundDetourConfig) : Bool :=
  inbounds.any isSpecialProtocol

/-! ## Step 2: matching (lines 123-174) -/

/-- The flag `useAllClients` of line 125. -/
def useAllClients (superKey uuidQuery : String) : Bool :=
  superKey != "" && uuidQuery == superKey

/-- The set `targetIDs` of lines 129-132, as the list of its elements. -/
def targetIDs (uuidQuery : String) : List String :=
  (Split uuidQuery ',').map TrimSpace

/-- The value of `match` at line 161 for a client id. -/
def clientMatches (superKey uuidQuery : String) (id : String) : Bool :=
  if useAllClients superKey uuidQuery then true
  else (targetIDs uuidQuery).contains id

/-- The variables the index loop updates. `seenClients` lists the keys
mapped to `true`. -/
structure MatchState where
  filteredClients : SliceMap clientInfo
  orderedMatchedClients : List clientInfo
  seenClients : List String

/-- The state before the index loop. -/
def MatchState.init : MatchState := ⟨[], [], []⟩

/-- The value `maxClients` after the loop of lines 144-149. -/
def maxClients (categorized : SliceMap clientInfo) : Nat :=
  categorized.foldl (fun m e => if e.2.length > m then e.2.length else m) 0

/-- The body of the inner loop (lines 154-172) for index `i` and one map
entry. -/
def visitEntry (isMatch : String → Bool) (i : Nat) (st : MatchState)
    (entry : String × List clientInfo) : MatchState :=
  match entry.2.get? i with
  | none => st
  | some client =>
    if isMatch client.ID then
      { filteredClients := mapAppend st.filteredClients entry.1 [client]
        orderedMatchedClients :=
          if st.seenClients.contains client.ID then st.orderedMatchedClients
          else st.orderedMatchedClients ++ [client]
        seenClients :=
          if st.seenClients.contains client.ID then st.seenClients
          else st.seenClients ++ [client.ID] }
    else st

/-- One execution of the inner loop (lines 153-173): the entries of
`categorized` in the order chosen for round `i`. -/
def visitRound (order : MapOrder clientInfo) (isMatch : String → Bool)
    (categorized : SliceMap clientInfo) (st : MatchState) (i : Nat) : MatchState :=
  (order i categorized).foldl (visitEntry isMatch i) st

/-- The index loop of lines 152-174 run for the indices below `n`. -/
def visitRounds (order : MapOrder clientInfo) (isMatch : String → Bool)
    (categorized : SliceMap clientInfo) (n : Nat) : MatchState :=
  (List.range n).foldl (visitRound order isMatch categorized) MatchState.init

/-- The state after step 2. -/
def matchClients (order : MapOrder clientInfo) (superKey : String)
    (inbounds : List InboundDetourConfig) (uuidQuery : String) : MatchState :=
  let categorized := categorizedClients inbounds
  visitRounds order (clientMatches superKey uuidQuery) categorized (maxClients categorized)

/-! ## Step 3: link generation (lines 176-440) -/

/-- The closure `getRealityShortID` of lines 178-191. -/
def getRealityShortID (inbounds : List InboundDetourConfig) (clientIndex : Nat) : String :=
  match inbounds with
  | [] => ""
  | ib :: rest =>
    match ib.StreamSetting with
    | some ss =>
      match ss.REALITYSettings with
      | some rs =>
        if ib.Protocol = "vless" ∧ ss.Security = "reality" ∧ rs.ShortIds.length > 0 then
          if clientIndex < rs.ShortIds.length then rs.ShortIds.getD clientIndex ""
          else rs.ShortIds.getD (rs.ShortIds.length - 1) ""
        else getRealityShortID rest clientIndex
      | none => getRealityShortID rest clientIndex
    | none => getRealityShortID rest clientIndex

/-- The value `spx` of lines 293-298 and 404-409, as bytes: `"get-"` and
the last eight bytes of `sid`, or `"get-sub"` and the profile index. -/
def spiderX (sid : GoBytes) (subIndex : Nat) : GoBytes :=
  if sid.length ≥ 8 then goBytes "get-" ++ sid.drop (sid.length - 8)
  else goBytes ("get-sub" ++ decimal05 subIndex)

/-- The updates of `rs` at lines 285-300. -/
def fillRealitySettings (rs : JsonObject) (sid : String) (subIndex : Nat) : JsonObject :=
  let rs1 :=
    match jsonGet rs "shortId" with
    | some _ => rs
    | none => if sid ≠ "" then jsonSet rs "shortId" (Json.string (goBytes sid)) else rs
  match jsonGet rs1 "spiderX" with
  | some _ => rs1
  | none =>
    let sid2 : GoBytes :=
      match jsonGet rs1 "shortId" with
      | some (Json.string b) => b
      | _ => []
    jsonSet rs1 "spiderX" (Json.string (spiderX sid2 subIndex))

/-- The map `extraConfig` after lines 282-303; `sid` is
`getRealityShortID(clientIndex)`. -/
def mergeExtra (extraConfig : JsonObject) (sid : String) (subIndex : Nat) : JsonObject :=
  match jsonGet extraConfig "downloadSettings" with
  | some (Json.object ds) =>
    match jsonGet ds "security" with
    | some (Json.string sec) =>
      if sec = goBytes "reality" then
        match jsonGet ds "realitySettings" with
        | some (Json.object rs) =>
          jsonSet extraConfig "downloadSettings"
            (Json.object (jsonSet ds "realitySettings"
              (Json.object (fillRealitySettings rs sid subIndex))))
        | _ => extraConfig
      else extraConfig
    | _ => extraConfig
  | _ => extraConfig

/-- The pointer `originalInbound` after the loop of lines 247-261. -/
def originalInbound (inbounds : List InboundDetourConfig) (sub : SubscriptionProfile)
    (subNetwork : String) : Option InboundDetourConfig :=
  inbounds.find? (fun ib => ib.Protocol == sub.Protocol && inboundNetwork ib == subNetwork)

/-- The case `"xhttp"` of the switch on `subNetwork` (lines 264-307). -/
def xhttpParams (J : EncodingJSON) (inbounds : List InboundDetourConfig)
    (orig : Option InboundDetourConfig) (clientIndex subIndex : Nat)
    (sub : SubscriptionProfile) (q : Values) : Values :=
  let q1 :=
    if sub.Host ≠ "" then Values.Add q "host" (QueryEscape sub.Host)
    else if sub.Network = "http" ∨ sub.Network = "xhttp" ∨ sub.Network = "ws" ∨
        sub.Network = "httpupgrade" then
      Values.Add q "host" (QueryEscape sub.Address)
    else q
  let q2 :=
    match orig with
    | some ib =>
      match ib.StreamSetting with
      | some ss =>
        match ss.XHTTPSettings with
        | some x => Values.Add q1 "path" (QueryEscape x.Path)
        | none => q1
      | none => q1
    | none => q1
  let mode := if sub.Mode = "" then "auto" else sub.Mode
  let q3 := Values.Add q2 "mode" mode
  if goLen sub.Extra > 2 then
    match J.UnmarshalMap sub.Extra with
    | some extraConfig =>
      let merged := mergeExtra extraConfig (getRealityShortID inbounds clientIndex) subIndex
      Values.Add q3 "extra" (QueryEscape (J.Marshal merged))
    | none => q3
  else q3

/-- The case `"http", "ws", "httpupgrade"` (lines 309-321). -/
def httpParams (subNetwork : String) (sub : SubscriptionProfile) (q : Values) : Values :=
  let q1 :=
    if sub.Host ≠ "" then
      let host := if subNetwork = "http" then removeSpaces sub.Host else sub.Host
      Values.Add q "host" (QueryEscape host)
    else Values.Add q "host" (QueryEscape sub.Address)
  if sub.Path ≠ "" ∧ sub.Path ≠ "/" then Values.Add q1 "path" (QueryEscape sub.Path) else q1

/-- The value of `serviceName` after lines 325-328: the text before the
first `|`. -/
def grpcServiceName (serviceName : String) : String :=
  if serviceName.data.contains '|' then (Split serviceName '|').headD "" else serviceName

/-- The case `"grpc"` (lines 322-336). -/
def grpcParams (orig : Option InboundDetourConfig) (sub : SubscriptionProfile)
    (q : Values) : Values :=
  match orig with
  | some ib =>
    match ib.StreamSetting with
    | some ss =>
      match ss.GRPCSettings with
      | some grpcSettings =>
        let q1 := Values.Add q "serviceName" (QueryEscape (grpcServiceName grpcSettings.ServiceName))
        let mode := if sub.Mode = "" then "gun" else sub.Mode
        Values.Add q1 "mode" mode
      | none => q
    | none => q
  | none => q

/-- The case `"kcp"` (lines 337-349). -/
def kcpParams (J : EncodingJSON) (orig : Option InboundDetourConfig) (q : Values) : Values :=
  match orig with
  | some ib =>
    match ib.StreamSetting with
    | some ss =>
      match ss.KCPSettings with
      | some kcpSettings =>
        let q1 :=
          match kcpSettings.HeaderConfig with
          | some raw =>
            match J.UnmarshalHeaderType raw with
            | some t => if t ≠ "none" then Values.Add q "headerType" t else q
            | none => q
          | none => q
        match kcpSettings.Seed with
        | some seed => Values.Add q1 "seed" (QueryEscape seed)
        | none => q1
      | none => q
    | none => q
  | none => q

/-- The switch on `subNetwork` of lines 263-350. -/
def transportParams (J : EncodingJSON) (inbounds : List InboundDetourConfig)
    (clientIndex subIndex : Nat) (sub : SubscriptionProfile) (subNetwork : String)
    (q : Values) : Values :=
  let orig := originalInbound inbounds sub subNetwork
  if subNetwork = "xhttp" then xhttpParams J inbounds orig clientIndex subIndex sub q
  else if subNetwork = "http" ∨ subNetwork = "ws" ∨ subNetwork = "httpupgrade" then
    httpParams subNetwork sub q
  else if subNetwork = "grpc" then grpcParams orig sub q
  else if subNetwork = "kcp" then kcpParams J orig q
  else q

/-- The case `"tls"` of the switch on `security` (lines 353-368). -/
def tlsParams (sub : SubscriptionProfile) (q : Values) : Values :=
  let q1 := if sub.Fingerprint ≠ "" then Values.Add q "fp" sub.Fingerprint else q
  let q2 := if sub.ServerName ≠ "" then Values.Add q1 "sni" sub.ServerName else q1
  let q3 :=
    if sub.Alpn.length > 0 then Values.Add q2 "alpn" (QueryEscape (",".intercalate sub.Alpn))
    else q2
  if sub.EchConfigList ≠ "" then Values.Add q3 "ech" (QueryEscape sub.EchConfigList) else q3

/-- The case `"reality"` (lines 369-410); `none` is the `continue` of line 391. -/
def realityParams (inbounds : List InboundDetourConfig) (clientIndex : Nat)
    (client : clientInfo) (subIndex : Nat) (sub : SubscriptionProfile) (q : Values) :
    Option Values :=
  let fp := if sub.Fingerprint = "" then "chrome" else sub.Fingerprint
  let q1 := Values.Add q "fp" fp
  let q2 := if sub.ServerName ≠ "" then Values.Add q1 "sni" sub.ServerName else q1
  let flow := client.Flow
  let q3 :=
    if sub.Flow ≠ "" then q2
    else if flow = "" then q2
    else Values.Add q2 "flow" flow
  if sub.Password = "" then none
  else
    let q4 := Values.Add q3 "pbk" sub.Password
    let q5 :=
      if sub.Mldsa65Verify ≠ "" then Values.Add q4 "pqv" (QueryEscape sub.Mldsa65Verify) else q4
    let sid := getRealityShortID inbounds clientIndex
    let q6 := if sid ≠ "" then Values.Add q5 "sid" sid else q5
    let spx := spiderX (goBytes sid) subIndex
    some (Values.Add q6 "spx" (escapeBytes spx))

/-- The switch on `security` of lines 352-411. -/
def securityParams (inbounds : List InboundDetourConfig) (clientIndex : Nat)
    (client : clientInfo) (subIndex : Nat) (sub : SubscriptionProfile) (security : String)
    (q : Values) : Option Values :=
  if security = "tls" then some (tlsParams sub q)
  else if security = "reality" then realityParams inbounds clientIndex client subIndex sub q
  else some q

/-- The value of `desp` after lines 418-433. -/
def description (J : EncodingJSON) (sub : SubscriptionProfile) (subNetwork security : String) :
    String :=
  if sub.Description = "" then
    let desp := sub.Protocol ++ "_" ++ subNetwork ++ "_" ++ security
    if subNetwork = "xhttp" ∧ goLen sub.Extra > 2 then
      match J.UnmarshalDownloadSecurity sub.Extra with
      | some dsSec => if dsSec ≠ "" ∧ security ≠ dsSec then desp ++ "2" ++ dsSec else desp
      | none => desp
    else desp
  else sub.Description

/-- The value of `subNetwork` after lines 197-200. -/
def profileNetwork (sub : SubscriptionProfile) : String :=
  if sub.Network = "tcp" then "raw" else sub.Network

/-- The value of `security` after lines 240-245. -/
def profileSecurity (sub : SubscriptionProfile) : String :=
  if sub.Security ≠ "" ∧ sub.Security ≠ "none" then sub.Security else "none"

/-- The parameters added at lines 228-245, before the two switches. -/
def commonParams (sub : SubscriptionProfile) (subNetwork : String) : Values :=
  let q0 : Values := []
  let q1 := if subNetwork ≠ "raw" then Values.Add q0 "type" subNetwork else q0
  let q2 :=
    if sub.Encryption ≠ "" then
      if sub.Protocol = "vless" ∧ sub.Encryption ≠ "none" then
        Values.Add q1 "encryption" (QueryEscape sub.Encryption)
      else if sub.Protocol = "vmess" ∧ sub.Encryption ≠ "auto" then
        Values.Add q1 "encryption" sub.Encryption
      else q1
    else q1
  if sub.Security ≠ "" ∧ sub.Security ≠ "none" then Values.Add q2 "security" sub.Security
  else q2

/-- The value of `baseURL` (lines 220-225). -/
def baseURL (client : clientInfo) (sub : SubscriptionProfile) : String :=
  let port := if sub.Port = 0 then 443 else sub.Port
  sub.Protocol ++ "://" ++ client.ID ++ "@" ++ sub.Address ++ ":" ++ decimal port

/-- The test of lines 204-210. -/
def clientExistsForProfile (categorized : SliceMap clientInfo) (key : String)
    (client : clientInfo) : Bool :=
  (mapGet categorized key).any (fun c => c.ID == client.ID)

/-- One execution of the body of the inner loop (lines 197-436): the link
appended to `generatedLinks`, or `none` when the body ends in a `continue`. -/
def generateLink (J : EncodingJSON) (inbounds : List InboundDetourConfig)
    (categorized : SliceMap clientInfo) (clientIndex : Nat) (client : clientInfo)
    (subIndex : Nat) (sub : SubscriptionProfile) : Option String :=
  let subNetwork := profileNetwork sub
  let key := sub.Protocol ++ "_" ++ subNetwork
  if !clientExistsForProfile categorized key client then none
  else if sub.Level ≠ -1 ∧ client.Level < sub.Level then none
  else
    let security := profileSecurity sub
    let q := transportParams J inbounds clientIndex subIndex sub subNetwork
      (commonParams sub subNetwork)
    match securityParams inbounds clientIndex client subIndex sub security q with
    | none => none
    | some queryParams =>
      let encodedQuery := Values.Encode queryParams
      let finalURL :=
        if encodedQuery ≠ "" then baseURL client sub ++ "?" ++ encodedQuery
        else baseURL client sub
      some (finalURL ++ "#" ++ QueryEscape (description J sub subNetwork security))

/-- The inner loop of lines 196-437 over the profiles from position
`subIndex` on: the links it appends. -/
def profileLoop (J : EncodingJSON) (inbounds : List InboundDetourConfig)
    (categorized : SliceMap clientInfo) (clientIndex : Nat) (client : clientInfo) :
    Nat → List SubscriptionProfile → List String
  | _, [] => []
  | subIndex, sub :: rest =>
    match generateLink J inbounds categorized clientIndex client subIndex sub with
    | some link => link :: profileLoop J inbounds categorized clientIndex client (subIndex + 1) rest
    | none => profileLoop J inbounds categorized clientIndex client (subIndex + 1) rest

/-- The outer loop of lines 194-438 over the matched clients from position
`clientIndex` on, with `body` the links appended for one client. -/
def clientLoop (body : Nat → clientInfo → List String) :
    Nat → List clientInfo → List String
  | _, [] => []
  | clientIndex, client :: rest => body clientIndex client ++ clientLoop body (clientIndex + 1) rest

/-- The function `generateSubscriptionLinks` (lines 78-441).  `order` fixes
the iteration order of the `range` over `categorizedClients` at line 153,
`superKey` is the value of the environment variable read at line 124. -/
def generateSubscriptionLinks (J : EncodingJSON) (order : MapOrder clientInfo)
    (superKey : String) (inbounds : List InboundDetourConfig)
    (profiles : List SubscriptionProfile) (uuidQuery : String) :
    Except String (List String) :=
  if !foundSpecialProtocol inbounds then
    Except.error ("subscription feature is only available on server-side configurations " ++
      "with 'vless' or 'vmess' inbounds")
  else
    let categorized := categorizedClients inbounds
    let st := matchClients order superKey inbounds uuidQuery
    Except.ok (clientLoop
      (fun clientIndex client => profileLoop J inbounds categorized clientIndex client 0 profiles)
      0 st.orderedMatchedClients)

/-! ## Invariant of the index loop and sample data -/

/-- The invariant of the index loop: `seenClients` holds the ids of
`orderedMatchedClients`, without repetition, and these are the ids found in
`filteredClients`. -/
def MatchState.Inv (st : MatchState) : Prop :=
  st.seenClients = st.orderedMatchedClients.map clientInfo.ID ∧
  st.seenClients.Nodup ∧
  ∀ id, id ∈ st.seenClients ↔ ∃ k, ∃ c ∈ mapGet st.filteredClients k, c.ID = id

/-- A codec that reports an error for every document.  It stands for
`encoding/json` in examples where no profile carries an `extra` value and no
inbound a kcp header, so that no document is ever decoded. -/
def rejectingJSON : EncodingJSON :=
  ⟨fun _ => none, fun _ => none, fun _ => none, fun _ => ""⟩

/-- A client with the given id and level, no email and no flow. -/
def sampleClient (id : String) (level : Int) : clientInfo :=
  ⟨id, "", "", level⟩

/-- An inbound with the given protocol, network and clients, security
`none` and no transport settings. -/
def sampleInbound (protocol network : String) (clients : List clientInfo) :
    InboundDetourConfig :=
  ⟨protocol, some ⟨some network, "none", none, none, none, none⟩, clients⟩

/-- A profile with the given protocol, network, security, address and port;
level 0 and every other field empty. -/
def sampleProfile (protocol network security address : String) (port : Nat) :
    SubscriptionProfile :=
  { Level := 0, Address := address, Port := port, Protocol := protocol, Network := network,
    Security := security, Description := "", Encryption := "", Fingerprint := "",
    ServerName := "", Flow := "", Password := "", Mldsa65Verify := "", Alpn := [],
    EchConfigList := "", Host := "", Mode := "", Extra := "", Path := "" }

/-! ## The matched sequence as first encounters -/

/-- The client the index loop meets at index `i` of one map entry, if it
matches. -/
def encounterAt (isMatch : String → Bool) (i : Nat) (entry : String × List clientInfo) :
    Option clientInfo :=
  match entry.2.get? i with
  | some client => if isMatch client.ID then some client else none
  | none => none

/-- The matching clients met during the first `n` rounds of the index loop,
in the order met. -/
def encounters (order : MapOrder clientInfo) (isMatch : String → Bool)
    (categorized : SliceMap clientInfo) : Nat → List clientInfo
  | 0 => []
  | n + 1 =>
    encounters order isMatch categorized n ++
      (order n categorized).filterMap (encounterAt isMatch n)

/-- Appending a client unless a client with its id is already listed. -/
def appendUnlessSeen (acc : List clientInfo) (client : clientInfo) : List clientInfo :=
  if (acc.map clientInfo.ID).contains client.ID then acc else acc ++ [client]

/-- The first occurrence of every id, in order of occurrence. -/
def firstOccurrences (clients : List clientInfo) : List clientInfo :=
  clients.foldl appendUnlessSeen []

/-! ## Names for the parts of one loop body -/

/-- The map `queryParams` when line 413 is reached for one pair of a client
and a profile; `none` when the body is left by the `continue` of line 391. -/
def queryParamsOf (J : EncodingJSON) (inbounds : List InboundDetourConfig)
    (clientIndex : Nat) (client : clientInfo) (subIndex : Nat) (sub : SubscriptionProfile) :
    Option Values :=
  securityParams inbounds clientIndex client subIndex sub (profileSecurity sub)
    (transportParams J inbounds clientIndex subIndex sub (profileNetwork sub)
      (commonParams sub (profileNetwork sub)))

/-- The three tests a pair of a client and a profile has to pass for a link:
membership in the bucket of the profile's key (lines 204-213), the level
test (line 215) and the password test of a `reality` profile (line 389). -/
def passesGates (categorized : SliceMap clientInfo) (client : clientInfo)
    (sub : SubscriptionProfile) : Prop :=
  clientExistsForProfile categorized (sub.Protocol ++ "_" ++ profileNetwork sub) client = true ∧
  (sub.Level = -1 ∨ sub.Level ≤ client.Level) ∧
  ¬ (sub.Security = "reality" ∧ sub.Password = "")

/-! ## The parameters of a link as a list of additions -/

/-- Adding parameters with `url.Values.Add`, one after the other. -/
def Values.addAll (q : Values) (adds : List (String × String)) : Values :=
  adds.foldl (fun v a => Values.Add v a.1 a.2) q

/-- The parameters added at lines 228-245, in the order added. -/
def commonAdds (sub : SubscriptionProfile) (subNetwork : String) : List (String × String) :=
  (if subNetwork ≠ "raw" then [("type", subNetwork)] else []) ++
  (if sub.Encryption ≠ "" then
      if sub.Protocol = "vless" ∧ sub.Encryption ≠ "none" then
        [("encryption", QueryEscape sub.Encryption)]
      else if sub.Protocol = "vmess" ∧ sub.Encryption ≠ "auto" then
        [("encryption", sub.Encryption)]
      else []
    else []) ++
  (if sub.Security ≠ "" ∧ sub.Security ≠ "none" then [("security", sub.Security)] else [])

/-- The parameters added by the case `"xhttp"` (lines 264-307). -/
def xhttpAdds (J : EncodingJSON) (inbounds : List InboundDetourConfig)
    (orig : Option InboundDetourConfig) (clientIndex subIndex : Nat)
    (sub : SubscriptionProfile) : List (String × String) :=
  (if sub.Host ≠ "" then [("host", QueryEscape sub.Host)]
    else if sub.Network = "http" ∨ sub.Network = "xhttp" ∨ sub.Network = "ws" ∨
        sub.Network = "httpupgrade" then [("host", QueryEscape sub.Address)]
    else []) ++
  (match orig with
    | some ib =>
      match ib.StreamSetting with
      | some ss =>
        match ss.XHTTPSettings with
        | some x => [("path", QueryEscape x.Path)]
        | none => []
      | none => []
    | none => []) ++
  [("mode", if sub.Mode = "" then "auto" else sub.Mode)] ++
  (if goLen sub.Extra > 2 then
      match J.UnmarshalMap sub.Extra with
      | some extraConfig =>
        [("extra", QueryEscape (J.Marshal
          (mergeExtra extraConfig (getRealityShortID inbounds clientIndex) subIndex)))]
      | none => []
    else [])

/-- The parameters added by the case `"http", "ws", "httpupgrade"` (lines 309-321). -/
def httpAdds (subNetwork : String) (sub : SubscriptionProfile) : List (String × String) :=
  [("host", QueryEscape
    (if sub.Host ≠ "" then (if subNetwork = "http" then removeSpaces sub.Host else sub.Host)
      else sub.Address))] ++
  (if sub.Path ≠ "" ∧ sub.Path ≠ "/" then [("path", QueryEscape sub.Path)] else [])

/-- The parameters added by the case `"grpc"` (lines 322-336). -/
def grpcAdds (orig : Option InboundDetourConfig) (sub : SubscriptionProfile) :
    List (String × String) :=
  match orig with
  | some ib =>
    match ib.StreamSetting with
    | some ss =>
      match ss.GRPCSettings with
      | some grpcSettings =>
        [("serviceName", QueryEscape (grpcServiceName grpcSettings.ServiceName)),
         ("mode", if sub.Mode = "" then "gun" else sub.Mode)]
      | none => []
    | none => []
  | none => []

/-- The parameters added by the case `"kcp"` (lines 337-349). -/
def kcpAdds (J : EncodingJSON) (orig : Option InboundDetourConfig) : List (String × String) :=
  match orig with
  | some ib =>
    match ib.StreamSetting with
    | some ss =>
      match ss.KCPSettings with
      | some kcpSettings =>
        (match kcpSettings.HeaderConfig with
          | some raw =>
            match J.UnmarshalHeaderType raw with
            | some t => if t ≠ "none" then [("headerType", t)] else []
            | none => []
          | none => []) ++
        (match kcpSettings.Seed with
          | some seed => [("seed", QueryEscape seed)]
          | none => [])
      | none => []
    | none => []
  | none => []

/-- The parameters added by the switch on `subNetwork` (lines 263-350). -/
def transportAdds (J : EncodingJSON) (inbounds : List InboundDetourConfig)
    (clientIndex subIndex : Nat) (sub : SubscriptionProfile) (subNetwork : String) :
    List (String × String) :=
  if subNetwork = "xhttp" then
    xhttpAdds J inbounds (originalInbound inbounds sub subNetwork) clientIndex subIndex sub
  else if subNetwork = "http" ∨ subNetwork = "ws" ∨ subNetwork = "httpupgrade" then
    httpAdds subNetwork sub
  else if subNetwork = "grpc" then grpcAdds (originalInbound inbounds sub subNetwork) sub
  else if subNetwork = "kcp" then kcpAdds J (originalInbound inbounds sub subNetwork)
  else []

/-- The parameters added by the case `"tls"` (lines 353-368). -/
def tlsAdds (sub : SubscriptionProfile) : List (String × String) :=
  (if sub.Fingerprint ≠ "" then [("fp", sub.Fingerprint)] else []) ++
  (if sub.ServerName ≠ "" then [("sni", sub.ServerName)] else []) ++
  (if sub.Alpn.length > 0 then [("alpn", QueryEscape (",".intercalate sub.Alpn))] else []) ++
  (if sub.EchConfigList ≠ "" then [("ech", QueryEscape sub.EchConfigList)] else [])

/-- The parameters added by the case `"reality"` (lines 369-410) when the
password is not empty. -/
def realityAdds (inbounds : List InboundDetourConfig) (clientIndex : Nat)
    (client : clientInfo) (subIndex : Nat) (sub : SubscriptionProfile) :
    List (String × String) :=
  [("fp", if sub.Fingerprint = "" then "chrome" else sub.Fingerprint)] ++
  (if sub.ServerName ≠ "" then [("sni", sub.ServerName)] else []) ++
  (if sub.Flow ≠ "" then [] else if client.Flow = "" then [] else [("flow", client.Flow)]) ++
  [("pbk", sub.Password)] ++
  (if sub.Mldsa65Verify ≠ "" then [("pqv", QueryEscape sub.Mldsa65Verify)] else []) ++
  (if getRealityShortID inbounds clientIndex ≠ "" then
      [("sid", getRealityShortID inbounds clientIndex)] else []) ++
  [("spx", escapeBytes (spiderX (goBytes (getRealityShortID inbounds clientIndex)) subIndex))]

/-- The parameters added by the switch on `security` (lines 352-411). -/
def securityAdds (inbounds : List InboundDetourConfig) (clientIndex : Nat)
    (client : clientInfo) (subIndex : Nat) (sub : SubscriptionProfile) (security : String) :
    List (String × String) :=
  if security = "tls" then tlsAdds sub
  else if security = "reality" then realityAdds inbounds clientIndex client subIndex sub
  else []

/-- All parameters added for one pair of a client and a profile, in the
order added. -/
def allAdds (J : EncodingJSON) (inbounds : List InboundDetourConfig)
    (clientIndex : Nat) (client : clientInfo) (subIndex : Nat) (sub : SubscriptionProfile) :
    List (String × String) :=
  commonAdds sub (profileNetwork sub) ++
  transportAdds J inbounds clientIndex subIndex sub (profileNetwork sub) ++
  securityAdds inbounds clientIndex client subIndex sub (profileSecurity sub)

/-- The parameter keys a link can carry, each before the keys that can be
added after it. -/
def parameterKeys : List String :=
  ["type", "encryption", "security", "host", "path", "serviceName", "mode", "extra",
   "headerType", "seed", "fp", "sni", "alpn", "ech", "flow", "pbk", "pqv", "sid", "spx"]

/-- The order of `sort.Strings` on keys: byte-wise lexicographic `≤`. -/
abbrev keyLe (a b : String) : Prop := bytesLe (goBytes a) (goBytes b) = true

/-- One `key=value` pair of an encoded query, as `url.Values.Encode` writes it. -/
def encodePair (k x : String) : String := QueryEscape k ++ "=" ++ QueryEscape x

/-- The short-id list of an inbound that has protocol `vless`, security
`reality` and a non-empty short-id list; `none` for every other inbound. -/
def realityShortIdsOf (ib : InboundDetourConfig) : Option (List String) :=
  match ib.StreamSetting with
  | some ss =>
    match ss.REALITYSettings with
    | some rs =>
      if ib.Protocol = "vless" ∧ ss.Security = "reality" ∧ rs.ShortIds ≠ [] then
        some rs.ShortIds
      else none
    | none => none
  | none => none

/-- The short-id list of the first inbound that has protocol `vless`,
security `reality` and a non-empty short-id list. -/
def firstRealityShortIds (inbounds : List InboundDetourConfig) : Option (List String) :=
  (inbounds.filterMap realityShortIdsOf).head?

/-- A client with the given id and flow, no email and level 0. -/
def sampleFlowClient (id flow : String) : clientInfo :=
  ⟨id, "", flow, 0⟩

/-- An inbound with protocol `vless`, security `reality`, the given network,
short ids and clients, and no transport settings. -/
def sampleRealityInbound (network : String) (shortIds : List String)
    (clients : List clientInfo) : InboundDetourConfig :=
  ⟨"vless", some ⟨some network, "reality", some ⟨shortIds⟩, none, none, none⟩, clients⟩

/-! ## The alias of `tcp` and `raw` -/

/-- Two network settings that the alias identifies: they are equal, or each
of them is unset, `tcp` or `raw`. -/
def networkAlias (a b : Option String) : Prop :=
  a = b ∨ ((a = none ∨ a = some "tcp" ∨ a = some "raw") ∧
    (b = none ∨ b = some "tcp" ∨ b = some "raw"))

/-- Stream settings that hold nothing but a network setting. -/
def networkOnly (ss : StreamConfig) : Prop :=
  ss.Security = "" ∧ ss.REALITYSettings = none ∧ ss.XHTTPSettings = none ∧
    ss.GRPCSettings = none ∧ ss.KCPSettings = none

/-- Two inbounds that differ at most in how the network `tcp` is written:
unset, `tcp` or `raw`. -/
def inboundAlias (ib ib2 : InboundDetourConfig) : Prop :=
  ib2.Protocol = ib.Protocol ∧ ib2.Clients = ib.Clients ∧
  match ib.StreamSetting, ib2.StreamSetting with
  | some ss, some ss2 =>
    networkAlias ss.Network ss2.Network ∧ ss2 = { ss with Network := ss2.Network }
  | none, none => True
  | none, some ss2 => networkOnly ss2 ∧ networkAlias none ss2.Network
  | some ss, none => networkOnly ss ∧ networkAlias ss.Network none

/-- Two profiles that differ at most in writing `tcp` for `raw` or `raw` for
`tcp` as their network. -/
def profileAlias (p p2 : SubscriptionProfile) : Prop :=
  p2 = { p with Network := p2.Network } ∧
  (p.Network = p2.Network ∨
    ((p.Network = "tcp" ∨ p.Network = "raw") ∧ (p2.Network = "tcp" ∨ p2.Network = "raw")))

/-- An inbound with its network written out in normalized form. -/
def normalizeInbound (ib : InboundDetourConfig) : InboundDetourConfig :=
  { ib with
    StreamSetting := some
      (match ib.StreamSetting with
        | some ss => { ss with Network := some (inboundNetwork ib) }
        | none => ⟨some "raw", "", none, none, none, none⟩) }

/-- A profile with its network written in normalized form. -/
def normalizeProfile (p : SubscriptionProfile) : SubscriptionProfile :=
  { p with Network := profileNetwork p }

/-! ## A codec given by tables, for examples -/

mutual
/-- Equality of decoded JSON values. -/
def Json.beq : Json → Json → Bool
  | Json.null, Json.null => true
  | Json.bool a, Json.bool b => a == b
  | Json.number a, Json.number b => a == b
  | Json.string a, Json.string b => a == b
  | Json.array a, Json.array b => jsonListBeq a b
  | Json.object a, Json.object b => jsonObjectBeq a b
  | _, _ => false
/-- Equality of lists of decoded JSON values. -/
def jsonListBeq : List Json → List Json → Bool
  | [], [] => true
  | x :: xs, y :: ys => x.beq y && jsonListBeq xs ys
  | _, _ => false
/-- Equality of decoded JSON objects, entry by entry. -/
def jsonObjectBeq : List (String × Json) → List (String × Json) → Bool
  | [], [] => true
  | (k, x) :: xs, (l, y) :: ys => k == l && x.beq y && jsonObjectBeq xs ys
  | _, _ => false
end

/-- The text listed for an object in a table of marshalled objects, the
empty text when the object is not listed. -/
def marshalFrom : List (JsonObject × String) → JsonObject → String
  | [], _ => ""
  | (m, text) :: rest, obj => if jsonObjectBeq m obj then text else marshalFrom rest obj

/-- A codec that knows the documents and objects of two tables: `docs`
lists, for a text, the object `json.Unmarshal` decodes it to together with
the decoded `downloadSettings.security`; `texts` lists, for an object, the
text `json.Marshal` writes.  Any other text is reported as an error. -/
def tableJSON (docs : List (String × JsonObject × String))
    (texts : List (JsonObject × String)) : EncodingJSON :=
  { UnmarshalMap := fun raw => (docs.lookup raw).map Prod.fst
    UnmarshalDownloadSecurity := fun raw => (docs.lookup raw).map Prod.snd
    UnmarshalHeaderType := fun _ => none
    Marshal := marshalFrom texts }

/-- The update of `rs` at lines 285-290: `shortId` is set when it is absent
and a short id is selected. -/
def fillShortId (rs : JsonObject) (sid : String) : JsonObject :=
  match jsonGet rs "shortId" with
  | some _ => rs
  | none => if sid ≠ "" then jsonSet rs "shortId" (Json.string (goBytes sid)) else rs

/-- The update of `rs` at lines 291-300: `spiderX` is set when it is absent. -/
def fillSpiderX (rs : JsonObject) (subIndex : Nat) : JsonObject :=
  match jsonGet rs "spiderX" with
  | some _ => rs
  | none =>
    jsonSet rs "spiderX" (Json.string (spiderX
      (match jsonGet rs "shortId" with
        | some (Json.string b) => b
        | _ => []) subIndex))

/-- The text `{"downloadSettings":{"security":"reality"}}`. -/
def bareRealityText : String :=
  "\x7b\"downloadSettings\":\x7b\"security\":\"reality\"\x7d\x7d"

/-- The object the text `bareRealityText` decodes to. -/
def bareRealityObject : JsonObject :=
  [("downloadSettings", Json.object [("security", Json.string (goBytes "reality"))])]

/-- The text `{"downloadSettings":{"realitySettings":{},"security":"reality"}}`. -/
def emptyRealityText : String :=
  "\x7b\"downloadSettings\":\x7b\"realitySettings\":\x7b\x7d,\"security\":\"reality\"\x7d\x7d"

/-- The object the text `emptyRealityText` decodes to. -/
def emptyRealityObject : JsonObject :=
  [("downloadSettings", Json.object
    [("realitySettings", Json.object []), ("security", Json.string (goBytes "reality"))])]

/-- The text `{"downloadSettings":{"realitySettings":{"shortId":"ab12cd34",
"spiderX":"get-ab12cd34"},"security":"reality"}}`, written without the line
break. -/
def filledRealityText : String :=
  "\x7b\"downloadSettings\":\x7b\"realitySettings\":\x7b\"shortId\":\"ab12cd34\"," ++
  "\"spiderX\":\"get-ab12cd34\"\x7d,\"security\":\"reality\"\x7d\x7d"

/-- The object the text `filledRealityText` decodes to. -/
def filledRealityObject : JsonObject :=
  [("downloadSettings", Json.object
    [("realitySettings", Json.object
      [("shortId", Json.string (goBytes "ab12cd34")),
       ("spiderX", Json.string (goBytes "get-ab12cd34"))]),
     ("security", Json.string (goBytes "reality"))])]

/-- A codec that agrees with `encoding/json` on the three sample texts and
their objects. -/
def realityJSON : EncodingJSON :=
  tableJSON
    [(bareRealityText, bareRealityObject, "reality"),
     (emptyRealityText, emptyRealityObject, "reality"),
     (filledRealityText, filledRealityObject, "reality")]
    [(bareRealityObject, bareRealityText),
     (emptyRealityObject, emptyRealityText),
     (filledRealityObject, filledRealityText)]

/-- A codec that agrees with `encoding/json` on the texts `{ }` and `{}`,
which both decode to the empty object, written `{}`. -/
def emptyObjectJSON : EncodingJSON :=
  tableJSON [("\x7b \x7d", [], ""), ("\x7b\x7d", [], "")] [([], "\x7b\x7d")]

/-- The value of `finalURL` when it is appended to `generatedLinks` (lines
413-434) for the parameter map `queryParams` and the description `desp`. -/
def finalURL (client : clientInfo) (sub : SubscriptionProfile) (queryParams : Values)
    (desp : String) : String :=
  (if Values.Encode queryParams ≠ "" then baseURL client sub ++ "?" ++ Values.Encode queryParams
    else baseURL client sub) ++ "#" ++ QueryEscape desp

/-- The text `{"downloadSettings":{"realitySettings":{"shortId":
"0123456789abcdef"},"security":"reality"}}`, written without the line
break: an `extra` value that supplies a short id of its own. -/
def suppliedRealityText : String :=
  "\x7b\"downloadSettings\":\x7b\"realitySettings\":\x7b\"shortId\":\"0123456789abcdef\"\x7d," ++
  "\"security\":\"reality\"\x7d\x7d"

/-- The object the text `suppliedRealityText` decodes to. -/
def suppliedRealityObject : JsonObject :=
  [("downloadSettings", Json.object
    [("realitySettings", Json.object
      [("shortId", Json.string (goBytes "0123456789abcdef"))]),
     ("security", Json.string (goBytes "reality"))])]

/-- The text `{"downloadSettings":{"realitySettings":{"shortId":
"0123456789abcdef","spiderX":"get-89abcdef"},"security":"reality"}}`, written
without the line breaks. -/
def suppliedFilledText : String :=
  "\x7b\"downloadSettings\":\x7b\"realitySettings\":\x7b\"shortId\":\"0123456789abcdef\"," ++
  "\"spiderX\":\"get-89abcdef\"\x7d,\"security\":\"reality\"\x7d\x7d"

/-- The object the text `suppliedFilledText` decodes to. -/
def suppliedFilledObject : JsonObject :=
  [("downloadSettings", Json.object
    [("realitySettings", Json.object
      [("shortId", Json.string (goBytes "0123456789abcdef")),
       ("spiderX", Json.string (goBytes "get-89abcdef"))]),
     ("security", Json.string (goBytes "reality"))])]

/-- A codec that agrees with `encoding/json` on the two texts with a
supplied short id and their objects. -/
def suppliedJSON : EncodingJSON :=
  tableJSON
    [(suppliedRealityText, suppliedRealityObject, "reality"),
     (suppliedFilledText, suppliedFilledObject, "reality")]
    [(suppliedRealityObject, suppliedRealityText),
     (suppliedFilledObject, suppliedFilledText)]

/-- The value of a hexadecimal digit: `unhex` of `net/url`. -/
def unhex (c : Char) : Option Nat :=
  let n := c.toNat
  if 48 ≤ n ∧ n ≤ 57 then some (n - 48)
  else if 97 ≤ n ∧ n ≤ 102 then some (n - 97 + 10)
  else if 65 ≤ n ∧ n ≤ 70 then some (n - 65 + 10)
  else none

/-- Go `url.QueryUnescape` on the characters of its argument, giving the
bytes of the result; `none` is the error return. -/
def unescapeChars : List Char → Option GoBytes
  | [] => some []
  | c :: rest =>
    if c = '%' then
      match rest with
      | a :: b :: rest2 =>
        match unhex a, unhex b, unescapeChars rest2 with
        | some x, some y, some r => some ((16 * x + y) :: r)
        | _, _, _ => none
      | _ => none
    else if c = '+' then (unescapeChars rest).map (fun r => 32 :: r)
    else (unescapeChars rest).map (fun r => utf8EncodeChar c ++ r)

/-- Go `url.QueryUnescape`, the decoding a reader of the link applies once
to a parameter value. -/
def QueryUnescape (s : String) : Option GoBytes :=
  unescapeChars s.data

/-! ## The smallest bucket position of an id -/

/-- Whether some bucket holds a client with the id at position `i`. -/
def occursAt (categorized : SliceMap clientInfo) (id : String) (i : Nat) : Bool :=
  categorized.any (fun e =>
    match e.2.get? i with
    | some c => c.ID == id
    | none => false)

/-- The smallest position among `i`, `i + 1`, ..., `i + fuel - 1` at which a
bucket holds a client with the id. -/
def smallestIndexFrom (categorized : SliceMap clientInfo) (id : String) : Nat → Nat → Option Nat
  | 0, _ => none
  | fuel + 1, i =>
    if occursAt categorized id i then some i
    else smallestIndexFrom categorized id fuel (i + 1)

/-- The smallest bucket position at which a client with the id occurs, over
all categories; `none` when no bucket holds the id. -/
def smallestIndex (categorized : SliceMap clientInfo) (id : String) : Option Nat :=
  smallestIndexFrom categorized id (maxClients categorized) 0

/-- A codec that agrees with `encoding/json` on the text `null`:
`json.Unmarshal` of `null` into the map returns no error and leaves the map
without entries, and `json.Marshal` writes `null` for that map. -/
def nullJSON : EncodingJSON :=
  tableJSON [("null", [], "")] [([], "null")]

/-! ## Lemmas on maps -/

theorem mapGet_mapAppend {α : Type} (m : SliceMap α) (key : String) (vs : List α) (k : String) :
    mapGet (mapAppend m key vs) k = if key = k then mapGet m k ++ vs else mapGet m k := by
  induction m with
  | nil =>
    by_cases h : key = k <;> simp [mapAppend, mapGet, h]
  | cons e m ih =>
    obtain ⟨k0, v0⟩ := e
    by_cases h0 : k0 = key
    · subst h0
      by_cases h : k0 = k <;> simp [mapAppend, mapGet, h]
    · by_cases h1 : k0 = k
      · subst h1
        simp [mapAppend, mapGet, h0, Ne.symm h0]
      · simp [mapAppend, mapGet, h0, h1, ih]

theorem mapGet_of_not_mem_keys {α : Type} (m : SliceMap α) (k : String)
    (h : k ∉ m.map Prod.fst) : mapGet m k = [] := by
  induction m with
  | nil => rfl
  | cons e m ih =>
    obtain ⟨k0, v0⟩ := e
    simp only [List.map_cons, List.mem_cons, not_or] at h
    simp [mapGet, Ne.symm h.1, ih h.2]

theorem mapGet_of_mem {α : Type} (m : SliceMap α) (k : String) (v : List α)
    (hn : (m.map Prod.fst).Nodup) (h : (k, v) ∈ m) : mapGet m k = v := by
  induction m with
  | nil => cases h
  | cons e m ih =>
    obtain ⟨k0, v0⟩ := e
    simp only [List.map_cons, List.nodup_cons] at hn
    rcases List.mem_cons.1 h with h | h
    · cases h
      simp [mapGet]
    · have hk : k0 ≠ k := by
        rintro rfl
        exact hn.1 (List.mem_map.2 ⟨(k0, v), h, rfl⟩)
      simp [mapGet, hk, ih hn.2 h]

theorem mapGet_perm {α : Type} (m m2 : SliceMap α) (k : String)
    (hn : (m.map Prod.fst).Nodup) (hp : m2.Perm m) : mapGet m2 k = mapGet m k := by
  have hn2 : (m2.map Prod.fst).Nodup := ((hp.map Prod.fst).nodup_iff).2 hn
  by_cases hk : k ∈ m.map Prod.fst
  · obtain ⟨e, he, rfl⟩ := List.mem_map.1 hk
    rw [mapGet_of_mem m e.1 e.2 hn he, mapGet_of_mem m2 e.1 e.2 hn2 (hp.mem_iff.2 he)]
  · have hk2 : k ∉ m2.map Prod.fst := fun h => hk (((hp.map Prod.fst).mem_iff).1 h)
    rw [mapGet_of_not_mem_keys m k hk, mapGet_of_not_mem_keys m2 k hk2]

theorem keys_mapAppend {α : Type} (m : SliceMap α) (key : String) (vs : List α) :
    (mapAppend m key vs).map Prod.fst =
      if key ∈ m.map Prod.fst then m.map Prod.fst else m.map Prod.fst ++ [key] := by
  induction m with
  | nil => simp [mapAppend]
  | cons e m ih =>
    obtain ⟨k0, v0⟩ := e
    by_cases h0 : k0 = key
    · subst h0
      simp [mapAppend]
    · have h1 : ¬ key = k0 := fun h => h0 h.symm
      by_cases hm : key ∈ m.map Prod.fst
      · simp [mapAppend, h0, ih, hm]
      · simp only [mapAppend, h0, if_false, List.map_cons, ih, hm, List.mem_cons, h1, or_self,
          List.cons_append]

theorem nodup_keys_mapAppend {α : Type} (m : SliceMap α) (key : String) (vs : List α)
    (hn : (m.map Prod.fst).Nodup) : ((mapAppend m key vs).map Prod.fst).Nodup := by
  rw [keys_mapAppend]
  by_cases hm : key ∈ m.map Prod.fst
  · simpa [hm] using hn
  · rw [if_neg hm]
    refine List.Nodup.append hn (List.nodup_singleton _) ?_
    intro x hx hx2
    rw [List.mem_singleton] at hx2
    exact hm (hx2 ▸ hx)

theorem nodup_keys_categorizeFrom (inbounds : List InboundDetourConfig)
    (acc : SliceMap clientInfo) (hn : (acc.map Prod.fst).Nodup) :
    ((categorizeFrom acc inbounds).map Prod.fst).Nodup := by
  induction inbounds generalizing acc with
  | nil => simpa [categorizeFrom] using hn
  | cons ib rest ih =>
    unfold categorizeFrom
    split
    · exact ih acc hn
    · simp only
      split
      · exact ih _ (nodup_keys_mapAppend _ _ _ hn)
      · exact ih acc hn

theorem nodup_keys_categorizedClients (inbounds : List InboundDetourConfig) :
    ((categorizedClients inbounds).map Prod.fst).Nodup :=
  nodup_keys_categorizeFrom inbounds [] List.nodup_nil

theorem foldl_max_ge (m : SliceMap clientInfo) (n0 : Nat) :
    n0 ≤ m.foldl (fun m e => if e.2.length > m then e.2.length else m) n0 := by
  induction m generalizing n0 with
  | nil => simp
  | cons e m ih =>
    simp only [List.foldl_cons]
    refine le_trans ?_ (ih _)
    split <;> omega

theorem length_le_foldl_max (m : SliceMap clientInfo) (n0 : Nat) (e : String × List clientInfo)
    (he : e ∈ m) :
    e.2.length ≤ m.foldl (fun m e => if e.2.length > m then e.2.length else m) n0 := by
  induction m generalizing n0 with
  | nil => cases he
  | cons e0 m ih =>
    simp only [List.foldl_cons]
    rcases List.mem_cons.1 he with h | h
    · subst h
      refine le_trans ?_ (foldl_max_ge m _)
      split <;> omega
    · exact ih _ h

theorem length_mapGet_le_maxClients (m : SliceMap clientInfo) (k : String) :
    (mapGet m k).length ≤ maxClients m := by
  induction m with
  | nil => simp [mapGet]
  | cons e m ih =>
    obtain ⟨k0, v0⟩ := e
    by_cases h : k0 = k
    · simp only [mapGet, h, if_true]
      exact length_le_foldl_max ((k0, v0) :: m) 0 (k0, v0) (List.mem_cons_self _ _)
    · simp only [mapGet, h, if_false]
      refine le_trans ih ?_
      unfold maxClients
      simp only [List.foldl_cons]
      generalize hm : (if (k0, v0).2.length > 0 then (k0, v0).2.length else 0) = n1
      clear hm
      -- monotonicity of the fold in its start value
      have mono : ∀ (l : SliceMap clientInfo) (a b : Nat), a ≤ b →
          l.foldl (fun m e => if e.2.length > m then e.2.length else m) a ≤
          l.foldl (fun m e => if e.2.length > m then e.2.length else m) b := by
        intro l
        induction l with
        | nil => intro a b hab; simpa using hab
        | cons e l ihl =>
          intro a b hab
          simp only [List.foldl_cons]
          apply ihl
          split <;> split <;> omega
      exact mono m 0 n1 (Nat.zero_le _)

/-! ## Lemmas on the index loop -/

theorem visitEntry_filtered (f : String → Bool) (i : Nat) (st : MatchState)
    (e : String × List clientInfo) (k : String) :
    mapGet (visitEntry f i st e).filteredClients k =
      mapGet st.filteredClients k ++
        (if e.1 = k then (e.2.get? i).toList.filter (fun c => f c.ID) else []) := by
  unfold visitEntry
  cases hg : e.2.get? i with
  | none => simp
  | some c =>
    by_cases hf : f c.ID = true
    · by_cases hk : e.1 = k <;> simp [hf, hk, mapGet_mapAppend, Option.toList]
    · by_cases hk : e.1 = k <;> simp [hf, hk, Option.toList]

theorem foldl_visitEntry_filtered (f : String → Bool) (i : Nat) (es : SliceMap clientInfo)
    (st : MatchState) (k : String) (hn : (es.map Prod.fst).Nodup) :
    mapGet (es.foldl (visitEntry f i) st).filteredClients k =
      mapGet st.filteredClients k ++
        ((mapGet es k).get? i).toList.filter (fun c => f c.ID) := by
  induction es generalizing st with
  | nil => simp [mapGet, Option.toList]
  | cons e es ih =>
    simp only [List.map_cons, List.nodup_cons] at hn
    simp only [List.foldl_cons]
    rw [ih _ hn.2, visitEntry_filtered]
    obtain ⟨k0, v0⟩ := e
    by_cases hk : k0 = k
    · subst hk
      have : mapGet es k0 = [] := mapGet_of_not_mem_keys es k0 hn.1
      simp [mapGet, this, Option.toList]
    · simp [mapGet, hk]

theorem visitRound_filtered (order : MapOrder clientInfo) (hv : MapOrder.Valid order)
    (f : String → Bool) (categorized : SliceMap clientInfo)
    (hn : (categorized.map Prod.fst).Nodup) (st : MatchState) (i : Nat) (k : String) :
    mapGet (visitRound order f categorized st i).filteredClients k =
      mapGet st.filteredClients k ++
        ((mapGet categorized k).get? i).toList.filter (fun c => f c.ID) := by
  unfold visitRound
  have hp := hv i categorized
  rw [foldl_visitEntry_filtered f i _ st k (((hp.map Prod.fst).nodup_iff).2 hn),
    mapGet_perm categorized _ k hn hp]

theorem visitRounds_filtered (order : MapOrder clientInfo) (hv : MapOrder.Valid order)
    (f : String → Bool) (categorized : SliceMap clientInfo)
    (hn : (categorized.map Prod.fst).Nodup) (n : Nat) (k : String) :
    mapGet (visitRounds order f categorized n).filteredClients k =
      ((mapGet categorized k).take n).filter (fun c => f c.ID) := by
  induction n with
  | zero => simp [visitRounds, MatchState.init, mapGet]
  | succ n ih =>
    unfold visitRounds at ih ⊢
    rw [List.range_succ, List.foldl_append]
    simp only [List.foldl_cons, List.foldl_nil]
    rw [visitRound_filtered order hv f categorized hn _ n k, ih, List.take_succ,
      List.filter_append, List.get?_eq_getElem?]

theorem matchClients_filtered (order : MapOrder clientInfo) (hv : MapOrder.Valid order)
    (superKey : String) (inbounds : List InboundDetourConfig) (uuidQuery : String)
    (k : String) :
    mapGet (matchClients order superKey inbounds uuidQuery).filteredClients k =
      (mapGet (categorizedClients inbounds) k).filter
        (fun c => clientMatches superKey uuidQuery c.ID) := by
  unfold matchClients
  simp only
  rw [visitRounds_filtered order hv _ _ (nodup_keys_categorizedClients inbounds),
    List.take_of_length_le (length_mapGet_le_maxClients _ k)]

theorem inv_init : MatchState.Inv MatchState.init := by
  refine ⟨rfl, List.nodup_nil, ?_⟩
  intro id
  simp [MatchState.init, mapGet]

theorem inv_visitEntry (f : String → Bool) (i : Nat) (st : MatchState)
    (e : String × List clientInfo) (h : MatchState.Inv st) :
    MatchState.Inv (visitEntry f i st e) := by
  obtain ⟨h1, h2, h3⟩ := h
  have hfil := visitEntry_filtered f i st e
  unfold visitEntry at hfil ⊢
  cases hg : e.2.get? i with
  | none => exact ⟨h1, h2, h3⟩
  | some c =>
    rw [hg] at hfil
    by_cases hf : f c.ID = true
    · simp only [hf, if_true] at hfil ⊢
      by_cases hs : st.seenClients.contains c.ID = true
      · simp only [hs, if_true]
        refine ⟨h1, h2, ?_⟩
        intro id
        constructor
        · intro hid
          obtain ⟨k, c2, hc2, rfl⟩ := (h3 id).1 hid
          refine ⟨k, c2, ?_, rfl⟩
          rw [hfil k]
          exact List.mem_append_left _ hc2
        · rintro ⟨k, c2, hc2, rfl⟩
          rw [hfil k] at hc2
          rcases List.mem_append.1 hc2 with hc2 | hc2
          · exact (h3 _).2 ⟨k, c2, hc2, rfl⟩
          · by_cases hk : e.1 = k
            · simp only [hk, if_true, Option.toList, List.mem_filter, List.mem_singleton] at hc2
              rw [hc2.1]
              exact List.elem_iff.1 hs
            · simp [hk] at hc2
      · simp only [hs]
        have hnot : c.ID ∉ st.seenClients := fun hm => hs (List.elem_iff.2 hm)
        refine ⟨by simp [h1], ?_, ?_⟩
        · refine List.Nodup.append h2 (List.nodup_singleton _) ?_
          intro x hx hx2
          rw [List.mem_singleton] at hx2
          exact hnot (hx2 ▸ hx)
        · intro id
          constructor
          · intro hid
            rcases List.mem_append.1 hid with hid | hid
            · obtain ⟨k, c2, hc2, rfl⟩ := (h3 id).1 hid
              refine ⟨k, c2, ?_, rfl⟩
              rw [hfil k]
              exact List.mem_append_left _ hc2
            · rw [List.mem_singleton] at hid
              subst hid
              refine ⟨e.1, c, ?_, rfl⟩
              rw [hfil e.1]
              simp [Option.toList, hf]
          · rintro ⟨k, c2, hc2, rfl⟩
            rw [hfil k] at hc2
            rcases List.mem_append.1 hc2 with hc2 | hc2
            · exact List.mem_append_left _ ((h3 _).2 ⟨k, c2, hc2, rfl⟩)
            · by_cases hk : e.1 = k
              · simp only [hk, if_true, Option.toList, List.mem_filter, List.mem_singleton] at hc2
                rw [hc2.1]
                exact List.mem_append_right _ (List.mem_singleton_self _)
              · simp [hk] at hc2
    · simp only [hf]
      exact ⟨h1, h2, h3⟩

theorem inv_foldl_visitEntry (f : String → Bool) (i : Nat) (es : SliceMap clientInfo)
    (st : MatchState) (h : MatchState.Inv st) :
    MatchState.Inv (es.foldl (visitEntry f i) st) := by
  induction es generalizing st with
  | nil => exact h
  | cons e es ih => exact ih _ (inv_visitEntry f i st e h)

theorem inv_visitRounds (order : MapOrder clientInfo) (f : String → Bool)
    (categorized : SliceMap clientInfo) (n : Nat) :
    MatchState.Inv (visitRounds order f categorized n) := by
  induction n with
  | zero => exact inv_init
  | succ n ih =>
    unfold visitRounds at ih ⊢
    rw [List.range_succ, List.foldl_append]
    exact inv_foldl_visitEntry f n _ _ ih

theorem inv_matchClients (order : MapOrder clientInfo) (superKey : String)
    (inbounds : List InboundDetourConfig) (uuidQuery : String) :
    MatchState.Inv (matchClients order superKey inbounds uuidQuery) :=
  inv_visitRounds order _ _ _

theorem visitEntry_ordered (f : String → Bool) (i : Nat) (st : MatchState)
    (e : String × List clientInfo) (h : MatchState.Inv st) :
    (visitEntry f i st e).orderedMatchedClients =
      (encounterAt f i e).toList.foldl appendUnlessSeen st.orderedMatchedClients := by
  unfold visitEntry encounterAt
  cases hg : e.2.get? i with
  | none => rfl
  | some c =>
    by_cases hf : f c.ID = true
    · simp only [hf, if_true, Option.toList, List.foldl_cons, List.foldl_nil, appendUnlessSeen,
        ← h.1]
    · simp only [hf, Option.toList, List.foldl_nil]
      rfl

theorem foldl_visitEntry_ordered (f : String → Bool) (i : Nat) (es : SliceMap clientInfo)
    (st : MatchState) (h : MatchState.Inv st) :
    (es.foldl (visitEntry f i) st).orderedMatchedClients =
      (es.filterMap (encounterAt f i)).foldl appendUnlessSeen st.orderedMatchedClients := by
  induction es generalizing st with
  | nil => rfl
  | cons e es ih =>
    simp only [List.foldl_cons]
    rw [ih _ (inv_visitEntry f i st e h), visitEntry_ordered f i st e h]
    cases he : encounterAt f i e with
    | none => simp [List.filterMap_cons, he, Option.toList]
    | some c => simp [List.filterMap_cons, he, Option.toList]

theorem visitRound_ordered (order : MapOrder clientInfo) (f : String → Bool)
    (categorized : SliceMap clientInfo) (st : MatchState) (i : Nat) (h : MatchState.Inv st) :
    (visitRound order f categorized st i).orderedMatchedClients =
      ((order i categorized).filterMap (encounterAt f i)).foldl appendUnlessSeen
        st.orderedMatchedClients :=
  foldl_visitEntry_ordered f i (order i categorized) st h

theorem visitRounds_ordered (order : MapOrder clientInfo) (f : String → Bool)
    (categorized : SliceMap clientInfo) (n : Nat) :
    (visitRounds order f categorized n).orderedMatchedClients =
      firstOccurrences (encounters order f categorized n) := by
  induction n with
  | zero => rfl
  | succ n ih =>
    have hinv := inv_visitRounds order f categorized n
    unfold visitRounds at ih hinv ⊢
    rw [List.range_succ, List.foldl_append]
    simp only [List.foldl_cons, List.foldl_nil]
    rw [visitRound_ordered order f categorized _ n hinv, ih]
    unfold firstOccurrences
    rw [encounters, List.foldl_append]

/-! ## Lemmas on the link loops -/

theorem generateLink_eq_some_iff (J : EncodingJSON) (inbounds : List InboundDetourConfig)
    (categorized : SliceMap clientInfo) (clientIndex : Nat) (client : clientInfo)
    (subIndex : Nat) (sub : SubscriptionProfile) (link : String) :
    generateLink J inbounds categorized clientIndex client subIndex sub = some link ↔
      clientExistsForProfile categorized (sub.Protocol ++ "_" ++ profileNetwork sub) client = true ∧
      (sub.Level = -1 ∨ sub.Level ≤ client.Level) ∧
      ∃ queryParams,
        securityParams inbounds clientIndex client subIndex sub (profileSecurity sub)
          (transportParams J inbounds clientIndex subIndex sub (profileNetwork sub)
            (commonParams sub (profileNetwork sub))) = some queryParams ∧
        link = (if Values.Encode queryParams ≠ "" then
            baseURL client sub ++ "?" ++ Values.Encode queryParams
          else baseURL client sub) ++ "#" ++
          QueryEscape (description J sub (profileNetwork sub) (profileSecurity sub)) := by
  unfold generateLink
  simp only
  by_cases hex : clientExistsForProfile categorized
      (sub.Protocol ++ "_" ++ profileNetwork sub) client = true
  · by_cases hlv : sub.Level ≠ -1 ∧ client.Level < sub.Level
    · have : ¬ (sub.Level = -1 ∨ sub.Level ≤ client.Level) := by
        rintro (h | h)
        · exact hlv.1 h
        · exact absurd hlv.2 (not_lt.2 h)
      simp [hex, hlv, this]
    · have hl2 : sub.Level = -1 ∨ sub.Level ≤ client.Level := by
        by_cases h : sub.Level = -1
        · exact Or.inl h
        · exact Or.inr (not_lt.1 fun h2 => hlv ⟨h, h2⟩)
      rw [if_neg (by simp [hex]), if_neg hlv]
      cases hsp : securityParams inbounds clientIndex client subIndex sub (profileSecurity sub)
          (transportParams J inbounds clientIndex subIndex sub (profileNetwork sub)
            (commonParams sub (profileNetwork sub))) with
      | none => simp
      | some q =>
        simp only [Option.some.injEq, hex, hl2, true_and]
        constructor
        · intro h
          exact ⟨q, rfl, h.symm⟩
        · rintro ⟨q2, hq, h⟩
          cases hq
          exact h.symm
  · simp [hex]

theorem profileLoop_cons (J : EncodingJSON) (inbounds : List InboundDetourConfig)
    (categorized : SliceMap clientInfo) (clientIndex : Nat) (client : clientInfo)
    (p : SubscriptionProfile) (ps : List SubscriptionProfile) (start : Nat) :
    profileLoop J inbounds categorized clientIndex client start (p :: ps) =
      (generateLink J inbounds categorized clientIndex client start p).toList ++
        profileLoop J inbounds categorized clientIndex client (start + 1) ps := by
  rw [profileLoop]
  cases generateLink J inbounds categorized clientIndex client start p <;> rfl

theorem mem_profileLoop (J : EncodingJSON) (inbounds : List InboundDetourConfig)
    (categorized : SliceMap clientInfo) (clientIndex : Nat) (client : clientInfo)
    (profiles : List SubscriptionProfile) (start : Nat) (link : String) :
    link ∈ profileLoop J inbounds categorized clientIndex client start profiles ↔
      ∃ j sub, profiles.get? j = some sub ∧
        generateLink J inbounds categorized clientIndex client (start + j) sub = some link := by
  induction profiles generalizing start with
  | nil => simp [profileLoop]
  | cons p ps ih =>
    rw [profileLoop_cons, List.mem_append, Option.mem_toList, Option.mem_def, ih]
    constructor
    · rintro (h | ⟨j, sub, hj, hg⟩)
      · exact ⟨0, p, rfl, by simpa using h⟩
      · exact ⟨j + 1, sub, by simpa using hj, by rw [← hg]; congr 1; omega⟩
    · rintro ⟨j, sub, hj, hg⟩
      cases j with
      | zero =>
        simp only [List.get?_cons_zero, Option.some.injEq] at hj
        subst hj
        exact Or.inl (by simpa using hg)
      | succ j =>
        refine Or.inr ⟨j, sub, by simpa using hj, ?_⟩
        rw [← hg]; congr 1; omega

theorem mem_clientLoop (body : Nat → clientInfo → List String) (clients : List clientInfo)
    (start : Nat) (link : String) :
    link ∈ clientLoop body start clients ↔
      ∃ i client, clients.get? i = some client ∧ link ∈ body (start + i) client := by
  induction clients generalizing start with
  | nil => simp [clientLoop]
  | cons c cs ih =>
    unfold clientLoop
    rw [List.mem_append, ih]
    constructor
    · rintro (h | ⟨i, client, hi, hl⟩)
      · exact ⟨0, c, rfl, by simpa using h⟩
      · exact ⟨i + 1, client, by simpa using hi, by rw [show start + (i + 1) = start + 1 + i by omega]; exact hl⟩
    · rintro ⟨i, client, hi, hl⟩
      cases i with
      | zero =>
        simp only [List.get?_cons_zero, Option.some.injEq] at hi
        subst hi
        exact Or.inl (by simpa using hl)
      | succ i =>
        refine Or.inr ⟨i, client, by simpa using hi, ?_⟩
        rw [show start + 1 + i = start + (i + 1) by omega]; exact hl

theorem generateSubscriptionLinks_ok (J : EncodingJSON) (order : MapOrder clientInfo)
    (superKey : String) (inbounds : List InboundDetourConfig)
    (profiles : List SubscriptionProfile) (uuidQuery : String)
    (hf : foundSpecialProtocol inbounds = true) :
    generateSubscriptionLinks J order superKey inbounds profiles uuidQuery =
      Except.ok (clientLoop
        (fun clientIndex client =>
          profileLoop J inbounds (categorizedClients inbounds) clientIndex client 0 profiles)
        0 (matchClients order superKey inbounds uuidQuery).orderedMatchedClients) := by
  unfold generateSubscriptionLinks
  simp [hf]

theorem mem_generateSubscriptionLinks (J : EncodingJSON) (order : MapOrder clientInfo)
    (superKey : String) (inbounds : List InboundDetourConfig)
    (profiles : List SubscriptionProfile) (uuidQuery : String) (links : List String)
    (h : generateSubscriptionLinks J order superKey inbounds profiles uuidQuery =
      Except.ok links) (link : String) :
    link ∈ links ↔
      ∃ clientIndex client subIndex sub,
        (matchClients order superKey inbounds uuidQuery).orderedMatchedClients.get? clientIndex =
          some client ∧
        profiles.get? subIndex = some sub ∧
        generateLink J inbounds (categorizedClients inbounds) clientIndex client subIndex sub =
          some link := by
  unfold generateSubscriptionLinks at h
  by_cases hf : foundSpecialProtocol inbounds = true
  · simp only [hf, Bool.not_true, Bool.false_eq_true, if_false, Except.ok.injEq] at h
    subst h
    rw [mem_clientLoop]
    constructor
    · rintro ⟨i, client, hi, hl⟩
      obtain ⟨j, sub, hj, hg⟩ := (mem_profileLoop _ _ _ _ _ _ _ _).1 hl
      exact ⟨i, client, j, sub, hi, hj, by simpa using hg⟩
    · rintro ⟨i, client, j, sub, hi, hj, hg⟩
      exact ⟨i, client, hi, (mem_profileLoop _ _ _ _ _ _ _ _).2 ⟨j, sub, hj, by simpa using hg⟩⟩
  · simp [hf] at h

/-! ## Lemmas on escaping -/

theorem goBytes_append (s t : String) : goBytes (s ++ t) = goBytes s ++ goBytes t := by
  unfold goBytes
  rw [String.data_append, List.foldr_append]
  induction s.data with
  | nil => rfl
  | cons c cs ih => simp only [List.foldr_cons, ih, List.append_assoc]

theorem escapeBytes_append (a b : GoBytes) :
    escapeBytes (a ++ b) = escapeBytes a ++ escapeBytes b := by
  apply String.ext
  unfold escapeBytes
  rw [String.data_append, List.foldr_append]
  show List.foldr (fun b acc => escapeByte b ++ acc)
      (List.foldr (fun b acc => escapeByte b ++ acc) [] b) a =
    List.foldr (fun b acc => escapeByte b ++ acc) [] a ++
      List.foldr (fun b acc => escapeByte b ++ acc) [] b
  induction a with
  | nil => rfl
  | cons x xs ih => simp only [List.foldr_cons, ih, List.append_assoc]

theorem QueryEscape_append (s t : String) :
    QueryEscape (s ++ t) = QueryEscape s ++ QueryEscape t := by
  unfold QueryEscape
  rw [goBytes_append, escapeBytes_append]

theorem unreserved_lt (n : Nat) (h : unreserved n = true) : n < 0x80 ∧ n ≠ 32 := by
  unfold unreserved at h
  simp only [Bool.or_eq_true, Bool.and_eq_true, decide_eq_true_eq, beq_iff_eq] at h
  omega

theorem escape_unreserved_chars (cs : List Char) (h : ∀ c ∈ cs, unreserved c.toNat = true) :
    List.foldr (fun b acc => escapeByte b ++ acc) []
      (List.foldr (fun c acc => utf8EncodeChar c ++ acc) [] cs) = cs := by
  induction cs with
  | nil => rfl
  | cons c cs ih =>
    have hc := h c (List.mem_cons_self _ _)
    have hlt := unreserved_lt c.toNat hc
    have e1 : utf8EncodeChar c = [c.toNat] := by
      unfold utf8EncodeChar
      simp [hlt.1]
    have e2 : escapeByte c.toNat = [c] := by
      unfold escapeByte
      simp [hlt.2, hc, Char.ofNat_toNat]
    simp only [List.foldr_cons, e1, List.singleton_append, e2]
    rw [ih (fun c2 hc2 => h c2 (List.mem_cons_of_mem _ hc2))]

theorem QueryEscape_unreserved (s : String) (h : ∀ c ∈ s.data, unreserved c.toNat = true) :
    QueryEscape s = s := by
  apply String.ext
  exact escape_unreserved_chars s.data h

theorem profileSecurity_eq_reality_iff (sub : SubscriptionProfile) :
    profileSecurity sub = "reality" ↔ sub.Security = "reality" := by
  unfold profileSecurity
  constructor
  · intro h
    split at h
    · exact h
    · exact absurd h (by decide)
  · intro h
    rw [h]
    decide

theorem securityParams_isSome_iff (inbounds : List InboundDetourConfig) (clientIndex : Nat)
    (client : clientInfo) (subIndex : Nat) (sub : SubscriptionProfile) (q : Values) :
    (∃ r, securityParams inbounds clientIndex client subIndex sub (profileSecurity sub) q =
        some r) ↔ ¬ (sub.Security = "reality" ∧ sub.Password = "") := by
  unfold securityParams
  by_cases htls : profileSecurity sub = "tls"
  · rw [if_pos htls]
    have hne : sub.Security ≠ "reality" := by
      intro h
      rw [(profileSecurity_eq_reality_iff sub).2 h] at htls
      exact absurd htls (by decide)
    exact ⟨fun _ h => hne h.1, fun _ => ⟨_, rfl⟩⟩
  · rw [if_neg htls]
    by_cases hr : profileSecurity sub = "reality"
    · have hs := (profileSecurity_eq_reality_iff sub).1 hr
      rw [if_pos hr]
      unfold realityParams
      by_cases hp : sub.Password = ""
      · simp [hp, hs]
      · simp [hp]
    · rw [if_neg hr]
      exact ⟨fun _ h => hr ((profileSecurity_eq_reality_iff sub).2 h.1), fun _ => ⟨_, rfl⟩⟩

theorem generateLink_isSome_iff (J : EncodingJSON) (inbounds : List InboundDetourConfig)
    (categorized : SliceMap clientInfo) (clientIndex : Nat) (client : clientInfo)
    (subIndex : Nat) (sub : SubscriptionProfile) :
    (∃ link, generateLink J inbounds categorized clientIndex client subIndex sub = some link) ↔
      passesGates categorized client sub := by
  unfold passesGates
  constructor
  · rintro ⟨link, h⟩
    obtain ⟨h1, h2, q, hq, _⟩ := (generateLink_eq_some_iff _ _ _ _ _ _ _ _).1 h
    exact ⟨h1, h2, (securityParams_isSome_iff _ _ _ _ _ _).1 ⟨q, hq⟩⟩
  · rintro ⟨h1, h2, h3⟩
    obtain ⟨q, hq⟩ := (securityParams_isSome_iff inbounds clientIndex client subIndex sub
      (transportParams J inbounds clientIndex subIndex sub (profileNetwork sub)
        (commonParams sub (profileNetwork sub)))).2 h3
    exact ⟨_, (generateLink_eq_some_iff _ _ _ _ _ _ _ _).2 ⟨h1, h2, q, hq, rfl⟩⟩

theorem profileLoop_eq_filterMap (J : EncodingJSON) (inbounds : List InboundDetourConfig)
    (categorized : SliceMap clientInfo) (clientIndex : Nat) (client : clientInfo)
    (profiles : List SubscriptionProfile) (start : Nat) :
    profileLoop J inbounds categorized clientIndex client start profiles =
      (profiles.enumFrom start).filterMap
        (fun y => generateLink J inbounds categorized clientIndex client y.1 y.2) := by
  induction profiles generalizing start with
  | nil => rfl
  | cons p ps ih =>
    rw [profileLoop_cons, ih, List.enumFrom_cons, List.filterMap_cons]
    cases generateLink J inbounds categorized clientIndex client start p <;> rfl

theorem clientLoop_eq_flatten (body : Nat → clientInfo → List String)
    (clients : List clientInfo) (start : Nat) :
    clientLoop body start clients =
      ((clients.enumFrom start).map (fun x => body x.1 x.2)).flatten := by
  induction clients generalizing start with
  | nil => rfl
  | cons c cs ih =>
    rw [clientLoop, ih, List.enumFrom_cons, List.map_cons, List.flatten_cons]

theorem length_profileLoop_le (J : EncodingJSON) (inbounds : List InboundDetourConfig)
    (categorized : SliceMap clientInfo) (clientIndex : Nat) (client : clientInfo)
    (profiles : List SubscriptionProfile) (start : Nat) :
    (profileLoop J inbounds categorized clientIndex client start profiles).length ≤
      profiles.length := by
  induction profiles generalizing start with
  | nil => simp [profileLoop]
  | cons p ps ih =>
    rw [profileLoop_cons, List.length_append, List.length_cons]
    have := ih (start + 1)
    cases generateLink J inbounds categorized clientIndex client start p <;>
      simp [Option.toList] <;> omega

theorem length_clientLoop_le (body : Nat → clientInfo → List String) (m : Nat)
    (hb : ∀ i c, (body i c).length ≤ m) (clients : List clientInfo) (start : Nat) :
    (clientLoop body start clients).length ≤ clients.length * m := by
  induction clients generalizing start with
  | nil => simp [clientLoop]
  | cons c cs ih =>
    rw [clientLoop, List.length_append, List.length_cons, Nat.succ_mul]
    have h1 := hb start c
    have h2 := ih (start + 1)
    omega

/-! ## Lemmas on the parameters of a link -/

theorem addAll_cons (q : Values) (a : String × String) (adds : List (String × String)) :
    Values.addAll q (a :: adds) = Values.addAll (Values.Add q a.1 a.2) adds := rfl

theorem addAll_append (q : Values) (a b : List (String × String)) :
    Values.addAll q (a ++ b) = Values.addAll (Values.addAll q a) b := by
  unfold Values.addAll
  rw [List.foldl_append]

theorem mapGet_addAll (q : Values) (adds : List (String × String)) (k : String) :
    mapGet (Values.addAll q adds) k =
      mapGet q k ++ (adds.filter (fun a => a.1 = k)).map Prod.snd := by
  induction adds generalizing q with
  | nil => simp [Values.addAll]
  | cons a adds ih =>
    rw [addAll_cons, ih, Values.Add, mapGet_mapAppend]
    by_cases h : a.1 = k
    · simp [h]
    · simp [h]

theorem commonParams_eq (sub : SubscriptionProfile) (subNetwork : String) :
    commonParams sub subNetwork = Values.addAll [] (commonAdds sub subNetwork) := by
  unfold commonParams commonAdds
  split_ifs <;> rfl

theorem xhttpParams_eq (J : EncodingJSON) (inbounds : List InboundDetourConfig)
    (orig : Option InboundDetourConfig) (clientIndex subIndex : Nat)
    (sub : SubscriptionProfile) (q : Values) :
    xhttpParams J inbounds orig clientIndex subIndex sub q =
      Values.addAll q (xhttpAdds J inbounds orig clientIndex subIndex sub) := by
  unfold xhttpParams xhttpAdds
  generalize J.UnmarshalMap sub.Extra = um
  rcases orig with _ | ⟨proto, ss, cl⟩
  · cases um <;> split_ifs <;> rfl
  · rcases ss with _ | ⟨n, sec, r, x, g, k⟩
    · cases um <;> split_ifs <;> rfl
    · rcases x with _ | x
      · cases um <;> split_ifs <;> rfl
      · cases um <;> split_ifs <;> rfl

theorem httpParams_eq (subNetwork : String) (sub : SubscriptionProfile) (q : Values) :
    httpParams subNetwork sub q = Values.addAll q (httpAdds subNetwork sub) := by
  unfold httpParams httpAdds
  split_ifs <;> rfl

theorem grpcParams_eq (orig : Option InboundDetourConfig) (sub : SubscriptionProfile)
    (q : Values) : grpcParams orig sub q = Values.addAll q (grpcAdds orig sub) := by
  unfold grpcParams grpcAdds
  rcases orig with _ | ⟨proto, ss, cl⟩
  · rfl
  · rcases ss with _ | ⟨n, sec, r, x, g, k⟩
    · rfl
    · rcases g with _ | g
      · rfl
      · rfl

theorem kcpParams_eq (J : EncodingJSON) (orig : Option InboundDetourConfig) (q : Values) :
    kcpParams J orig q = Values.addAll q (kcpAdds J orig) := by
  unfold kcpParams kcpAdds
  rcases orig with _ | ⟨proto, ss, cl⟩
  · rfl
  · rcases ss with _ | ⟨n, sec, r, x, g, k⟩
    · rfl
    · rcases k with _ | ⟨hc, seed⟩
      · rfl
      · rcases hc with _ | raw
        · cases seed <;> rfl
        · simp only
          generalize J.UnmarshalHeaderType raw = ht
          rcases ht with _ | t
          · cases seed <;> rfl
          · by_cases h : t = "none"
            · subst h
              cases seed <;> rfl
            · cases seed <;> simp [h, Values.addAll]

theorem transportParams_eq (J : EncodingJSON) (inbounds : List InboundDetourConfig)
    (clientIndex subIndex : Nat) (sub : SubscriptionProfile) (subNetwork : String)
    (q : Values) :
    transportParams J inbounds clientIndex subIndex sub subNetwork q =
      Values.addAll q (transportAdds J inbounds clientIndex subIndex sub subNetwork) := by
  unfold transportParams transportAdds
  simp only
  split_ifs
  · exact xhttpParams_eq _ _ _ _ _ _ _
  · exact httpParams_eq _ _ _
  · exact grpcParams_eq _ _ _
  · exact kcpParams_eq _ _ _
  · rfl

theorem tlsParams_eq (sub : SubscriptionProfile) (q : Values) :
    tlsParams sub q = Values.addAll q (tlsAdds sub) := by
  unfold tlsParams tlsAdds
  split_ifs <;> rfl

theorem realityParams_eq (inbounds : List InboundDetourConfig) (clientIndex : Nat)
    (client : clientInfo) (subIndex : Nat) (sub : SubscriptionProfile) (q : Values) :
    realityParams inbounds clientIndex client subIndex sub q =
      if sub.Password = "" then none
      else some (Values.addAll q (realityAdds inbounds clientIndex client subIndex sub)) := by
  unfold realityParams realityAdds
  dsimp only
  split_ifs <;> rfl

theorem securityParams_eq (inbounds : List InboundDetourConfig) (clientIndex : Nat)
    (client : clientInfo) (subIndex : Nat) (sub : SubscriptionProfile) (security : String)
    (q : Values) :
    securityParams inbounds clientIndex client subIndex sub security q =
      if security = "reality" ∧ sub.Password = "" then none
      else some (Values.addAll q
        (securityAdds inbounds clientIndex client subIndex sub security)) := by
  unfold securityParams securityAdds
  by_cases h1 : security = "tls"
  · have h2 : ¬ (security = "reality" ∧ sub.Password = "") := by
      rintro ⟨h, _⟩
      rw [h1] at h
      exact absurd h (by decide)
    rw [if_pos h1, if_pos h1, if_neg h2, tlsParams_eq]
  · rw [if_neg h1, if_neg h1]
    by_cases h3 : security = "reality"
    · rw [if_pos h3, if_pos h3, realityParams_eq]
      by_cases hp : sub.Password = ""
      · rw [if_pos hp, if_pos ⟨h3, hp⟩]
      · rw [if_neg hp, if_neg (fun h => hp h.2)]
    · rw [if_neg h3, if_neg h3, if_neg (fun h => h3 h.1)]
      rfl

theorem queryParamsOf_eq (J : EncodingJSON) (inbounds : List InboundDetourConfig)
    (clientIndex : Nat) (client : clientInfo) (subIndex : Nat) (sub : SubscriptionProfile) :
    queryParamsOf J inbounds clientIndex client subIndex sub =
      if sub.Security = "reality" ∧ sub.Password = "" then none
      else some (Values.addAll [] (allAdds J inbounds clientIndex client subIndex sub)) := by
  unfold queryParamsOf allAdds
  rw [securityParams_eq, transportParams_eq, commonParams_eq, addAll_append, addAll_append]
  by_cases h : sub.Security = "reality" ∧ sub.Password = ""
  · rw [if_pos h, if_pos ⟨(profileSecurity_eq_reality_iff sub).2 h.1, h.2⟩]
  · rw [if_neg h, if_neg (fun h2 => h ⟨(profileSecurity_eq_reality_iff sub).1 h2.1, h2.2⟩)]

theorem generateLink_eq_some_iff_adds (J : EncodingJSON) (inbounds : List InboundDetourConfig)
    (categorized : SliceMap clientInfo) (clientIndex : Nat) (client : clientInfo)
    (subIndex : Nat) (sub : SubscriptionProfile) (link : String) :
    generateLink J inbounds categorized clientIndex client subIndex sub = some link ↔
      passesGates categorized client sub ∧
      link = (if Values.Encode
              (Values.addAll [] (allAdds J inbounds clientIndex client subIndex sub)) ≠ "" then
            baseURL client sub ++ "?" ++ Values.Encode
              (Values.addAll [] (allAdds J inbounds clientIndex client subIndex sub))
          else baseURL client sub) ++ "#" ++
          QueryEscape (description J sub (profileNetwork sub) (profileSecurity sub)) := by
  rw [generateLink_eq_some_iff]
  have hq := queryParamsOf_eq J inbounds clientIndex client subIndex sub
  unfold queryParamsOf at hq
  rw [hq]
  unfold passesGates
  by_cases h : sub.Security = "reality" ∧ sub.Password = ""
  · simp [h]
  · rw [if_neg h]
    constructor
    · rintro ⟨h1, h2, q, hq2, hl⟩
      cases hq2
      exact ⟨⟨h1, h2, h⟩, hl⟩
    · rintro ⟨⟨h1, h2, _⟩, hl⟩
      exact ⟨h1, h2, _, rfl, hl⟩

theorem keys_ite_sublist (c : Prop) [Decidable c] (k x : String) :
    List.Sublist ((if c then [(k, x)] else []).map Prod.fst) [k] := by
  split
  · exact List.Sublist.refl _
  · exact List.nil_sublist _

theorem sublist_append_of (l₂ r₂ : List String) {l₁ r₁ : List String}
    (h1 : List.Sublist l₁ l₂) (h2 : List.Sublist r₁ r₂) :
    List.Sublist (l₁ ++ r₁) (l₂ ++ r₂) :=
  List.Sublist.append h1 h2

theorem commonAdds_keys (sub : SubscriptionProfile) (subNetwork : String) :
    List.Sublist ((commonAdds sub subNetwork).map Prod.fst)
      ["type", "encryption", "security"] := by
  unfold commonAdds
  rw [List.map_append, List.map_append]
  refine sublist_append_of ["type", "encryption"] ["security"]
    (sublist_append_of ["type"] ["encryption"] (keys_ite_sublist _ _ _) ?_)
    (keys_ite_sublist _ _ _)
  split_ifs
  · exact List.Sublist.refl _
  · exact List.Sublist.refl _
  · exact List.nil_sublist _
  · exact List.nil_sublist _

theorem xhttpAdds_keys (J : EncodingJSON) (inbounds : List InboundDetourConfig)
    (orig : Option InboundDetourConfig) (clientIndex subIndex : Nat)
    (sub : SubscriptionProfile) :
    List.Sublist ((xhttpAdds J inbounds orig clientIndex subIndex sub).map Prod.fst)
      ["host", "path", "mode", "extra"] := by
  unfold xhttpAdds
  rw [List.map_append, List.map_append, List.map_append]
  refine sublist_append_of ["host", "path", "mode"] ["extra"]
    (sublist_append_of ["host", "path"] ["mode"]
      (sublist_append_of ["host"] ["path"] ?_ ?_) (List.Sublist.refl _)) ?_
  · split_ifs
    · exact List.Sublist.refl _
    · exact List.Sublist.refl _
    · exact List.nil_sublist _
  · rcases orig with _ | ⟨proto, ss, cl⟩
    · exact List.nil_sublist _
    · rcases ss with _ | ⟨n, sec, r, x, g, k⟩
      · exact List.nil_sublist _
      · rcases x with _ | x
        · exact List.nil_sublist _
        · exact List.Sublist.refl _
  · split
    · cases J.UnmarshalMap sub.Extra
      · exact List.nil_sublist _
      · exact List.Sublist.refl _
    · exact List.nil_sublist _

theorem httpAdds_keys (subNetwork : String) (sub : SubscriptionProfile) :
    List.Sublist ((httpAdds subNetwork sub).map Prod.fst) ["host", "path"] := by
  unfold httpAdds
  rw [List.map_append]
  exact sublist_append_of ["host"] ["path"] (List.Sublist.refl _)
    (keys_ite_sublist _ _ _)

theorem grpcAdds_keys (orig : Option InboundDetourConfig) (sub : SubscriptionProfile) :
    List.Sublist ((grpcAdds orig sub).map Prod.fst) ["serviceName", "mode"] := by
  unfold grpcAdds
  rcases orig with _ | ⟨proto, ss, cl⟩
  · exact List.nil_sublist _
  · rcases ss with _ | ⟨n, sec, r, x, g, k⟩
    · exact List.nil_sublist _
    · rcases g with _ | g
      · exact List.nil_sublist _
      · exact List.Sublist.refl _

theorem kcpAdds_keys (J : EncodingJSON) (orig : Option InboundDetourConfig) :
    List.Sublist ((kcpAdds J orig).map Prod.fst) ["headerType", "seed"] := by
  unfold kcpAdds
  rcases orig with _ | ⟨proto, ss, cl⟩
  · exact List.nil_sublist _
  · rcases ss with _ | ⟨n, sec, r, x, g, k⟩
    · exact List.nil_sublist _
    · rcases k with _ | ⟨hc, seed⟩
      · exact List.nil_sublist _
      · simp only [List.map_append]
        refine sublist_append_of ["headerType"] ["seed"] ?_ ?_
        · rcases hc with _ | raw
          · exact List.nil_sublist _
          · simp only
            cases J.UnmarshalHeaderType raw
            · exact List.nil_sublist _
            · exact keys_ite_sublist _ _ _
        · cases seed
          · exact List.nil_sublist _
          · exact List.Sublist.refl _

theorem transportAdds_keys (J : EncodingJSON) (inbounds : List InboundDetourConfig)
    (clientIndex subIndex : Nat) (sub : SubscriptionProfile) (subNetwork : String) :
    List.Sublist ((transportAdds J inbounds clientIndex subIndex sub subNetwork).map Prod.fst)
      ["host", "path", "serviceName", "mode", "extra", "headerType", "seed"] := by
  unfold transportAdds
  split_ifs
  · exact (xhttpAdds_keys _ _ _ _ _ _).trans (by decide)
  · exact (httpAdds_keys _ _).trans (by decide)
  · exact (grpcAdds_keys _ _).trans (by decide)
  · exact (kcpAdds_keys _ _).trans (by decide)
  · exact List.nil_sublist _

theorem tlsAdds_keys (sub : SubscriptionProfile) :
    List.Sublist ((tlsAdds sub).map Prod.fst) ["fp", "sni", "alpn", "ech"] := by
  unfold tlsAdds
  rw [List.map_append, List.map_append, List.map_append]
  exact sublist_append_of ["fp", "sni", "alpn"] ["ech"]
    (sublist_append_of ["fp", "sni"] ["alpn"]
      (sublist_append_of ["fp"] ["sni"] (keys_ite_sublist _ _ _)
        (keys_ite_sublist _ _ _)) (keys_ite_sublist _ _ _)) (keys_ite_sublist _ _ _)

theorem realityAdds_keys (inbounds : List InboundDetourConfig) (clientIndex : Nat)
    (client : clientInfo) (subIndex : Nat) (sub : SubscriptionProfile) :
    List.Sublist ((realityAdds inbounds clientIndex client subIndex sub).map Prod.fst)
      ["fp", "sni", "flow", "pbk", "pqv", "sid", "spx"] := by
  unfold realityAdds
  simp only [List.map_append]
  refine sublist_append_of ["fp", "sni", "flow", "pbk", "pqv", "sid"] ["spx"]
    (sublist_append_of ["fp", "sni", "flow", "pbk", "pqv"] ["sid"]
      (sublist_append_of ["fp", "sni", "flow", "pbk"] ["pqv"]
        (sublist_append_of ["fp", "sni", "flow"] ["pbk"]
          (sublist_append_of ["fp", "sni"] ["flow"]
            (sublist_append_of ["fp"] ["sni"] (List.Sublist.refl _)
              (keys_ite_sublist _ _ _)) ?_) (List.Sublist.refl _))
        (keys_ite_sublist _ _ _)) (keys_ite_sublist _ _ _)) (List.Sublist.refl _)
  split_ifs
  · exact List.nil_sublist _
  · exact List.nil_sublist _
  · exact List.Sublist.refl _

theorem securityAdds_keys (inbounds : List InboundDetourConfig) (clientIndex : Nat)
    (client : clientInfo) (subIndex : Nat) (sub : SubscriptionProfile) (security : String) :
    List.Sublist
      ((securityAdds inbounds clientIndex client subIndex sub security).map Prod.fst)
      ["fp", "sni", "alpn", "ech", "flow", "pbk", "pqv", "sid", "spx"] := by
  unfold securityAdds
  split_ifs
  · exact (tlsAdds_keys _).trans (by decide)
  · exact (realityAdds_keys _ _ _ _ _).trans (by decide)
  · exact List.nil_sublist _

theorem allAdds_keys (J : EncodingJSON) (inbounds : List InboundDetourConfig)
    (clientIndex : Nat) (client : clientInfo) (subIndex : Nat) (sub : SubscriptionProfile) :
    List.Sublist ((allAdds J inbounds clientIndex client subIndex sub).map Prod.fst)
      parameterKeys := by
  unfold allAdds
  rw [List.map_append, List.map_append]
  exact sublist_append_of
    ["type", "encryption", "security", "host", "path", "serviceName", "mode", "extra",
      "headerType", "seed"]
    ["fp", "sni", "alpn", "ech", "flow", "pbk", "pqv", "sid", "spx"]
    (sublist_append_of ["type", "encryption", "security"]
      ["host", "path", "serviceName", "mode", "extra", "headerType", "seed"]
      (commonAdds_keys _ _) (transportAdds_keys _ _ _ _ _ _))
    (securityAdds_keys _ _ _ _ _ _)

theorem allAdds_keys_nodup (J : EncodingJSON) (inbounds : List InboundDetourConfig)
    (clientIndex : Nat) (client : clientInfo) (subIndex : Nat) (sub : SubscriptionProfile) :
    ((allAdds J inbounds clientIndex client subIndex sub).map Prod.fst).Nodup :=
  (allAdds_keys J inbounds clientIndex client subIndex sub).nodup (by decide)

theorem filter_key_eq_nil (adds : List (String × String)) (keys : List String) (k : String)
    (h : List.Sublist (adds.map Prod.fst) keys) (hk : k ∉ keys) :
    adds.filter (fun a => a.1 = k) = [] := by
  rw [List.filter_eq_nil_iff]
  intro a ha
  have : a.1 ∈ keys := h.subset (List.mem_map.2 ⟨a, ha, rfl⟩)
  simp only [decide_eq_true_eq]
  rintro rfl
  exact hk this

/-- The values of a key that only the switch on `security` can add. -/
theorem mapGet_allAdds_security (J : EncodingJSON) (inbounds : List InboundDetourConfig)
    (clientIndex : Nat) (client : clientInfo) (subIndex : Nat) (sub : SubscriptionProfile)
    (k : String) (hk : k ∈ ["fp", "sni", "alpn", "ech", "flow", "pbk", "pqv", "sid", "spx"]) :
    mapGet (Values.addAll [] (allAdds J inbounds clientIndex client subIndex sub)) k =
      ((securityAdds inbounds clientIndex client subIndex sub
        (profileSecurity sub)).filter (fun a => a.1 = k)).map Prod.snd := by
  have hk1 : k ∉ ["type", "encryption", "security"] := by
    simp only [List.mem_cons, List.mem_singleton, List.not_mem_nil, or_false] at hk
    rcases hk with rfl | rfl | rfl | rfl | rfl | rfl | rfl | rfl | rfl <;> decide
  have hk2 : k ∉ ["host", "path", "serviceName", "mode", "extra", "headerType", "seed"] := by
    simp only [List.mem_cons, List.mem_singleton, List.not_mem_nil, or_false] at hk
    rcases hk with rfl | rfl | rfl | rfl | rfl | rfl | rfl | rfl | rfl <;> decide
  rw [mapGet_addAll]
  unfold allAdds
  rw [List.filter_append, List.filter_append,
    filter_key_eq_nil _ _ k (commonAdds_keys _ _) hk1,
    filter_key_eq_nil _ _ k (transportAdds_keys _ _ _ _ _ _) hk2]
  rfl

theorem securityAdds_reality (inbounds : List InboundDetourConfig) (clientIndex : Nat)
    (client : clientInfo) (subIndex : Nat) (sub : SubscriptionProfile)
    (hsec : sub.Security = "reality") :
    securityAdds inbounds clientIndex client subIndex sub (profileSecurity sub) =
      realityAdds inbounds clientIndex client subIndex sub := by
  unfold securityAdds
  rw [(profileSecurity_eq_reality_iff sub).2 hsec, if_neg (by decide), if_pos rfl]

theorem reality_flow (J : EncodingJSON) (inbounds : List InboundDetourConfig)
    (clientIndex : Nat) (client : clientInfo) (subIndex : Nat) (sub : SubscriptionProfile)
    (hsec : sub.Security = "reality") :
    mapGet (Values.addAll [] (allAdds J inbounds clientIndex client subIndex sub)) "flow" =
      if sub.Flow ≠ "" then [] else if client.Flow = "" then [] else [client.Flow] := by
  rw [mapGet_allAdds_security _ _ _ _ _ _ _ (by decide), securityAdds_reality _ _ _ _ _ hsec]
  unfold realityAdds
  split_ifs <;> simp

theorem reality_sid (J : EncodingJSON) (inbounds : List InboundDetourConfig)
    (clientIndex : Nat) (client : clientInfo) (subIndex : Nat) (sub : SubscriptionProfile)
    (hsec : sub.Security = "reality") :
    mapGet (Values.addAll [] (allAdds J inbounds clientIndex client subIndex sub)) "sid" =
      if getRealityShortID inbounds clientIndex ≠ "" then
        [getRealityShortID inbounds clientIndex] else [] := by
  rw [mapGet_allAdds_security _ _ _ _ _ _ _ (by decide), securityAdds_reality _ _ _ _ _ hsec]
  unfold realityAdds
  split_ifs <;> simp

theorem reality_spx (J : EncodingJSON) (inbounds : List InboundDetourConfig)
    (clientIndex : Nat) (client : clientInfo) (subIndex : Nat) (sub : SubscriptionProfile)
    (hsec : sub.Security = "reality") :
    mapGet (Values.addAll [] (allAdds J inbounds clientIndex client subIndex sub)) "spx" =
      [escapeBytes (spiderX (goBytes (getRealityShortID inbounds clientIndex)) subIndex)] := by
  rw [mapGet_allAdds_security _ _ _ _ _ _ _ (by decide), securityAdds_reality _ _ _ _ _ hsec]
  unfold realityAdds
  split_ifs <;> simp

theorem reality_fp (J : EncodingJSON) (inbounds : List InboundDetourConfig)
    (clientIndex : Nat) (client : clientInfo) (subIndex : Nat) (sub : SubscriptionProfile)
    (hsec : sub.Security = "reality") :
    mapGet (Values.addAll [] (allAdds J inbounds clientIndex client subIndex sub)) "fp" =
      [if sub.Fingerprint = "" then "chrome" else sub.Fingerprint] := by
  rw [mapGet_allAdds_security _ _ _ _ _ _ _ (by decide), securityAdds_reality _ _ _ _ _ hsec]
  unfold realityAdds
  split_ifs <;> simp [*]

/-! ## Lemmas on `url.Values.Encode` -/

theorem bytesLe_total (a b : GoBytes) : bytesLe a b = true ∨ bytesLe b a = true := by
  induction a generalizing b with
  | nil => exact Or.inl (by cases b <;> rfl)
  | cons x xs ih =>
    cases b with
    | nil => exact Or.inr rfl
    | cons y ys =>
      simp only [bytesLe, Bool.or_eq_true, Bool.and_eq_true, decide_eq_true_eq, beq_iff_eq]
      rcases Nat.lt_trichotomy x y with h | h | h
      · exact Or.inl (Or.inl h)
      · rcases ih ys with h2 | h2
        · exact Or.inl (Or.inr ⟨h, h2⟩)
        · exact Or.inr (Or.inr ⟨h.symm, h2⟩)
      · exact Or.inr (Or.inl h)

theorem bytesLe_trans (a b c : GoBytes) (h1 : bytesLe a b = true) (h2 : bytesLe b c = true) :
    bytesLe a c = true := by
  induction a generalizing b c with
  | nil => cases c <;> rfl
  | cons x xs ih =>
    cases b with
    | nil => simp [bytesLe] at h1
    | cons y ys =>
      cases c with
      | nil => simp [bytesLe] at h2
      | cons z zs =>
        simp only [bytesLe, Bool.or_eq_true, Bool.and_eq_true, decide_eq_true_eq,
          beq_iff_eq] at h1 h2 ⊢
        rcases h1 with h1 | ⟨h1, h1r⟩
        · rcases h2 with h2 | ⟨h2, _⟩
          · exact Or.inl (lt_trans h1 h2)
          · exact Or.inl (h2 ▸ h1)
        · rcases h2 with h2 | ⟨h2, h2r⟩
          · exact Or.inl (h1 ▸ h2)
          · exact Or.inr ⟨h1.trans h2, ih ys zs h1r h2r⟩

theorem insertKey_eq_orderedInsert (k : String) (l : List String) :
    insertKey k l = List.orderedInsert keyLe k l := by
  induction l with
  | nil => rfl
  | cons x xs ih =>
    unfold insertKey
    rw [List.orderedInsert]
    by_cases h : bytesLe (goBytes k) (goBytes x) = true
    · rw [if_pos h, if_pos h]
    · rw [if_neg h, if_neg h, ih]

theorem sortKeys_eq_insertionSort (ks : List String) :
    sortKeys ks = List.insertionSort keyLe ks := by
  induction ks with
  | nil => rfl
  | cons k ks ih =>
    show insertKey k (sortKeys ks) = List.orderedInsert keyLe k (List.insertionSort keyLe ks)
    rw [ih, insertKey_eq_orderedInsert]

theorem sortKeys_perm (ks : List String) : (sortKeys ks).Perm ks := by
  rw [sortKeys_eq_insertionSort]
  exact List.perm_insertionSort keyLe ks

theorem sortKeys_sorted (ks : List String) : List.Pairwise keyLe (sortKeys ks) := by
  rw [sortKeys_eq_insertionSort]
  exact @List.sorted_insertionSort String keyLe _
    ⟨fun a b => bytesLe_total (goBytes a) (goBytes b)⟩
    ⟨fun a b c => bytesLe_trans (goBytes a) (goBytes b) (goBytes c)⟩ ks

theorem mem_sortKeys (ks : List String) (k : String) : k ∈ sortKeys ks ↔ k ∈ ks :=
  (sortKeys_perm ks).mem_iff

theorem keys_addAll (q : Values) (adds : List (String × String))
    (h : (q.map Prod.fst ++ adds.map Prod.fst).Nodup) :
    (Values.addAll q adds).map Prod.fst = q.map Prod.fst ++ adds.map Prod.fst := by
  induction adds generalizing q with
  | nil => simp [Values.addAll]
  | cons a adds ih =>
    have hnot : a.1 ∉ q.map Prod.fst := by
      intro hm
      have := (List.nodup_append.1 h).2.2 hm
      exact this (by simp)
    have hk : (Values.Add q a.1 a.2).map Prod.fst = q.map Prod.fst ++ [a.1] := by
      unfold Values.Add
      rw [keys_mapAppend, if_neg hnot]
    rw [addAll_cons, ih, hk]
    · simp
    · rw [hk]
      simpa using h

theorem mem_pairs (v : Values) (x : String) :
    x ∈ Values.pairs v ↔
      ∃ k ∈ v.map Prod.fst, ∃ y ∈ mapGet v k, x = encodePair k y := by
  unfold Values.pairs
  have gen : ∀ ks : List String,
      x ∈ ks.foldr (fun k acc =>
        (mapGet v k).map (fun x => QueryEscape k ++ "=" ++ QueryEscape x) ++ acc) [] ↔
      ∃ k ∈ ks, ∃ y ∈ mapGet v k, x = encodePair k y := by
    intro ks
    induction ks with
    | nil => simp
    | cons k ks ih =>
      simp only [List.foldr_cons, List.mem_append, List.mem_map, ih, List.mem_cons,
        exists_eq_or_imp, encodePair]
      constructor
      · rintro (⟨y, hy, rfl⟩ | h)
        · exact Or.inl ⟨y, hy, rfl⟩
        · exact Or.inr h
      · rintro (⟨y, hy, rfl⟩ | h)
        · exact Or.inl ⟨y, hy, rfl⟩
        · exact Or.inr h
  rw [gen]
  constructor
  · rintro ⟨k, hk, r⟩
    exact ⟨k, (mem_sortKeys _ k).1 hk, r⟩
  · rintro ⟨k, hk, r⟩
    exact ⟨k, (mem_sortKeys _ k).2 hk, r⟩

theorem keys_allAdds (J : EncodingJSON) (inbounds : List InboundDetourConfig)
    (clientIndex : Nat) (client : clientInfo) (subIndex : Nat) (sub : SubscriptionProfile) :
    (Values.addAll [] (allAdds J inbounds clientIndex client subIndex sub)).map Prod.fst =
      (allAdds J inbounds clientIndex client subIndex sub).map Prod.fst := by
  rw [keys_addAll]
  · rfl
  · simpa using allAdds_keys_nodup J inbounds clientIndex client subIndex sub

/-- A parameter found in the map is written into the encoded query. -/
theorem encodePair_mem_pairs (v : Values) (k y : String) (h : y ∈ mapGet v k) :
    encodePair k y ∈ Values.pairs v := by
  refine (mem_pairs v _).2 ⟨k, ?_, y, h, rfl⟩
  by_contra hk
  rw [mapGet_of_not_mem_keys v k hk] at h
  cases h

theorem queryParamsOf_some (J : EncodingJSON) (inbounds : List InboundDetourConfig)
    (clientIndex : Nat) (client : clientInfo) (subIndex : Nat) (sub : SubscriptionProfile)
    (q : Values) (h : queryParamsOf J inbounds clientIndex client subIndex sub = some q) :
    q = Values.addAll [] (allAdds J inbounds clientIndex client subIndex sub) := by
  rw [queryParamsOf_eq] at h
  split at h
  · cases h
  · cases h
    rfl

theorem getRealityShortID_eq (inbounds : List InboundDetourConfig) (idx : Nat) :
    getRealityShortID inbounds idx =
      match firstRealityShortIds inbounds with
      | some l => if idx < l.length then l.getD idx "" else l.getD (l.length - 1) ""
      | none => "" := by
  induction inbounds with
  | nil => rfl
  | cons ib rest ih =>
    obtain ⟨proto, ss, cl⟩ := ib
    unfold getRealityShortID firstRealityShortIds
    rw [List.filterMap_cons]
    unfold firstRealityShortIds at ih
    rcases ss with _ | ⟨n, sec, r, x, g, k⟩
    · simpa [realityShortIdsOf] using ih
    · rcases r with _ | ⟨⟨ids⟩⟩
      · simpa [realityShortIdsOf] using ih
      · by_cases hc : proto = "vless" ∧ sec = "reality" ∧ ids ≠ []
        · have hlen : ids.length > 0 := List.length_pos.2 hc.2.2
          simp [realityShortIdsOf, hc, hlen]
        · have hc2 : ¬ (proto = "vless" ∧ sec = "reality" ∧ ids.length > 0) := by
            rintro ⟨h1, h2, h3⟩
            exact hc ⟨h1, h2, List.length_pos.1 h3⟩
          simp only [realityShortIdsOf, hc, hc2, if_false]
          exact ih

theorem firstRealityShortIds_ne_nil (inbounds : List InboundDetourConfig) (l : List String)
    (h : firstRealityShortIds inbounds = some l) : l ≠ [] := by
  unfold firstRealityShortIds at h
  have hm : l ∈ inbounds.filterMap realityShortIdsOf := List.mem_of_mem_head? h
  obtain ⟨ib, _, hib⟩ := List.mem_filterMap.1 hm
  unfold realityShortIdsOf at hib
  rcases hss : ib.StreamSetting with _ | ss
  · simp [hss] at hib
  · rcases hr : ss.REALITYSettings with _ | rs
    · simp [hss, hr] at hib
    · simp only [hss, hr] at hib
      split at hib
      · rename_i hc
        cases hib
        exact hc.2.2
      · cases hib

theorem digitChar_unreserved (m : Nat) (h : m < 10) :
    unreserved (Nat.digitChar m).toNat = true := by
  interval_cases m <;> decide

theorem toDigitsCore_unreserved (fuel n : Nat) (ds : List Char)
    (hds : ∀ c ∈ ds, unreserved c.toNat = true) :
    ∀ c ∈ Nat.toDigitsCore 10 fuel n ds, unreserved c.toNat = true := by
  induction fuel generalizing n ds with
  | zero => simpa [Nat.toDigitsCore] using hds
  | succ fuel ih =>
    have hd : ∀ c ∈ Nat.digitChar (n % 10) :: ds, unreserved c.toNat = true := by
      intro c hc
      rcases List.mem_cons.1 hc with rfl | hc
      · exact digitChar_unreserved _ (Nat.mod_lt _ (by decide))
      · exact hds c hc
    unfold Nat.toDigitsCore
    simp only
    split
    · exact hd
    · exact ih _ _ hd

theorem decimal_unreserved (n : Nat) : ∀ c ∈ (decimal n).data, unreserved c.toNat = true := by
  show ∀ c ∈ (Nat.toDigitsCore 10 (n + 1) n []), unreserved c.toNat = true
  exact toDigitsCore_unreserved _ _ _ (by simp)

theorem decimal05_unreserved (n : Nat) :
    ∀ c ∈ (decimal05 n).data, unreserved c.toNat = true := by
  intro c hc
  unfold decimal05 at hc
  rw [String.data_append, List.mem_append] at hc
  rcases hc with hc | hc
  · rw [List.eq_of_mem_replicate hc]
    decide
  · exact decimal_unreserved n c hc

theorem goBytes_single_byte (cs : List Char) (h : ∀ c ∈ cs, c.toNat < 0x80) :
    List.foldr (fun c acc => utf8EncodeChar c ++ acc) [] cs = cs.map Char.toNat := by
  induction cs with
  | nil => rfl
  | cons c cs ih =>
    have hc := h c (List.mem_cons_self _ _)
    have e1 : utf8EncodeChar c = [c.toNat] := by
      unfold utf8EncodeChar
      simp [hc]
    simp only [List.foldr_cons, e1, List.singleton_append, List.map_cons]
    rw [ih (fun c2 hc2 => h c2 (List.mem_cons_of_mem _ hc2))]

theorem goBytes_drop_unreserved (s : String) (h : ∀ c ∈ s.data, unreserved c.toNat = true)
    (k : Nat) : (goBytes s).drop k = goBytes ⟨s.data.drop k⟩ := by
  unfold goBytes
  rw [goBytes_single_byte s.data (fun c hc => (unreserved_lt _ (h c hc)).1),
    goBytes_single_byte (s.data.drop k)
      (fun c hc => (unreserved_lt _ (h c (List.mem_of_mem_drop hc))).1),
    List.map_drop]

theorem goLen_unreserved (s : String) (h : ∀ c ∈ s.data, unreserved c.toNat = true) :
    goLen s = s.data.length := by
  unfold goLen goBytes
  rw [goBytes_single_byte s.data (fun c hc => (unreserved_lt _ (h c hc)).1), List.length_map]

theorem escapeBytes_spiderX_long (sid : String) (subIndex : Nat)
    (h : ∀ c ∈ sid.data, unreserved c.toNat = true) (hlen : 8 ≤ goLen sid) :
    escapeBytes (spiderX (goBytes sid) subIndex) =
      "get-" ++ String.mk (sid.data.drop (sid.data.length - 8)) := by
  unfold spiderX
  rw [if_pos (show (goBytes sid).length ≥ 8 from hlen), escapeBytes_append,
    goBytes_drop_unreserved sid h]
  have e1 : escapeBytes (goBytes "get-") = "get-" := by decide
  have e2 := QueryEscape_unreserved ⟨sid.data.drop ((goBytes sid).length - 8)⟩
    (fun c hc => h c (List.mem_of_mem_drop hc))
  unfold QueryEscape at e2
  rw [e1, e2]
  have : (goBytes sid).length = sid.data.length := goLen_unreserved sid h
  rw [this]

theorem escapeBytes_spiderX_short (sid : GoBytes) (subIndex : Nat) (hlen : sid.length < 8) :
    escapeBytes (spiderX sid subIndex) = "get-sub" ++ decimal05 subIndex := by
  unfold spiderX
  rw [if_neg (by omega)]
  have := QueryEscape_append "get-sub" (decimal05 subIndex)
  unfold QueryEscape at this
  rw [this]
  have e1 : escapeBytes (goBytes "get-sub") = "get-sub" := by decide
  have e2 := QueryEscape_unreserved (decimal05 subIndex) (decimal05_unreserved subIndex)
  unfold QueryEscape at e2
  rw [e1, e2]

theorem length_decimal05 (n : Nat) (h : n < 100000) : (decimal05 n).length = 5 := by
  have hl : (decimal n).length ≤ 5 := Nat.repr_length n 5 (by decide) (by omega)
  unfold decimal05
  rw [String.length_append]
  show (List.replicate (5 - (decimal n).length) '0').length + (decimal n).length = 5
  rw [List.length_replicate]
  omega

theorem xhttpParams_unmarshal_error (J : EncodingJSON) (inbounds : List InboundDetourConfig)
    (orig : Option InboundDetourConfig) (clientIndex subIndex : Nat)
    (sub : SubscriptionProfile) (q : Values) (h : J.UnmarshalMap sub.Extra = none) :
    xhttpParams J inbounds orig clientIndex subIndex sub q =
      xhttpParams J inbounds orig clientIndex subIndex { sub with Extra := "" } q := by
  unfold xhttpParams
  have h0 : ¬ goLen "" > 2 := by decide
  simp only [h, h0, if_false, ite_self]

theorem queryParamsOf_unmarshal_error (J : EncodingJSON) (inbounds : List InboundDetourConfig)
    (clientIndex : Nat) (client : clientInfo) (subIndex : Nat) (sub : SubscriptionProfile)
    (h : J.UnmarshalMap sub.Extra = none) :
    queryParamsOf J inbounds clientIndex client subIndex sub =
      queryParamsOf J inbounds clientIndex client subIndex { sub with Extra := "" } := by
  have ht : ∀ q, transportParams J inbounds clientIndex subIndex sub (profileNetwork sub) q =
      transportParams J inbounds clientIndex subIndex { sub with Extra := "" }
        (profileNetwork sub) q := by
    intro q
    unfold transportParams
    simp only
    split_ifs
    · exact xhttpParams_unmarshal_error J inbounds _ clientIndex subIndex sub q h
    · rfl
    · rfl
    · rfl
    · rfl
  unfold queryParamsOf
  rw [ht]
  rfl

theorem xhttpAdds_split (J : EncodingJSON) (inbounds : List InboundDetourConfig)
    (orig : Option InboundDetourConfig) (clientIndex subIndex : Nat)
    (sub : SubscriptionProfile) :
    xhttpAdds J inbounds orig clientIndex subIndex sub =
      xhttpAdds J inbounds orig clientIndex subIndex { sub with Extra := "" } ++
        (if goLen sub.Extra > 2 then
          match J.UnmarshalMap sub.Extra with
          | some extraConfig =>
            [("extra", QueryEscape (J.Marshal
              (mergeExtra extraConfig (getRealityShortID inbounds clientIndex) subIndex)))]
          | none => []
        else []) := by
  unfold xhttpAdds
  dsimp only
  rw [if_neg (show ¬ goLen "" > 2 by decide), List.append_nil]
  try rfl

theorem filter_xhttpAdds_extra (J : EncodingJSON) (inbounds : List InboundDetourConfig)
    (orig : Option InboundDetourConfig) (clientIndex subIndex : Nat)
    (sub : SubscriptionProfile) (k : String) (hk : k ≠ "extra") :
    (xhttpAdds J inbounds orig clientIndex subIndex sub).filter (fun a => a.1 = k) =
      (xhttpAdds J inbounds orig clientIndex subIndex { sub with Extra := "" }).filter
        (fun a => a.1 = k) := by
  rw [xhttpAdds_split, List.filter_append]
  have : (if goLen sub.Extra > 2 then
          match J.UnmarshalMap sub.Extra with
          | some extraConfig =>
            [("extra", QueryEscape (J.Marshal
              (mergeExtra extraConfig (getRealityShortID inbounds clientIndex) subIndex)))]
          | none => []
        else []).filter (fun a => a.1 = k) = [] := by
    split
    · cases J.UnmarshalMap sub.Extra with
      | none => rfl
      | some m => simp [Ne.symm hk]
    · rfl
  rw [this, List.append_nil]

theorem filter_allAdds_extra (J : EncodingJSON) (inbounds : List InboundDetourConfig)
    (clientIndex : Nat) (client : clientInfo) (subIndex : Nat) (sub : SubscriptionProfile)
    (k : String) (hk : k ≠ "extra") :
    (allAdds J inbounds clientIndex client subIndex sub).filter (fun a => a.1 = k) =
      (allAdds J inbounds clientIndex client subIndex { sub with Extra := "" }).filter
        (fun a => a.1 = k) := by
  have ht : (transportAdds J inbounds clientIndex subIndex sub (profileNetwork sub)).filter
        (fun a => a.1 = k) =
      (transportAdds J inbounds clientIndex subIndex { sub with Extra := "" }
        (profileNetwork sub)).filter (fun a => a.1 = k) := by
    unfold transportAdds
    split_ifs
    · exact filter_xhttpAdds_extra J inbounds _ clientIndex subIndex sub k hk
    · rfl
    · rfl
    · rfl
    · rfl
  unfold allAdds
  rw [List.filter_append, List.filter_append, List.filter_append, List.filter_append, ht]
  rfl

/-! ## Lemmas on the alias of `tcp` and `raw` -/

theorem inboundNetwork_normalize (ib : InboundDetourConfig) :
    inboundNetwork (normalizeInbound ib) = inboundNetwork ib := by
  obtain ⟨proto, ss, cl⟩ := ib
  rcases ss with _ | ⟨n, sec, r, x, g, k⟩
  · rfl
  · rcases n with _ | n
    · rfl
    · by_cases h : n = "tcp"
      · subst h
        rfl
      · have h2 : inboundNetwork ⟨proto, some ⟨some n, sec, r, x, g, k⟩, cl⟩ = n := by
          simp [inboundNetwork, h]
        unfold normalizeInbound
        simp only [h2]
        try simp [inboundNetwork, h]

theorem normalizeInbound_eq_of_alias (ib ib2 : InboundDetourConfig)
    (h : inboundAlias ib ib2) : normalizeInbound ib = normalizeInbound ib2 := by
  obtain ⟨proto, ss, cl⟩ := ib
  obtain ⟨proto2, ss2, cl2⟩ := ib2
  obtain ⟨hp, hc, hs⟩ := h
  simp only at hp hc
  subst hp hc
  rcases ss with _ | ⟨n, sec, r, x, g, k⟩ <;> rcases ss2 with _ | ⟨n2, sec2, r2, x2, g2, k2⟩
  · rfl
  · obtain ⟨⟨h1, h2, h3, h4, h5⟩, hn⟩ := hs
    simp only at h1 h2 h3 h4 h5 hn
    subst h1 h2 h3 h4 h5
    rcases hn with hn | ⟨_, hn | hn | hn⟩
    · subst hn; rfl
    · subst hn; rfl
    · subst hn; rfl
    · subst hn; rfl
  · obtain ⟨⟨h1, h2, h3, h4, h5⟩, hn⟩ := hs
    simp only at h1 h2 h3 h4 h5 hn
    subst h1 h2 h3 h4 h5
    rcases hn with hn | ⟨hn | hn | hn, _⟩
    · subst hn; rfl
    · subst hn; rfl
    · subst hn; rfl
    · subst hn; rfl
  · obtain ⟨hn, he⟩ := hs
    simp only [StreamConfig.mk.injEq, true_and] at he
    obtain ⟨h1, h2, h3, h4, h5⟩ := he
    subst h1 h2 h3 h4 h5
    rcases hn with hn | ⟨hn | hn | hn, hn2 | hn2 | hn2⟩
    · simp only at hn
      subst hn
      rfl
    all_goals (simp only at hn hn2; subst hn hn2; rfl)

theorem normalizeProfile_eq_of_alias (p p2 : SubscriptionProfile) (h : profileAlias p p2) :
    normalizeProfile p = normalizeProfile p2 := by
  obtain ⟨he, hn⟩ := h
  rw [he]
  unfold normalizeProfile profileNetwork
  rcases hn with hn | ⟨hn | hn, hn2 | hn2⟩
  · simp [hn]
  all_goals simp [hn, hn2]

theorem categorizeFrom_normalize (inbounds : List InboundDetourConfig)
    (acc : SliceMap clientInfo) :
    categorizeFrom acc (inbounds.map normalizeInbound) = categorizeFrom acc inbounds := by
  induction inbounds generalizing acc with
  | nil => rfl
  | cons ib rest ih =>
    rw [List.map_cons, categorizeFrom, categorizeFrom]
    have hp : (normalizeInbound ib).Protocol = ib.Protocol := rfl
    have hc : (normalizeInbound ib).Clients = ib.Clients := rfl
    simp only [hp, hc, inboundNetwork_normalize, ih]

theorem foundSpecialProtocol_normalize (inbounds : List InboundDetourConfig) :
    foundSpecialProtocol (inbounds.map normalizeInbound) = foundSpecialProtocol inbounds := by
  unfold foundSpecialProtocol
  rw [List.any_map]
  rfl

theorem getRealityShortID_normalize (inbounds : List InboundDetourConfig) (idx : Nat) :
    getRealityShortID (inbounds.map normalizeInbound) idx = getRealityShortID inbounds idx := by
  induction inbounds with
  | nil => rfl
  | cons ib rest ih =>
    obtain ⟨proto, ss, cl⟩ := ib
    rw [List.map_cons]
    rcases ss with _ | ⟨n, sec, r, x, g, k⟩
    · unfold getRealityShortID
      exact ih
    · rcases r with _ | ⟨⟨ids⟩⟩
      · unfold getRealityShortID
        exact ih
      · unfold getRealityShortID
        simp only [normalizeInbound]
        rw [ih]

theorem originalInbound_normalize (inbounds : List InboundDetourConfig)
    (sub : SubscriptionProfile) (subNetwork : String) :
    originalInbound (inbounds.map normalizeInbound) sub subNetwork =
      (originalInbound inbounds sub subNetwork).map normalizeInbound := by
  unfold originalInbound
  induction inbounds with
  | nil => rfl
  | cons ib rest ih =>
    rw [List.map_cons, List.find?_cons, List.find?_cons, inboundNetwork_normalize]
    have hp : (normalizeInbound ib).Protocol = ib.Protocol := rfl
    rw [hp]
    cases (ib.Protocol == sub.Protocol && inboundNetwork ib == subNetwork)
    · exact ih
    · rfl

theorem xhttpParams_normalize (J : EncodingJSON) (inbounds : List InboundDetourConfig)
    (orig : Option InboundDetourConfig) (clientIndex subIndex : Nat)
    (sub : SubscriptionProfile) (q : Values) :
    xhttpParams J (inbounds.map normalizeInbound) (orig.map normalizeInbound) clientIndex
        subIndex sub q =
      xhttpParams J inbounds orig clientIndex subIndex sub q := by
  unfold xhttpParams
  rw [getRealityShortID_normalize]
  rcases orig with _ | ⟨proto, ss, cl⟩
  · rfl
  · rcases ss with _ | ⟨n, sec, r, x, g, k⟩
    · rfl
    · rfl

theorem grpcParams_normalize (orig : Option InboundDetourConfig) (sub : SubscriptionProfile)
    (q : Values) : grpcParams (orig.map normalizeInbound) sub q = grpcParams orig sub q := by
  unfold grpcParams
  rcases orig with _ | ⟨proto, ss, cl⟩
  · rfl
  · rcases ss with _ | ⟨n, sec, r, x, g, k⟩
    · rfl
    · rfl

theorem kcpParams_normalize (J : EncodingJSON) (orig : Option InboundDetourConfig)
    (q : Values) : kcpParams J (orig.map normalizeInbound) q = kcpParams J orig q := by
  unfold kcpParams
  rcases orig with _ | ⟨proto, ss, cl⟩
  · rfl
  · rcases ss with _ | ⟨n, sec, r, x, g, k⟩
    · rfl
    · rfl

theorem transportParams_normalize (J : EncodingJSON) (inbounds : List InboundDetourConfig)
    (clientIndex subIndex : Nat) (sub : SubscriptionProfile) (subNetwork : String)
    (q : Values) :
    transportParams J (inbounds.map normalizeInbound) clientIndex subIndex sub subNetwork q =
      transportParams J inbounds clientIndex subIndex sub subNetwork q := by
  unfold transportParams
  simp only [originalInbound_normalize, xhttpParams_normalize, grpcParams_normalize,
    kcpParams_normalize]

theorem securityParams_normalize (inbounds : List InboundDetourConfig) (clientIndex : Nat)
    (client : clientInfo) (subIndex : Nat) (sub : SubscriptionProfile) (security : String)
    (q : Values) :
    securityParams (inbounds.map normalizeInbound) clientIndex client subIndex sub security q =
      securityParams inbounds clientIndex client subIndex sub security q := by
  unfold securityParams realityParams
  simp only [getRealityShortID_normalize]

theorem generateLink_normalizeInbound (J : EncodingJSON) (inbounds : List InboundDetourConfig)
    (categorized : SliceMap clientInfo) (clientIndex : Nat) (client : clientInfo)
    (subIndex : Nat) (sub : SubscriptionProfile) :
    generateLink J (inbounds.map normalizeInbound) categorized clientIndex client subIndex sub =
      generateLink J inbounds categorized clientIndex client subIndex sub := by
  unfold generateLink
  simp only [transportParams_normalize, securityParams_normalize]

theorem normalizeProfile_eq_self (sub : SubscriptionProfile) (h : sub.Network ≠ "tcp") :
    normalizeProfile sub = sub := by
  unfold normalizeProfile profileNetwork
  rw [if_neg h]

theorem generateLink_normalizeProfile (J : EncodingJSON) (inbounds : List InboundDetourConfig)
    (categorized : SliceMap clientInfo) (clientIndex : Nat) (client : clientInfo)
    (subIndex : Nat) (sub : SubscriptionProfile) :
    generateLink J inbounds categorized clientIndex client subIndex (normalizeProfile sub) =
      generateLink J inbounds categorized clientIndex client subIndex sub := by
  by_cases h : sub.Network = "tcp"
  · have hn : profileNetwork sub = "raw" := by
      unfold profileNetwork
      rw [if_pos h]
    have hn2 : profileNetwork (normalizeProfile sub) = "raw" := by
      unfold normalizeProfile profileNetwork
      simp [h]
    have ht : ∀ (s : SubscriptionProfile) (q : Values),
        transportParams J inbounds clientIndex subIndex s "raw" q = q := by
      intro s q
      unfold transportParams
      simp only
      rw [if_neg (by decide), if_neg (by decide), if_neg (by decide), if_neg (by decide)]
    have hd : ∀ security, description J (normalizeProfile sub) "raw" security =
        description J sub "raw" security := by
      intro security
      unfold description
      have e : ¬ ("raw" = "xhttp" ∧ goLen (normalizeProfile sub).Extra > 2) :=
        fun h => absurd h.1 (by decide)
      have e2 : ¬ ("raw" = "xhttp" ∧ goLen sub.Extra > 2) := fun h => absurd h.1 (by decide)
      simp only [e, e2, if_false]
      rfl
    unfold generateLink
    simp only [hn, hn2, ht, hd]
    rfl
  · rw [normalizeProfile_eq_self sub h]

theorem profileLoop_normalize (J : EncodingJSON) (inbounds : List InboundDetourConfig)
    (categorized : SliceMap clientInfo) (clientIndex : Nat) (client : clientInfo)
    (profiles : List SubscriptionProfile) (start : Nat) :
    profileLoop J (inbounds.map normalizeInbound) categorized clientIndex client start
        (profiles.map normalizeProfile) =
      profileLoop J inbounds categorized clientIndex client start profiles := by
  induction profiles generalizing start with
  | nil => rfl
  | cons p ps ih =>
    rw [List.map_cons, profileLoop_cons, profileLoop_cons, ih, generateLink_normalizeInbound,
      generateLink_normalizeProfile]

theorem generateSubscriptionLinks_normalize (J : EncodingJSON) (order : MapOrder clientInfo)
    (superKey : String) (inbounds : List InboundDetourConfig)
    (profiles : List SubscriptionProfile) (uuidQuery : String) :
    generateSubscriptionLinks J order superKey (inbounds.map normalizeInbound)
        (profiles.map normalizeProfile) uuidQuery =
      generateSubscriptionLinks J order superKey inbounds profiles uuidQuery := by
  have hc : categorizedClients (inbounds.map normalizeInbound) = categorizedClients inbounds :=
    categorizeFrom_normalize inbounds []
  unfold generateSubscriptionLinks matchClients
  simp only [foundSpecialProtocol_normalize, hc, profileLoop_normalize]

theorem map_eq_of_forall₂ {α β : Type} (f : α → β) (R : α → α → Prop)
    (h : ∀ a b, R a b → f a = f b) (l l2 : List α) (hl : List.Forall₂ R l l2) :
    l.map f = l2.map f := by
  induction hl with
  | nil => rfl
  | cons hab _ ih => rw [List.map_cons, List.map_cons, h _ _ hab, ih]

/-! ## Lemmas on the order of the encoded parameters -/

theorem intercalate_go_eq (acc s : String) (l : List String) :
    String.intercalate.go acc s l = acc ++ String.intercalate.go "" s l := by
  induction l generalizing acc with
  | nil => simp [String.intercalate.go]
  | cons a as ih =>
    rw [String.intercalate.go, ih, String.intercalate.go, ih ("" ++ s ++ a)]
    simp [String.append_assoc]

theorem intercalate_go_append (acc s : String) (l1 l2 : List String) :
    String.intercalate.go acc s (l1 ++ l2) =
      String.intercalate.go (String.intercalate.go acc s l1) s l2 := by
  induction l1 generalizing acc with
  | nil => rfl
  | cons a as ih => rw [List.cons_append, String.intercalate.go, ih, String.intercalate.go]

theorem intercalate_adjacent (s x y : String) (l1 l2 : List String) :
    ∃ front back, s.intercalate (l1 ++ x :: y :: l2) = front ++ (x ++ s ++ y) ++ back := by
  cases l1 with
  | nil =>
    refine ⟨"", String.intercalate.go "" s l2, ?_⟩
    rw [List.nil_append, String.intercalate, String.intercalate.go, intercalate_go_eq]
    simp
  | cons p ps =>
    refine ⟨String.intercalate.go p s ps ++ s, String.intercalate.go "" s l2, ?_⟩
    rw [List.cons_append, String.intercalate, intercalate_go_append, String.intercalate.go,
      String.intercalate.go, intercalate_go_eq]
    simp [String.append_assoc]

theorem foldr_pairs_append (g : String → List String) (l1 l2 : List String) :
    (l1 ++ l2).foldr (fun k acc => g k ++ acc) [] =
      l1.foldr (fun k acc => g k ++ acc) [] ++ l2.foldr (fun k acc => g k ++ acc) [] := by
  induction l1 with
  | nil => rfl
  | cons a as ih => simp only [List.cons_append, List.foldr_cons, ih, List.append_assoc]

/-- In a list sorted by `keyLe` without repetition, two members `a` and `b`
with `a` strictly before `b` are neighbours when no other member lies
between them. -/
theorem sorted_adjacent (l : List String) (a b : String) (hs : List.Pairwise keyLe l)
    (hn : l.Nodup) (ha : a ∈ l) (hb : b ∈ l) (hab : ¬ keyLe b a)
    (hbetween : ∀ k ∈ l, k = a ∨ k = b ∨ ¬ keyLe a k ∨ ¬ keyLe k b) :
    ∃ l1 l2, l = l1 ++ a :: b :: l2 := by
  obtain ⟨s, t, rfl⟩ := List.append_of_mem ha
  have hs2 := List.pairwise_append.1 hs
  have hn2 := (List.nodup_cons.1 (List.nodup_append.1 hn).2.1).1
  have hb2 : b ∈ t := by
    rcases List.mem_append.1 hb with h | h
    · exact absurd (hs2.2.2 b h a (List.mem_cons_self _ _)) hab
    · rcases List.mem_cons.1 h with h | h
      · subst h
        exact absurd (bytesLe_total (goBytes b) (goBytes b) |>.elim id id) hab
      · exact h
  cases t with
  | nil => cases hb2
  | cons c u =>
    have hat := List.pairwise_cons.1 hs2.2.1
    have hac : keyLe a c := hat.1 c (List.mem_cons_self _ _)
    have hcu := List.pairwise_cons.1 hat.2
    rcases hbetween c (List.mem_append_right _ (List.mem_cons_of_mem _ (List.mem_cons_self _ _)))
      with h | h | h | h
    · exact absurd (h ▸ List.mem_cons_self c u) hn2
    · subst h
      exact ⟨s, u, rfl⟩
    · exact absurd hac h
    · rcases List.mem_cons.1 hb2 with h2 | h2
      · subst h2
        exact ⟨s, u, rfl⟩
      · exact absurd (hcu.1 b h2) h

theorem mem_keys_of_mapGet_ne_nil {α : Type} (m : SliceMap α) (k : String)
    (h : mapGet m k ≠ []) : k ∈ m.map Prod.fst := by
  by_contra hk
  exact h (mapGet_of_not_mem_keys m k hk)

theorem mapGet_addAll_ne_nil (adds : List (String × String)) (q : Values)
    (hq : ∀ k ∈ q.map Prod.fst, mapGet q k ≠ []) :
    ∀ k ∈ (Values.addAll q adds).map Prod.fst, mapGet (Values.addAll q adds) k ≠ [] := by
  induction adds generalizing q with
  | nil => exact hq
  | cons a adds ih =>
    rw [addAll_cons]
    apply ih
    intro k hk
    unfold Values.Add at hk ⊢
    rw [mapGet_mapAppend]
    by_cases hak : a.1 = k
    · rw [if_pos hak]
      simp
    · rw [if_neg hak]
      rw [keys_mapAppend] at hk
      split at hk
      · exact hq k hk
      · rcases List.mem_append.1 hk with h1 | h1
        · exact hq k h1
        · exact absurd (List.mem_singleton.1 h1).symm hak

theorem reality_sni (J : EncodingJSON) (inbounds : List InboundDetourConfig)
    (clientIndex : Nat) (client : clientInfo) (subIndex : Nat) (sub : SubscriptionProfile)
    (hsec : sub.Security = "reality") (hsni : sub.ServerName = "") :
    mapGet (Values.addAll [] (allAdds J inbounds clientIndex client subIndex sub)) "sni" = [] := by
  rw [mapGet_allAdds_security _ _ _ _ _ _ _ (by decide), securityAdds_reality _ _ _ _ _ hsec]
  unfold realityAdds
  rw [if_neg (fun h : sub.ServerName ≠ "" => h hsni)]
  split_ifs <;> simp

theorem parameterKeys_between :
    ∀ k ∈ parameterKeys, k = "sid" ∨ k = "spx" ∨ k = "sni" ∨
      ¬ keyLe "sid" k ∨ ¬ keyLe k "spx" := by
  decide

/-! ## Lemmas on the merge of `extra` -/

theorem jsonGet_jsonSet (m : JsonObject) (k : String) (v : Json) (k2 : String) :
    jsonGet (jsonSet m k v) k2 = if k = k2 then some v else jsonGet m k2 := by
  induction m with
  | nil =>
    by_cases h : k = k2 <;> simp [jsonSet, jsonGet, h]
  | cons e m ih =>
    obtain ⟨k0, v0⟩ := e
    by_cases h0 : k0 = k
    · subst h0
      by_cases h : k0 = k2 <;> simp [jsonSet, jsonGet, h]
    · by_cases h1 : k0 = k2
      · subst h1
        simp [jsonSet, jsonGet, h0, Ne.symm h0]
      · simp [jsonSet, jsonGet, h0, h1, ih]

theorem jsonSet_jsonSet (m : JsonObject) (k : String) (v w : Json) :
    jsonSet (jsonSet m k v) k w = jsonSet m k w := by
  induction m with
  | nil => simp [jsonSet]
  | cons e m ih =>
    obtain ⟨k0, v0⟩ := e
    by_cases h0 : k0 = k
    · simp [jsonSet, h0]
    · simp [jsonSet, h0, ih]

theorem fillRealitySettings_eq (rs : JsonObject) (sid : String) (subIndex : Nat) :
    fillRealitySettings rs sid subIndex = fillSpiderX (fillShortId rs sid) subIndex := rfl

theorem fillShortId_none (rs : JsonObject) (sid : String)
    (h : jsonGet (fillShortId rs sid) "shortId" = none) : sid = "" := by
  unfold fillShortId at h
  cases hs : jsonGet rs "shortId" with
  | some s =>
    rw [hs] at h
    simp only [hs] at h
    cases h
  | none =>
    rw [hs] at h
    simp only at h
    by_contra hsid
    rw [if_pos hsid, jsonGet_jsonSet, if_pos rfl] at h
    cases h

theorem fillShortId_of_get (rs : JsonObject) (sid : String)
    (h : jsonGet rs "shortId" = none → sid = "") : fillShortId rs sid = rs := by
  unfold fillShortId
  cases hs : jsonGet rs "shortId" with
  | some s => rfl
  | none =>
    simp only
    rw [if_neg (fun hne => hne (h hs))]

theorem jsonGet_fillSpiderX_shortId (rs : JsonObject) (subIndex : Nat) :
    jsonGet (fillSpiderX rs subIndex) "shortId" = jsonGet rs "shortId" := by
  unfold fillSpiderX
  cases hx : jsonGet rs "spiderX" with
  | some x => rfl
  | none =>
    simp only
    rw [jsonGet_jsonSet, if_neg (by decide)]

theorem jsonGet_fillSpiderX_spiderX (rs : JsonObject) (subIndex : Nat) :
    ∃ v, jsonGet (fillSpiderX rs subIndex) "spiderX" = some v := by
  unfold fillSpiderX
  cases hx : jsonGet rs "spiderX" with
  | some x => exact ⟨x, hx⟩
  | none =>
    simp only
    exact ⟨_, by rw [jsonGet_jsonSet, if_pos rfl]⟩

theorem fillSpiderX_idem (rs : JsonObject) (subIndex : Nat) :
    fillSpiderX (fillSpiderX rs subIndex) subIndex = fillSpiderX rs subIndex := by
  obtain ⟨v, hv⟩ := jsonGet_fillSpiderX_spiderX rs subIndex
  generalize fillSpiderX rs subIndex = r at hv
  unfold fillSpiderX
  rw [hv]

theorem fillRealitySettings_idem (rs : JsonObject) (sid : String) (subIndex : Nat) :
    fillRealitySettings (fillRealitySettings rs sid subIndex) sid subIndex =
      fillRealitySettings rs sid subIndex := by
  rw [fillRealitySettings_eq, fillRealitySettings_eq,
    fillShortId_of_get (fillSpiderX (fillShortId rs sid) subIndex) sid
      (fun h => fillShortId_none rs sid (by rwa [jsonGet_fillSpiderX_shortId] at h)),
    fillSpiderX_idem]

theorem mergeExtra_idem (m : JsonObject) (sid : String) (subIndex : Nat) :
    mergeExtra (mergeExtra m sid subIndex) sid subIndex = mergeExtra m sid subIndex := by
  cases hd : jsonGet m "downloadSettings" with
  | none =>
    have e : mergeExtra m sid subIndex = m := by
      unfold mergeExtra
      rw [hd]
    rw [e, e]
  | some d =>
    cases d with
    | object ds =>
      cases hsec : jsonGet ds "security" with
      | none =>
        have e : mergeExtra m sid subIndex = m := by
          unfold mergeExtra
          rw [hd]
          simp only [hsec]
        rw [e, e]
      | some secv =>
        cases secv with
        | string sec =>
          by_cases hr : sec = goBytes "reality"
          · cases hrs : jsonGet ds "realitySettings" with
            | none =>
              have e : mergeExtra m sid subIndex = m := by
                unfold mergeExtra
                rw [hd]
                simp only [hsec, hr, if_true, hrs]
              rw [e, e]
            | some rsv =>
              cases rsv with
              | object rs =>
                have e : mergeExtra m sid subIndex =
                    jsonSet m "downloadSettings" (Json.object (jsonSet ds "realitySettings"
                      (Json.object (fillRealitySettings rs sid subIndex)))) := by
                  unfold mergeExtra
                  rw [hd]
                  simp only [hsec, hr, if_true, hrs]
                have e2 : mergeExtra (jsonSet m "downloadSettings" (Json.object
                    (jsonSet ds "realitySettings"
                      (Json.object (fillRealitySettings rs sid subIndex))))) sid subIndex =
                    jsonSet m "downloadSettings" (Json.object (jsonSet ds "realitySettings"
                      (Json.object (fillRealitySettings rs sid subIndex)))) := by
                  unfold mergeExtra
                  rw [jsonGet_jsonSet, if_pos rfl]
                  simp only
                  rw [jsonGet_jsonSet, if_neg (by decide), hsec]
                  simp only [hr, if_true]
                  rw [jsonGet_jsonSet, if_pos rfl]
                  simp only
                  rw [fillRealitySettings_idem, jsonSet_jsonSet, jsonSet_jsonSet]
                rw [e, e2]
              | null | bool _ | number _ | string _ | array _ =>
                have e : mergeExtra m sid subIndex = m := by
                  unfold mergeExtra
                  rw [hd]
                  simp only [hsec, hr, if_true, hrs]
                rw [e, e]
          · have e : mergeExtra m sid subIndex = m := by
              unfold mergeExtra
              rw [hd]
              simp only [hsec, hr, if_false]
            rw [e, e]
        | null | bool _ | number _ | array _ | object _ =>
          have e : mergeExtra m sid subIndex = m := by
            unfold mergeExtra
            rw [hd]
            simp only [hsec]
          rw [e, e]
    | null | bool _ | number _ | string _ | array _ =>
      have e : mergeExtra m sid subIndex = m := by
        unfold mergeExtra
        rw [hd]
      rw [e, e]

theorem mergeExtra_reality (m ds rs : JsonObject) (sid : String) (subIndex : Nat)
    (hd : jsonGet m "downloadSettings" = some (Json.object ds))
    (hsec : jsonGet ds "security" = some (Json.string (goBytes "reality")))
    (hrs : jsonGet ds "realitySettings" = some (Json.object rs)) :
    mergeExtra m sid subIndex =
      jsonSet m "downloadSettings" (Json.object (jsonSet ds "realitySettings"
        (Json.object (fillRealitySettings rs sid subIndex)))) := by
  unfold mergeExtra
  rw [hd]
  simp only [hsec, if_true, hrs]

theorem mergeExtra_cases (m : JsonObject) (sid : String) (subIndex : Nat) :
    mergeExtra m sid subIndex = m ∨
      ∃ ds rs, jsonGet m "downloadSettings" = some (Json.object ds) ∧
        jsonGet ds "security" = some (Json.string (goBytes "reality")) ∧
        jsonGet ds "realitySettings" = some (Json.object rs) := by
  by_cases h : ∃ ds rs, jsonGet m "downloadSettings" = some (Json.object ds) ∧
        jsonGet ds "security" = some (Json.string (goBytes "reality")) ∧
        jsonGet ds "realitySettings" = some (Json.object rs)
  · exact Or.inr h
  · left
    unfold mergeExtra
    cases hd : jsonGet m "downloadSettings" with
    | none => rfl
    | some d =>
      cases d with
      | object ds =>
        simp only
        cases hsec : jsonGet ds "security" with
        | none => rfl
        | some secv =>
          cases secv with
          | string sec =>
            simp only
            by_cases hr : sec = goBytes "reality"
            · rw [if_pos hr]
              cases hrs : jsonGet ds "realitySettings" with
              | none => rfl
              | some rsv =>
                cases rsv with
                | object rs => exact absurd ⟨ds, rs, hd, hr ▸ hsec, hrs⟩ h
                | null | bool _ | number _ | string _ | array _ => rfl
            · rw [if_neg hr]
          | null | bool _ | number _ | array _ | object _ => rfl
      | null | bool _ | number _ | string _ | array _ => rfl

theorem mergeExtra_not_reality (m ds : JsonObject) (sid : String) (subIndex : Nat)
    (hd : jsonGet m "downloadSettings" = some (Json.object ds))
    (hsec : jsonGet ds "security" ≠ some (Json.string (goBytes "reality"))) :
    mergeExtra m sid subIndex = m := by
  rcases mergeExtra_cases m sid subIndex with h | ⟨ds2, rs, h1, h2, _⟩
  · exact h
  · rw [hd] at h1
    cases h1
    exact absurd h2 hsec

theorem jsonGet_fillShortId_of_some (rs : JsonObject) (sid k : String) (v : Json)
    (h : jsonGet rs k = some v) : jsonGet (fillShortId rs sid) k = some v := by
  unfold fillShortId
  cases hs : jsonGet rs "shortId" with
  | some s => exact h
  | none =>
    simp only
    split
    · rw [jsonGet_jsonSet]
      by_cases hk : "shortId" = k
      · subst hk
        rw [hs] at h
        cases h
      · rw [if_neg hk, h]
    · exact h

theorem jsonGet_fillSpiderX_of_some (rs : JsonObject) (subIndex : Nat) (k : String) (v : Json)
    (h : jsonGet rs k = some v) : jsonGet (fillSpiderX rs subIndex) k = some v := by
  unfold fillSpiderX
  cases hx : jsonGet rs "spiderX" with
  | some s => exact h
  | none =>
    simp only
    rw [jsonGet_jsonSet]
    by_cases hk : "spiderX" = k
    · subst hk
      rw [hx] at h
      cases h
    · rw [if_neg hk, h]

theorem jsonGet_fill_of_some (rs : JsonObject) (sid : String) (subIndex : Nat) (k : String)
    (v : Json) (h : jsonGet rs k = some v) :
    jsonGet (fillRealitySettings rs sid subIndex) k = some v := by
  rw [fillRealitySettings_eq]
  exact jsonGet_fillSpiderX_of_some _ _ _ _ (jsonGet_fillShortId_of_some _ _ _ _ h)

theorem jsonGet_fill_other (rs : JsonObject) (sid : String) (subIndex : Nat) (k : String)
    (h1 : k ≠ "shortId") (h2 : k ≠ "spiderX") :
    jsonGet (fillRealitySettings rs sid subIndex) k = jsonGet rs k := by
  rw [fillRealitySettings_eq]
  have e1 : jsonGet (fillSpiderX (fillShortId rs sid) subIndex) k =
      jsonGet (fillShortId rs sid) k := by
    unfold fillSpiderX
    cases hx : jsonGet (fillShortId rs sid) "spiderX" with
    | some s => rfl
    | none =>
      simp only
      rw [jsonGet_jsonSet, if_neg (Ne.symm h2)]
  have e2 : jsonGet (fillShortId rs sid) k = jsonGet rs k := by
    unfold fillShortId
    cases hs : jsonGet rs "shortId" with
    | some s => rfl
    | none =>
      simp only
      split
      · rw [jsonGet_jsonSet, if_neg (Ne.symm h1)]
      · rfl
  rw [e1, e2]

theorem jsonGet_fill_absent (rs : JsonObject) (sid : String) (subIndex : Nat)
    (h1 : jsonGet rs "shortId" = none) (h2 : jsonGet rs "spiderX" = none) (hsid : sid ≠ "") :
    jsonGet (fillRealitySettings rs sid subIndex) "shortId" =
        some (Json.string (goBytes sid)) ∧
      jsonGet (fillRealitySettings rs sid subIndex) "spiderX" =
        some (Json.string (spiderX (goBytes sid) subIndex)) := by
  have e1 : fillShortId rs sid = jsonSet rs "shortId" (Json.string (goBytes sid)) := by
    unfold fillShortId
    rw [h1]
    simp only
    rw [if_pos hsid]
  have e2 : jsonGet (fillShortId rs sid) "shortId" = some (Json.string (goBytes sid)) := by
    rw [e1, jsonGet_jsonSet, if_pos rfl]
  have e3 : jsonGet (fillShortId rs sid) "spiderX" = none := by
    rw [e1, jsonGet_jsonSet, if_neg (by decide), h2]
  rw [fillRealitySettings_eq]
  constructor
  · rw [jsonGet_fillSpiderX_shortId, e2]
  · unfold fillSpiderX
    rw [e3]
    simp only [e2]
    rw [jsonGet_jsonSet, if_pos rfl]

theorem filter_extra_xhttpAdds_empty (J : EncodingJSON) (inbounds : List InboundDetourConfig)
    (orig : Option InboundDetourConfig) (clientIndex subIndex : Nat)
    (sub : SubscriptionProfile) :
    (xhttpAdds J inbounds orig clientIndex subIndex { sub with Extra := "" }).filter
      (fun a => a.1 = "extra") = [] := by
  rw [List.filter_eq_nil_iff]
  intro a ha
  have hk := (xhttpAdds_keys J inbounds orig clientIndex subIndex
    { sub with Extra := "" }).subset (List.mem_map.2 ⟨a, ha, rfl⟩)
  simp only [decide_eq_true_eq]
  intro he
  unfold xhttpAdds at ha
  dsimp only at ha
  rw [if_neg (show ¬ goLen "" > 2 by decide), List.append_nil] at ha
  rcases List.mem_append.1 ha with ha | ha
  · rcases List.mem_append.1 ha with ha | ha
    · split at ha
      · rw [List.mem_singleton.1 ha] at he
        exact absurd (show "host" = "extra" from he) (by decide)
      · split at ha
        · rw [List.mem_singleton.1 ha] at he
          exact absurd (show "host" = "extra" from he) (by decide)
        · cases ha
    · rcases orig with _ | ⟨proto, ss, cl⟩
      · cases ha
      · rcases ss with _ | ⟨n, sec, r, x, g, k⟩
        · cases ha
        · rcases x with _ | x
          · cases ha
          · rw [List.mem_singleton.1 ha] at he
            exact absurd (show "path" = "extra" from he) (by decide)
  · rw [List.mem_singleton.1 ha] at he
    exact absurd (show "mode" = "extra" from he) (by decide)

/-- The values of `extra` in the parameter map of an xhttp profile. -/
theorem xhttp_extra (J : EncodingJSON) (inbounds : List InboundDetourConfig)
    (clientIndex : Nat) (client : clientInfo) (subIndex : Nat) (sub : SubscriptionProfile)
    (hnet : sub.Network = "xhttp") :
    mapGet (Values.addAll [] (allAdds J inbounds clientIndex client subIndex sub)) "extra" =
      if goLen sub.Extra > 2 then
        match J.UnmarshalMap sub.Extra with
        | some extraConfig =>
          [QueryEscape (J.Marshal
            (mergeExtra extraConfig (getRealityShortID inbounds clientIndex) subIndex))]
        | none => []
      else [] := by
  have hpn : profileNetwork sub = "xhttp" := by
    unfold profileNetwork
    rw [hnet]
    decide
  rw [mapGet_addAll]
  unfold allAdds
  rw [List.filter_append, List.filter_append,
    filter_key_eq_nil _ _ "extra" (commonAdds_keys _ _) (by decide),
    filter_key_eq_nil _ _ "extra" (securityAdds_keys _ _ _ _ _ _) (by decide), hpn]
  unfold transportAdds
  rw [if_pos rfl, xhttpAdds_split, List.filter_append, filter_extra_xhttpAdds_empty]
  split
  · cases J.UnmarshalMap sub.Extra <;> simp [mapGet]
  · simp [mapGet]

/-! ## The parts of an emitted link -/

/-- An emitted link is `finalURL` for the parameter map of the pair and the
description of the profile. -/
theorem generateLink_parts (J : EncodingJSON) (inbounds : List InboundDetourConfig)
    (categorized : SliceMap clientInfo) (clientIndex : Nat) (client : clientInfo)
    (subIndex : Nat) (sub : SubscriptionProfile) (link : String)
    (hg : generateLink J inbounds categorized clientIndex client subIndex sub = some link) :
    passesGates categorized client sub ∧
    queryParamsOf J inbounds clientIndex client subIndex sub =
      some (Values.addAll [] (allAdds J inbounds clientIndex client subIndex sub)) ∧
    link = finalURL client sub
      (Values.addAll [] (allAdds J inbounds clientIndex client subIndex sub))
      (description J sub (profileNetwork sub) (profileSecurity sub)) := by
  obtain ⟨hgates, hl⟩ := (generateLink_eq_some_iff_adds _ _ _ _ _ _ _ _).1 hg
  have hq := queryParamsOf_eq J inbounds clientIndex client subIndex sub
  rw [if_neg hgates.2.2] at hq
  exact ⟨hgates, hq, hl⟩

theorem mem_keys_addAll_iff (adds : List (String × String)) (k : String) :
    k ∈ (Values.addAll [] adds).map Prod.fst ↔ mapGet (Values.addAll [] adds) k ≠ [] := by
  constructor
  · intro h
    exact mapGet_addAll_ne_nil adds [] (fun k hk => by cases hk) k h
  · exact mem_keys_of_mapGet_ne_nil _ k

/-- The values of a key that only lines 228-245 can add. -/
theorem mapGet_allAdds_common (J : EncodingJSON) (inbounds : List InboundDetourConfig)
    (clientIndex : Nat) (client : clientInfo) (subIndex : Nat) (sub : SubscriptionProfile)
    (k : String) (hk : k ∈ ["type", "encryption", "security"]) :
    mapGet (Values.addAll [] (allAdds J inbounds clientIndex client subIndex sub)) k =
      ((commonAdds sub (profileNetwork sub)).filter (fun a => a.1 = k)).map Prod.snd := by
  have hk1 : k ∉ ["host", "path", "serviceName", "mode", "extra", "headerType", "seed"] := by
    simp only [List.mem_cons, List.mem_singleton, List.not_mem_nil, or_false] at hk
    rcases hk with rfl | rfl | rfl <;> decide
  have hk2 : k ∉ ["fp", "sni", "alpn", "ech", "flow", "pbk", "pqv", "sid", "spx"] := by
    simp only [List.mem_cons, List.mem_singleton, List.not_mem_nil, or_false] at hk
    rcases hk with rfl | rfl | rfl <;> decide
  rw [mapGet_addAll]
  unfold allAdds
  rw [List.filter_append, List.filter_append,
    filter_key_eq_nil _ _ k (transportAdds_keys _ _ _ _ _ _) hk1,
    filter_key_eq_nil _ _ k (securityAdds_keys _ _ _ _ _ _) hk2]
  simp [mapGet]

/-- The values of a key that only the switch on `subNetwork` can add. -/
theorem mapGet_allAdds_transport (J : EncodingJSON) (inbounds : List InboundDetourConfig)
    (clientIndex : Nat) (client : clientInfo) (subIndex : Nat) (sub : SubscriptionProfile)
    (k : String)
    (hk : k ∈ ["host", "path", "serviceName", "mode", "extra", "headerType", "seed"]) :
    mapGet (Values.addAll [] (allAdds J inbounds clientIndex client subIndex sub)) k =
      ((transportAdds J inbounds clientIndex subIndex sub (profileNetwork sub)).filter
        (fun a => a.1 = k)).map Prod.snd := by
  have hk1 : k ∉ ["type", "encryption", "security"] := by
    simp only [List.mem_cons, List.mem_singleton, List.not_mem_nil, or_false] at hk
    rcases hk with rfl | rfl | rfl | rfl | rfl | rfl | rfl <;> decide
  have hk2 : k ∉ ["fp", "sni", "alpn", "ech", "flow", "pbk", "pqv", "sid", "spx"] := by
    simp only [List.mem_cons, List.mem_singleton, List.not_mem_nil, or_false] at hk
    rcases hk with rfl | rfl | rfl | rfl | rfl | rfl | rfl <;> decide
  rw [mapGet_addAll]
  unfold allAdds
  rw [List.filter_append, List.filter_append,
    filter_key_eq_nil _ _ k (commonAdds_keys _ _) hk1,
    filter_key_eq_nil _ _ k (securityAdds_keys _ _ _ _ _ _) hk2]
  simp [mapGet]

theorem filter_ite_ne (c : Prop) [Decidable c] (k x k2 : String) (h : k ≠ k2) :
    (if c then [(k, x)] else []).filter (fun a => a.1 = k2) = [] := by
  split_ifs <;> simp [h]

theorem filter_ite_eq (c : Prop) [Decidable c] (k x : String) :
    (if c then [(k, x)] else []).filter (fun a => a.1 = k) = if c then [(k, x)] else [] := by
  split_ifs <;> simp

theorem common_security (J : EncodingJSON) (inbounds : List InboundDetourConfig)
    (clientIndex : Nat) (client : clientInfo) (subIndex : Nat) (sub : SubscriptionProfile) :
    mapGet (Values.addAll [] (allAdds J inbounds clientIndex client subIndex sub)) "security" =
      if sub.Security ≠ "" ∧ sub.Security ≠ "none" then [sub.Security] else [] := by
  rw [mapGet_allAdds_common _ _ _ _ _ _ _ (by decide)]
  unfold commonAdds
  rw [List.filter_append, List.filter_append, filter_ite_ne _ _ _ _ (by decide),
    filter_ite_eq]
  split_ifs <;> simp

theorem common_type (J : EncodingJSON) (inbounds : List InboundDetourConfig)
    (clientIndex : Nat) (client : clientInfo) (subIndex : Nat) (sub : SubscriptionProfile) :
    mapGet (Values.addAll [] (allAdds J inbounds clientIndex client subIndex sub)) "type" =
      if profileNetwork sub ≠ "raw" then [profileNetwork sub] else [] := by
  rw [mapGet_allAdds_common _ _ _ _ _ _ _ (by decide)]
  unfold commonAdds
  rw [List.filter_append, List.filter_append, filter_ite_ne _ "security" _ _ (by decide),
    filter_ite_eq]
  split_ifs <;> simp

theorem common_encryption (J : EncodingJSON) (inbounds : List InboundDetourConfig)
    (clientIndex : Nat) (client : clientInfo) (subIndex : Nat) (sub : SubscriptionProfile) :
    mapGet (Values.addAll [] (allAdds J inbounds clientIndex client subIndex sub))
        "encryption" =
      if sub.Encryption ≠ "" ∧ ((sub.Protocol = "vless" ∧ sub.Encryption ≠ "none") ∨
          (sub.Protocol = "vmess" ∧ sub.Encryption ≠ "auto")) then
        [if sub.Protocol = "vless" then QueryEscape sub.Encryption else sub.Encryption]
      else [] := by
  rw [mapGet_allAdds_common _ _ _ _ _ _ _ (by decide)]
  unfold commonAdds
  rw [List.filter_append, List.filter_append, filter_ite_ne _ "security" _ _ (by decide),
    filter_ite_ne _ "type" _ _ (by decide)]
  by_cases h1 : sub.Encryption = ""
  · simp [h1]
  · by_cases h2 : sub.Protocol = "vless"
    · by_cases h3 : sub.Encryption = "none"
      · simp [h1, h2, h3]
      · simp [h1, h2, h3]
    · by_cases h4 : sub.Protocol = "vmess"
      · by_cases h5 : sub.Encryption = "auto"
        · simp [h1, h2, h4, h5]
        · simp [h1, h2, h4, h5]
      · simp [h1, h2, h4]
theorem profileNetwork_of_ne_tcp (sub : SubscriptionProfile) (h : sub.Network ≠ "tcp") :
    profileNetwork sub = sub.Network := by
  unfold profileNetwork
  rw [if_neg h]

theorem transportAdds_http (J : EncodingJSON) (inbounds : List InboundDetourConfig)
    (clientIndex subIndex : Nat) (sub : SubscriptionProfile)
    (hnet : sub.Network = "http" ∨ sub.Network = "ws" ∨ sub.Network = "httpupgrade") :
    transportAdds J inbounds clientIndex subIndex sub (profileNetwork sub) =
      httpAdds sub.Network sub := by
  have hne : sub.Network ≠ "tcp" := by
    rcases hnet with h | h | h <;> rw [h] <;> decide
  have hx : sub.Network ≠ "xhttp" := by
    rcases hnet with h | h | h <;> rw [h] <;> decide
  rw [profileNetwork_of_ne_tcp sub hne]
  unfold transportAdds
  rw [if_neg hx, if_pos hnet]

theorem http_host (J : EncodingJSON) (inbounds : List InboundDetourConfig)
    (clientIndex : Nat) (client : clientInfo) (subIndex : Nat) (sub : SubscriptionProfile)
    (hnet : sub.Network = "http" ∨ sub.Network = "ws" ∨ sub.Network = "httpupgrade") :
    mapGet (Values.addAll [] (allAdds J inbounds clientIndex client subIndex sub)) "host" =
      [QueryEscape (if sub.Host ≠ "" then
          (if sub.Network = "http" then removeSpaces sub.Host else sub.Host)
        else sub.Address)] := by
  rw [mapGet_allAdds_transport _ _ _ _ _ _ _ (by decide), transportAdds_http _ _ _ _ _ hnet]
  unfold httpAdds
  rw [List.filter_append, filter_ite_ne _ "path" _ _ (by decide)]
  simp

theorem http_path (J : EncodingJSON) (inbounds : List InboundDetourConfig)
    (clientIndex : Nat) (client : clientInfo) (subIndex : Nat) (sub : SubscriptionProfile)
    (hnet : sub.Network = "http" ∨ sub.Network = "ws" ∨ sub.Network = "httpupgrade") :
    mapGet (Values.addAll [] (allAdds J inbounds clientIndex client subIndex sub)) "path" =
      if sub.Path ≠ "" ∧ sub.Path ≠ "/" then [QueryEscape sub.Path] else [] := by
  rw [mapGet_allAdds_transport _ _ _ _ _ _ _ (by decide), transportAdds_http _ _ _ _ _ hnet]
  unfold httpAdds
  rw [List.filter_append, filter_ite_eq]
  split_ifs <;> simp

theorem profileSecurity_eq (sub : SubscriptionProfile) :
    profileSecurity sub = if sub.Security = "" then "none" else sub.Security := by
  unfold profileSecurity
  by_cases h1 : sub.Security = ""
  · simp [h1]
  · by_cases h2 : sub.Security = "none"
    · simp [h2]
    · simp [h1, h2]

theorem mem_removeSpaces (s : String) (c : Char) :
    c ∈ (removeSpaces s).data ↔ c ∈ s.data ∧ c ≠ ' ' := by
  unfold removeSpaces
  simp [List.mem_filter]

theorem ite_singleton_ne_nil_iff (c : Prop) [Decidable c] (x : String) :
    (if c then [x] else []) ≠ [] ↔ c := by
  split_ifs with h <;> simp [h]

theorem description_of_nonempty (J : EncodingJSON) (sub : SubscriptionProfile)
    (subNetwork security : String) (h : sub.Description ≠ "") :
    description J sub subNetwork security = sub.Description := by
  unfold description
  rw [if_neg h]

theorem description_suffix (J : EncodingJSON) (sub : SubscriptionProfile)
    (subNetwork security d : String) (h : sub.Description = "") (hn : subNetwork = "xhttp")
    (hlen : goLen sub.Extra > 2) (hu : J.UnmarshalDownloadSecurity sub.Extra = some d)
    (hd : d ≠ "") (hne : security ≠ d) :
    description J sub subNetwork security =
      sub.Protocol ++ "_" ++ subNetwork ++ "_" ++ security ++ "2" ++ d := by
  unfold description
  rw [if_pos h]
  dsimp only
  rw [if_pos ⟨hn, hlen⟩, hu]
  dsimp only
  rw [if_pos ⟨hd, hne⟩]

theorem description_plain (J : EncodingJSON) (sub : SubscriptionProfile)
    (subNetwork security : String) (h : sub.Description = "")
    (hno : ¬ (subNetwork = "xhttp" ∧ goLen sub.Extra > 2 ∧
      ∃ d, J.UnmarshalDownloadSecurity sub.Extra = some d ∧ d ≠ "" ∧ security ≠ d)) :
    description J sub subNetwork security =
      sub.Protocol ++ "_" ++ subNetwork ++ "_" ++ security := by
  unfold description
  rw [if_pos h]
  dsimp only
  split_ifs with hc
  · cases hu : J.UnmarshalDownloadSecurity sub.Extra with
    | none => rfl
    | some d =>
      dsimp only
      split_ifs with hd
      · exact absurd ⟨hc.1, hc.2, d, hu, hd.1, hd.2⟩ hno
      · rfl
  · rfl

/-- The key `spiderX` after lines 285-300 when `shortId` is supplied as a
string and `spiderX` is not supplied. -/
theorem jsonGet_fill_supplied (rs : JsonObject) (sid : String) (subIndex : Nat) (b : GoBytes)
    (h1 : jsonGet rs "shortId" = some (Json.string b)) (h2 : jsonGet rs "spiderX" = none) :
    jsonGet (fillRealitySettings rs sid subIndex) "shortId" = some (Json.string b) ∧
      jsonGet (fillRealitySettings rs sid subIndex) "spiderX" =
        some (Json.string (spiderX b subIndex)) := by
  have e1 : fillShortId rs sid = rs :=
    fillShortId_of_get rs sid (fun h => by rw [h1] at h; cases h)
  rw [fillRealitySettings_eq, e1]
  constructor
  · rw [jsonGet_fillSpiderX_shortId, h1]
  · unfold fillSpiderX
    rw [h2]
    simp only [h1]
    rw [jsonGet_jsonSet, if_pos rfl]

/-- The key `spiderX` after lines 285-300 when `shortId` is supplied with a
value that is not a string and `spiderX` is not supplied. -/
theorem jsonGet_fill_supplied_other (rs : JsonObject) (sid : String) (subIndex : Nat)
    (v : Json) (h1 : jsonGet rs "shortId" = some v) (hv : ∀ b, v ≠ Json.string b)
    (h2 : jsonGet rs "spiderX" = none) :
    jsonGet (fillRealitySettings rs sid subIndex) "shortId" = some v ∧
      jsonGet (fillRealitySettings rs sid subIndex) "spiderX" =
        some (Json.string (spiderX [] subIndex)) := by
  have e1 : fillShortId rs sid = rs :=
    fillShortId_of_get rs sid (fun h => by rw [h1] at h; cases h)
  rw [fillRealitySettings_eq, e1]
  constructor
  · rw [jsonGet_fillSpiderX_shortId, h1]
  · unfold fillSpiderX
    rw [h2]
    simp only [h1]
    rw [jsonGet_jsonSet, if_pos rfl]
    cases v with
    | string b => exact absurd rfl (hv b)
    | null => rfl
    | bool x => rfl
    | number x => rfl
    | array x => rfl
    | object x => rfl

/-! ## One pair per key, keys ascending -/

theorem parameterKeys_antisymm :
    ∀ a ∈ parameterKeys, ∀ b ∈ parameterKeys, keyLe a b → keyLe b a → a = b := by
  decide

theorem sortKeys_parameterKeys :
    sortKeys parameterKeys =
      ["alpn", "ech", "encryption", "extra", "flow", "fp", "headerType", "host", "mode", "path",
       "pbk", "pqv", "security", "seed", "serviceName", "sid", "sni", "spx", "type"] := by
  decide

theorem sortKeys_parameterKeys_strict :
    List.Pairwise (fun a b => keyLe a b ∧ ¬ keyLe b a) (sortKeys parameterKeys) := by
  rw [sortKeys_parameterKeys]
  decide

theorem parameterKeys_unreserved :
    ∀ k ∈ parameterKeys, ∀ c ∈ k.data, unreserved c.toNat = true := by
  decide

theorem sortKeys_eq_filter (ks : List String) (hn : ks.Nodup)
    (hs : ∀ k ∈ ks, k ∈ parameterKeys) :
    sortKeys ks = (sortKeys parameterKeys).filter (fun k => decide (k ∈ ks)) := by
  have hpn : (sortKeys parameterKeys).Nodup := by
    rw [(sortKeys_perm _).nodup_iff]
    decide
  refine List.Perm.eq_of_sorted ?_ (sortKeys_sorted ks)
    ((sortKeys_sorted parameterKeys).sublist (List.filter_sublist _)) ?_
  · intro a b ha hb
    exact parameterKeys_antisymm a (hs a ((mem_sortKeys _ _).1 ha)) b
      ((mem_sortKeys _ _).1 (List.mem_filter.1 hb).1)
  · refine (sortKeys_perm ks).trans ?_
    refine (List.perm_ext_iff_of_nodup hn (hpn.sublist (List.filter_sublist _))).2 ?_
    intro a
    rw [List.mem_filter, mem_sortKeys]
    constructor
    · intro ha
      exact ⟨hs a ha, by simpa using ha⟩
    · rintro ⟨_, ha⟩
      simpa using ha

theorem filter_unique_key (adds : List (String × String)) (hn : (adds.map Prod.fst).Nodup)
    (k : String) (hk : k ∈ adds.map Prod.fst) :
    ∃ x, adds.filter (fun a => a.1 = k) = [(k, x)] := by
  induction adds with
  | nil => cases hk
  | cons a as ih =>
    rw [List.map_cons, List.nodup_cons] at hn
    by_cases ha : a.1 = k
    · refine ⟨a.2, ?_⟩
      rw [List.filter_cons_of_pos (by simpa using ha)]
      have : as.filter (fun a => a.1 = k) = [] := by
        rw [List.filter_eq_nil_iff]
        intro b hb
        simp only [decide_eq_true_eq]
        intro hbk
        exact hn.1 (List.mem_map.2 ⟨b, hb, hbk.trans ha.symm⟩)
      rw [this, ← ha]
    · rw [List.filter_cons_of_neg (by simpa using ha)]
      rw [List.map_cons, List.mem_cons] at hk
      rcases hk with hk | hk
      · exact absurd hk.symm ha
      · exact ih hn.2 hk

theorem mapGet_addAll_single (adds : List (String × String))
    (hn : (adds.map Prod.fst).Nodup) (k : String) (hk : k ∈ adds.map Prod.fst) :
    ∃ x, mapGet (Values.addAll [] adds) k = [x] := by
  obtain ⟨x, hx⟩ := filter_unique_key adds hn k hk
  refine ⟨x, ?_⟩
  rw [mapGet_addAll, hx]
  rfl

theorem length_mapGet_addAll_le (adds : List (String × String))
    (hn : (adds.map Prod.fst).Nodup) (k : String) :
    (mapGet (Values.addAll [] adds) k).length ≤ 1 := by
  by_cases hk : k ∈ adds.map Prod.fst
  · obtain ⟨x, hx⟩ := mapGet_addAll_single adds hn k hk
    rw [hx]
    exact Nat.le_refl 1
  · rw [mapGet_addAll, filter_key_eq_nil adds (adds.map Prod.fst) k (List.Sublist.refl _) hk]
    exact Nat.zero_le 1

theorem foldr_singletons (g : String → List String) (h : String → String) (l : List String)
    (hl : ∀ k ∈ l, g k = [h k]) :
    l.foldr (fun k acc => g k ++ acc) [] = l.map h := by
  induction l with
  | nil => rfl
  | cons a as ih =>
    rw [List.foldr_cons, List.map_cons, hl a (List.mem_cons_self _ _),
      ih (fun k hk => hl k (List.mem_cons_of_mem _ hk))]
    rfl

theorem keys_addAll_nil (adds : List (String × String)) (hn : (adds.map Prod.fst).Nodup) :
    (Values.addAll [] adds).map Prod.fst = adds.map Prod.fst := by
  rw [keys_addAll [] adds (by simpa using hn)]
  rfl

/-- The pairs of an encoded query: one for each key, keys ascending. -/
theorem pairs_addAll (adds : List (String × String)) (hn : (adds.map Prod.fst).Nodup) :
    Values.pairs (Values.addAll [] adds) =
      (sortKeys (adds.map Prod.fst)).map
        (fun k => encodePair k ((mapGet (Values.addAll [] adds) k).headD "")) := by
  unfold Values.pairs
  rw [keys_addAll_nil adds hn]
  apply foldr_singletons
  intro k hk
  obtain ⟨x, hx⟩ := mapGet_addAll_single adds hn k ((mem_sortKeys _ _).1 hk)
  rw [hx]
  rfl

/-- The pairs of an encoded query do not depend on the order of the
additions. -/
theorem pairs_addAll_perm (adds adds2 : List (String × String))
    (hn : (adds.map Prod.fst).Nodup) (hs : ∀ k ∈ adds.map Prod.fst, k ∈ parameterKeys)
    (hp : adds2.Perm adds) :
    Values.pairs (Values.addAll [] adds2) = Values.pairs (Values.addAll [] adds) := by
  have hpk : (adds2.map Prod.fst).Perm (adds.map Prod.fst) := hp.map _
  have hn2 : (adds2.map Prod.fst).Nodup := hpk.nodup_iff.2 hn
  have hs2 : ∀ k ∈ adds2.map Prod.fst, k ∈ parameterKeys :=
    fun k hk => hs k (hpk.subset hk)
  rw [pairs_addAll adds hn, pairs_addAll adds2 hn2, sortKeys_eq_filter _ hn hs,
    sortKeys_eq_filter _ hn2 hs2]
  have hmem : (fun k => decide (k ∈ adds2.map Prod.fst)) =
      (fun k => decide (k ∈ adds.map Prod.fst)) := by
    funext k
    exact decide_eq_decide.2 hpk.mem_iff
  rw [hmem]
  apply List.map_congr_left
  intro k _
  have hv : mapGet (Values.addAll [] adds2) k = mapGet (Values.addAll [] adds) k := by
    rw [mapGet_addAll, mapGet_addAll]
    have hf : (adds2.filter (fun a => a.1 = k)).Perm (adds.filter (fun a => a.1 = k)) :=
      hp.filter _
    by_cases hk : k ∈ adds.map Prod.fst
    · obtain ⟨x, hx⟩ := filter_unique_key adds hn k hk
      rw [hx] at hf ⊢
      rw [List.perm_singleton.1 hf]
    · rw [filter_key_eq_nil adds (adds.map Prod.fst) k (List.Sublist.refl _) hk] at hf ⊢
      rw [List.perm_nil.1 hf]
  rw [hv]

theorem reality_sni_some (J : EncodingJSON) (inbounds : List InboundDetourConfig)
    (clientIndex : Nat) (client : clientInfo) (subIndex : Nat) (sub : SubscriptionProfile)
    (hsec : sub.Security = "reality") (hsni : sub.ServerName ≠ "") :
    mapGet (Values.addAll [] (allAdds J inbounds clientIndex client subIndex sub)) "sni" =
      [sub.ServerName] := by
  rw [mapGet_allAdds_security _ _ _ _ _ _ _ (by decide), securityAdds_reality _ _ _ _ _ hsec]
  unfold realityAdds
  rw [if_pos hsni]
  split_ifs <;> simp

/-! ## Category keys and the inbounds they come from -/

theorem keys_categorizeFrom (inbounds : List InboundDetourConfig) (acc : SliceMap clientInfo)
    (k : String) (hk : k ∈ (categorizeFrom acc inbounds).map Prod.fst) :
    k ∈ acc.map Prod.fst ∨
      ∃ ib ∈ inbounds, (ib.Protocol = "vless" ∨ ib.Protocol = "vmess") ∧
        k = ib.Protocol ++ "_" ++ inboundNetwork ib := by
  induction inbounds generalizing acc with
  | nil => exact Or.inl hk
  | cons ib rest ih =>
    have lift : (k ∈ acc.map Prod.fst ∨
        ∃ ib2 ∈ rest, (ib2.Protocol = "vless" ∨ ib2.Protocol = "vmess") ∧
          k = ib2.Protocol ++ "_" ++ inboundNetwork ib2) →
        k ∈ acc.map Prod.fst ∨
          ∃ ib2 ∈ ib :: rest, (ib2.Protocol = "vless" ∨ ib2.Protocol = "vmess") ∧
            k = ib2.Protocol ++ "_" ++ inboundNetwork ib2 := by
      rintro (h | ⟨ib2, hm, h⟩)
      · exact Or.inl h
      · exact Or.inr ⟨ib2, List.mem_cons_of_mem _ hm, h⟩
    unfold categorizeFrom at hk
    split at hk
    · exact lift (ih acc hk)
    · rename_i hsp
      simp only at hk
      split at hk
      · rcases ih _ hk with h | ⟨ib2, hm, h⟩
        · rw [keys_mapAppend] at h
          split at h
          · exact Or.inl h
          · rcases List.mem_append.1 h with h | h
            · exact Or.inl h
            · refine Or.inr ⟨ib, List.mem_cons_self _ _, ?_, List.mem_singleton.1 h⟩
              by_cases h1 : ib.Protocol = "vless"
              · exact Or.inl h1
              · by_cases h2 : ib.Protocol = "vmess"
                · exact Or.inr h2
                · simp [h1, h2] at hsp
        · exact Or.inr ⟨ib2, List.mem_cons_of_mem _ hm, h⟩
      · exact lift (ih acc hk)

/-- A client found in the bucket of a key: the key is the key of a vless or
vmess inbound. -/
theorem inbound_of_clientExists (inbounds : List InboundDetourConfig) (key : String)
    (client : clientInfo)
    (h : clientExistsForProfile (categorizedClients inbounds) key client = true) :
    ∃ ib ∈ inbounds, (ib.Protocol = "vless" ∨ ib.Protocol = "vmess") ∧
      key = ib.Protocol ++ "_" ++ inboundNetwork ib := by
  have hne : mapGet (categorizedClients inbounds) key ≠ [] := by
    intro he
    unfold clientExistsForProfile at h
    rw [he] at h
    cases h
  rcases keys_categorizeFrom inbounds [] key (mem_keys_of_mapGet_ne_nil _ key hne) with h | h
  · cases h
  · exact h

theorem append_sep_cancel (x : Char) (l1 r1 l2 r2 : List Char)
    (h : l1 ++ x :: r1 = l2 ++ x :: r2) (h2 : x ∉ l2) (h3 : x ∉ r2) :
    l1 = l2 ∧ r1 = r2 := by
  induction l1 generalizing l2 with
  | nil =>
    cases l2 with
    | nil =>
      simp only [List.nil_append, List.cons.injEq, true_and] at h
      exact ⟨rfl, h⟩
    | cons y l2 =>
      simp only [List.nil_append, List.cons_append, List.cons.injEq] at h
      exact absurd (h.1 ▸ List.mem_cons_self _ _) h2
  | cons a l1 ih =>
    cases l2 with
    | nil =>
      simp only [List.nil_append, List.cons_append, List.cons.injEq] at h
      exact absurd (h.2 ▸ List.mem_append_right _ (List.mem_cons_self _ _)) h3
    | cons y l2 =>
      simp only [List.cons_append, List.cons.injEq] at h
      obtain ⟨e1, e2⟩ := ih l2 h.2 (fun hm => h2 (List.mem_cons_of_mem _ hm))
      rw [h.1, e1]
      exact ⟨rfl, e2⟩

/-- The key `protocol + "_" + network` determines the pair when one of the
two protocols and networks has no `_`. -/
theorem key_cancel (p n q m : String) (h : p ++ "_" ++ n = q ++ "_" ++ m)
    (hq : '_' ∉ q.data) (hm : '_' ∉ m.data) : p = q ∧ n = m := by
  have hd := congrArg String.data h
  simp only [String.data_append, List.append_assoc] at hd
  have hd2 : p.data ++ '_' :: n.data = q.data ++ '_' :: m.data := hd
  obtain ⟨e1, e2⟩ := append_sep_cancel '_' _ _ _ _ hd2 hq hm
  exact ⟨String.ext e1, String.ext e2⟩

/-- The key of a profile with protocol vless or vmess determines the
network of a vless or vmess inbound with the same key. -/
theorem key_cancel_protocol (p n q m : String) (h : p ++ "_" ++ n = q ++ "_" ++ m)
    (hp : p = "vless" ∨ p = "vmess") (hq : q = "vless" ∨ q = "vmess") : p = q ∧ n = m := by
  have hd := congrArg String.data h
  simp only [String.data_append, List.append_assoc] at hd
  rcases hp with rfl | rfl <;> rcases hq with rfl | rfl
  · simp at hd
    exact ⟨rfl, String.ext hd⟩
  · simp at hd
  · simp at hd
  · simp at hd
    exact ⟨rfl, String.ext hd⟩

theorem originalInbound_of_mem (inbounds : List InboundDetourConfig)
    (sub : SubscriptionProfile) (subNetwork : String)
    (h : ∃ ib ∈ inbounds, ib.Protocol = sub.Protocol ∧ inboundNetwork ib = subNetwork) :
    ∃ ib ∈ inbounds, originalInbound inbounds sub subNetwork = some ib ∧
      ib.Protocol = sub.Protocol ∧ inboundNetwork ib = subNetwork := by
  obtain ⟨ib, hm, h1, h2⟩ := h
  unfold originalInbound
  cases hf : inbounds.find?
      (fun ib => ib.Protocol == sub.Protocol && inboundNetwork ib == subNetwork) with
  | none =>
    have := List.find?_eq_none.1 hf ib hm
    simp [h1, h2] at this
  | some ib2 =>
    have hp := List.find?_some hf
    simp only [Bool.and_eq_true, beq_iff_eq] at hp
    exact ⟨ib2, List.mem_of_find?_eq_some hf, rfl, hp.1, hp.2⟩

theorem finalURL_scheme (client : clientInfo) (sub : SubscriptionProfile) (q : Values)
    (desp : String) : ∃ rest, finalURL client sub q desp = sub.Protocol ++ "://" ++ rest := by
  have hb : baseURL client sub = sub.Protocol ++ "://" ++
      (client.ID ++ "@" ++ sub.Address ++ ":" ++
        decimal (if sub.Port = 0 then 443 else sub.Port)) := by
    unfold baseURL
    simp only [String.append_assoc]
  unfold finalURL
  rw [hb]
  generalize client.ID ++ "@" ++ sub.Address ++ ":" ++
    decimal (if sub.Port = 0 then 443 else sub.Port) = tail
  by_cases he : Values.Encode q ≠ ""
  · rw [if_pos he]
    exact ⟨tail ++ "?" ++ Values.Encode q ++ "#" ++ QueryEscape desp,
      by simp only [String.append_assoc]⟩
  · rw [if_neg he]
    exact ⟨tail ++ "#" ++ QueryEscape desp, by simp only [String.append_assoc]⟩

/-! ## The matched sequence and the smallest bucket position -/

theorem mem_of_mapGet_ne_nil {α : Type} (m : SliceMap α) (k : String)
    (h : mapGet m k ≠ []) : (k, mapGet m k) ∈ m := by
  induction m with
  | nil => exact absurd rfl h
  | cons e m ih =>
    obtain ⟨k0, v0⟩ := e
    by_cases h0 : k0 = k
    · subst h0
      simp [mapGet]
    · simp only [mapGet, h0, if_false] at h ⊢
      exact List.mem_cons_of_mem _ (ih h)

theorem occursAt_iff (categorized : SliceMap clientInfo) (id : String) (i : Nat) :
    occursAt categorized id i = true ↔
      ∃ e ∈ categorized, ∃ c, e.2.get? i = some c ∧ c.ID = id := by
  unfold occursAt
  rw [List.any_eq_true]
  constructor
  · rintro ⟨e, he, h⟩
    cases hc : e.2.get? i with
    | none =>
      rw [hc] at h
      cases h
    | some c =>
      rw [hc] at h
      exact ⟨e, he, c, hc, by simpa using h⟩
  · rintro ⟨e, he, c, hc, hid⟩
    refine ⟨e, he, ?_⟩
    rw [hc]
    simpa using hid

theorem occursAt_iff_mapGet (categorized : SliceMap clientInfo)
    (hn : (categorized.map Prod.fst).Nodup) (id : String) (i : Nat) :
    occursAt categorized id i = true ↔
      ∃ key c, (mapGet categorized key).get? i = some c ∧ c.ID = id := by
  rw [occursAt_iff]
  constructor
  · rintro ⟨e, he, c, hc, hid⟩
    refine ⟨e.1, c, ?_, hid⟩
    rw [mapGet_of_mem categorized e.1 e.2 hn he]
    exact hc
  · rintro ⟨key, c, hc, hid⟩
    have hne : mapGet categorized key ≠ [] := by
      intro h
      rw [h] at hc
      cases hc
    exact ⟨_, mem_of_mapGet_ne_nil categorized key hne, c, hc, hid⟩

theorem occursAt_lt_maxClients (categorized : SliceMap clientInfo) (id : String) (i : Nat)
    (h : occursAt categorized id i = true) : i < maxClients categorized := by
  obtain ⟨e, he, c, hc, _⟩ := (occursAt_iff categorized id i).1 h
  have h1 : i < e.2.length := by
    obtain ⟨hlt, _⟩ := List.get?_eq_some.1 hc
    exact hlt
  exact Nat.lt_of_lt_of_le h1 (length_le_foldl_max categorized 0 e he)

theorem smallestIndexFrom_spec (categorized : SliceMap clientInfo) (id : String)
    (fuel i k : Nat) (h : smallestIndexFrom categorized id fuel i = some k) :
    occursAt categorized id k = true ∧ i ≤ k ∧
      ∀ j, i ≤ j → j < k → occursAt categorized id j = false := by
  induction fuel generalizing i with
  | zero => cases h
  | succ fuel ih =>
    rw [smallestIndexFrom] at h
    by_cases ho : occursAt categorized id i = true
    · rw [if_pos ho] at h
      cases h
      exact ⟨ho, Nat.le_refl _, fun j h1 h2 => absurd h1 (by omega)⟩
    · rw [if_neg ho] at h
      obtain ⟨h1, h2, h3⟩ := ih (i + 1) h
      refine ⟨h1, by omega, ?_⟩
      intro j hj1 hj2
      by_cases hji : j = i
      · rw [hji]
        simpa using ho
      · exact h3 j (by omega) hj2

theorem smallestIndexFrom_exists (categorized : SliceMap clientInfo) (id : String)
    (fuel i j : Nat) (h : occursAt categorized id j = true) (h1 : i ≤ j) (h2 : j < i + fuel) :
    ∃ k, smallestIndexFrom categorized id fuel i = some k := by
  induction fuel generalizing i with
  | zero => omega
  | succ fuel ih =>
    rw [smallestIndexFrom]
    by_cases ho : occursAt categorized id i = true
    · rw [if_pos ho]
      exact ⟨i, rfl⟩
    · rw [if_neg ho]
      have hne : i ≠ j := by
        rintro rfl
        exact ho h
      exact ih (i + 1) (by omega) (by omega)

theorem smallestIndex_exists (categorized : SliceMap clientInfo) (id : String) (j : Nat)
    (h : occursAt categorized id j = true) : ∃ k, smallestIndex categorized id = some k := by
  unfold smallestIndex
  exact smallestIndexFrom_exists categorized id _ 0 j h (Nat.zero_le _)
    (by have := occursAt_lt_maxClients categorized id j h; omega)

theorem mem_take_iff {α : Type} (l : List α) (m : Nat) (c : α) :
    c ∈ l.take m ↔ ∃ j, j < m ∧ l.get? j = some c := by
  constructor
  · intro h
    obtain ⟨j, hj⟩ := List.mem_iff_get?.1 h
    have hlt : j < m := by
      obtain ⟨hlt, _⟩ := List.get?_eq_some.1 hj
      have := List.length_take_le m l
      omega
    rw [List.get?_eq_getElem?, List.getElem?_take_of_lt hlt, ← List.get?_eq_getElem?] at hj
    exact ⟨j, hlt, hj⟩
  · rintro ⟨j, hlt, hj⟩
    rw [List.get?_eq_getElem?, ← List.getElem?_take_of_lt hlt, ← List.get?_eq_getElem?] at hj
    exact List.get?_mem hj

theorem visitEntry_extends (f : String → Bool) (i : Nat) (st : MatchState)
    (e : String × List clientInfo) :
    st.orderedMatchedClients <+: (visitEntry f i st e).orderedMatchedClients := by
  unfold visitEntry
  cases e.2.get? i with
  | none => exact List.prefix_refl _
  | some client =>
    dsimp only
    split_ifs
    · exact List.prefix_refl _
    · exact List.prefix_append _ _
    · exact List.prefix_refl _

theorem foldl_visitEntry_extends (f : String → Bool) (i : Nat) (es : SliceMap clientInfo)
    (st : MatchState) :
    st.orderedMatchedClients <+: (es.foldl (visitEntry f i) st).orderedMatchedClients := by
  induction es generalizing st with
  | nil => exact List.prefix_refl _
  | cons e es ih =>
    rw [List.foldl_cons]
    exact (visitEntry_extends f i st e).trans (ih _)

theorem visitRounds_succ (order : MapOrder clientInfo) (f : String → Bool)
    (categorized : SliceMap clientInfo) (n : Nat) :
    visitRounds order f categorized (n + 1) =
      visitRound order f categorized (visitRounds order f categorized n) n := by
  unfold visitRounds
  rw [List.range_succ, List.foldl_append]
  rfl

theorem visitRounds_extends (order : MapOrder clientInfo) (f : String → Bool)
    (categorized : SliceMap clientInfo) (m n : Nat) (h : m ≤ n) :
    (visitRounds order f categorized m).orderedMatchedClients <+:
      (visitRounds order f categorized n).orderedMatchedClients := by
  induction n with
  | zero =>
    obtain rfl : m = 0 := by omega
    exact List.prefix_refl _
  | succ n ih =>
    by_cases hm : m = n + 1
    · subst hm
      exact List.prefix_refl _
    · refine (ih (by omega)).trans ?_
      rw [visitRounds_succ]
      exact foldl_visitEntry_extends f n _ _

theorem mem_ordered_rounds (order : MapOrder clientInfo) (hv : MapOrder.Valid order)
    (f : String → Bool) (categorized : SliceMap clientInfo)
    (hn : (categorized.map Prod.fst).Nodup) (m : Nat) (id : String) :
    id ∈ (visitRounds order f categorized m).orderedMatchedClients.map clientInfo.ID ↔
      f id = true ∧ ∃ j, j < m ∧ occursAt categorized id j = true := by
  obtain ⟨h1, _, h3⟩ := inv_visitRounds order f categorized m
  rw [← h1, h3]
  constructor
  · rintro ⟨k, c, hc, rfl⟩
    rw [visitRounds_filtered order hv f categorized hn] at hc
    obtain ⟨hc1, hc2⟩ := List.mem_filter.1 hc
    obtain ⟨j, hj, hg⟩ := (mem_take_iff _ _ _).1 hc1
    exact ⟨hc2, j, hj, (occursAt_iff_mapGet categorized hn c.ID j).2 ⟨k, c, hg, rfl⟩⟩
  · rintro ⟨hf, j, hj, ho⟩
    obtain ⟨k, c, hg, hid⟩ := (occursAt_iff_mapGet categorized hn id j).1 ho
    refine ⟨k, c, ?_, hid⟩
    rw [visitRounds_filtered order hv f categorized hn]
    refine List.mem_filter.2 ⟨(mem_take_iff _ _ _).2 ⟨j, hj, hg⟩, ?_⟩
    rw [hid]
    exact hf

/-- An id whose first occurrence lies in an earlier round stands earlier in
the matched sequence. -/
theorem ordered_index_lt (order : MapOrder clientInfo) (hv : MapOrder.Valid order)
    (f : String → Bool) (categorized : SliceMap clientInfo)
    (hn : (categorized.map Prod.fst).Nodup) (a b : String) (ia ib : Nat)
    (hfa : f a = true) (hfb : f b = true)
    (ha : smallestIndex categorized a = some ia) (hb : smallestIndex categorized b = some ib)
    (hlt : ia < ib) :
    a ∈ (visitRounds order f categorized (maxClients categorized)).orderedMatchedClients.map
        clientInfo.ID ∧
    b ∈ (visitRounds order f categorized (maxClients categorized)).orderedMatchedClients.map
        clientInfo.ID ∧
    ((visitRounds order f categorized (maxClients categorized)).orderedMatchedClients.map
        clientInfo.ID).indexOf a <
      ((visitRounds order f categorized (maxClients categorized)).orderedMatchedClients.map
        clientInfo.ID).indexOf b := by
  obtain ⟨hoa, _, _⟩ := smallestIndexFrom_spec categorized a _ 0 ia ha
  obtain ⟨hob, _, hminb⟩ := smallestIndexFrom_spec categorized b _ 0 ib hb
  have hia := occursAt_lt_maxClients categorized a ia hoa
  have hib := occursAt_lt_maxClients categorized b ib hob
  have hpre := visitRounds_extends order f categorized (ia + 1) (maxClients categorized)
    (by omega)
  obtain ⟨s, hs⟩ := hpre
  have hma : a ∈ (visitRounds order f categorized (ia + 1)).orderedMatchedClients.map
      clientInfo.ID :=
    (mem_ordered_rounds order hv f categorized hn (ia + 1) a).2 ⟨hfa, ia, by omega, hoa⟩
  have hmb : b ∉ (visitRounds order f categorized (ia + 1)).orderedMatchedClients.map
      clientInfo.ID := by
    intro h
    obtain ⟨_, j, hj, ho⟩ := (mem_ordered_rounds order hv f categorized hn (ia + 1) b).1 h
    have := hminb j (Nat.zero_le _) (by omega)
    rw [ho] at this
    cases this
  have hmb2 : b ∈ (visitRounds order f categorized
      (maxClients categorized)).orderedMatchedClients.map clientInfo.ID :=
    (mem_ordered_rounds order hv f categorized hn _ b).2 ⟨hfb, ib, hib, hob⟩
  rw [← hs, List.map_append] at hmb2 ⊢
  refine ⟨List.mem_append_left _ hma, hmb2, ?_⟩
  rw [List.indexOf_append_of_mem hma, List.indexOf_append_of_not_mem hmb]
  have := List.indexOf_lt_length.2 hma
  omega

theorem mergeExtra_no_realitySettings (m ds : JsonObject) (sid : String) (subIndex : Nat)
    (hd : jsonGet m "downloadSettings" = some (Json.object ds))
    (hrs : ∀ rs, jsonGet ds "realitySettings" ≠ some (Json.object rs)) :
    mergeExtra m sid subIndex = m := by
  rcases mergeExtra_cases m sid subIndex with h | ⟨ds2, rs, h1, _, h3⟩
  · exact h
  · rw [hd] at h1
    cases h1
    exact absurd h3 (hrs rs)

theorem mergeExtra_no_downloadSettings (m : JsonObject) (sid : String) (subIndex : Nat)
    (hd : ∀ ds, jsonGet m "downloadSettings" ≠ some (Json.object ds)) :
    mergeExtra m sid subIndex = m := by
  rcases mergeExtra_cases m sid subIndex with h | ⟨ds, _, h1, _, _⟩
  · exact h
  · exact absurd h1 (hd ds)

/-- The rule of `url.QueryEscape` for one byte, written out: a space gives
`+`, a letter, a digit, `-`, `_`, `.` or `~` gives itself, any other byte
gives `%` and its two upper-case hexadecimal digits. -/
theorem escapeByte_rule (b : Nat) :
    escapeByte b =
      if b = 32 then ['+']
      else if (97 ≤ b ∧ b ≤ 122) ∨ (65 ≤ b ∧ b ≤ 90) ∨ (48 ≤ b ∧ b ≤ 57) ∨
          b = 45 ∨ b = 95 ∨ b = 46 ∨ b = 126 then [Char.ofNat b]
      else ['%',
        if b / 16 < 10 then Char.ofNat (48 + b / 16) else Char.ofNat (55 + b / 16),
        if b % 16 < 10 then Char.ofNat (48 + b % 16) else Char.ofNat (55 + b % 16)] := by
  unfold escapeByte unreserved upperhex
  simp only [Bool.or_eq_true, Bool.and_eq_true, decide_eq_true_eq, beq_iff_eq, or_assoc]

theorem QueryEscape_data (s : String) :
    (QueryEscape s).data = (goBytes s).flatMap escapeByte := by
  unfold QueryEscape escapeBytes
  show List.foldr (fun b acc => escapeByte b ++ acc) [] (goBytes s) = _
  induction goBytes s with
  | nil => rfl
  | cons b bs ih => rw [List.foldr_cons, ih, List.flatMap_cons]

/-! ## Theorems -/

theorem mem_ordered_iff (order : MapOrder clientInfo) (hv : MapOrder.Valid order)
    (superKey : String) (inbounds : List InboundDetourConfig) (uuidQuery : String)
    (id : String) :
    id ∈ (matchClients order superKey inbounds uuidQuery).orderedMatchedClients.map clientInfo.ID ↔
      (∃ key, ∃ c ∈ mapGet (categorizedClients inbounds) key, c.ID = id) ∧
        clientMatches superKey uuidQuery id = true := by
  obtain ⟨h1, _, h3⟩ := inv_matchClients order superKey inbounds uuidQuery
  rw [← h1, h3]
  constructor
  · rintro ⟨k, c, hc, rfl⟩
    rw [matchClients_filtered order hv] at hc
    obtain ⟨hc1, hc2⟩ := List.mem_filter.1 hc
    exact ⟨⟨k, c, hc1, rfl⟩, hc2⟩
  · rintro ⟨⟨k, c, hc, rfl⟩, hm⟩
    refine ⟨k, c, ?_, rfl⟩
    rw [matchClients_filtered order hv]
    exact List.mem_filter.2 ⟨hc, hm⟩

theorem foundSpecialProtocol_iff (inbounds : List InboundDetourConfig) :
    foundSpecialProtocol inbounds = true ↔
      ∃ ib ∈ inbounds, ib.Protocol = "vless" ∨ ib.Protocol = "vmess" := by
  unfold foundSpecialProtocol
  rw [List.any_eq_true]
  constructor
  · rintro ⟨ib, hib, h⟩
    refine ⟨ib, hib, ?_⟩
    unfold isSpecialProtocol at h
    by_cases h1 : ib.Protocol = "vless"
    · exact Or.inl h1
    · by_cases h2 : ib.Protocol = "vmess"
      · exact Or.inr h2
      · simp [h1, h2] at h
  · rintro ⟨ib, hib, h⟩
    refine ⟨ib, hib, ?_⟩
    unfold isSpecialProtocol
    rcases h with h | h <;> simp [h]

/-- C1: `generateSubscriptionLinks` returns an error exactly when no inbound
has protocol `vless` or `vmess` (the empty inbound list included), and a
link list exactly when some inbound has one of the two protocols, whatever
the profiles, the token and the override secret are. -/
theorem generateSubscriptionLinks_error_iff (J : EncodingJSON) (order : MapOrder clientInfo)
    (superKey : String) (inbounds : List InboundDetourConfig)
    (profiles : List SubscriptionProfile) (uuidQuery : String) :
    ((∃ e, generateSubscriptionLinks J order superKey inbounds profiles uuidQuery =
        Except.error e) ↔
      ∀ ib ∈ inbounds, ib.Protocol ≠ "vless" ∧ ib.Protocol ≠ "vmess") ∧
    ((∃ links, generateSubscriptionLinks J order superKey inbounds profiles uuidQuery =
        Except.ok links) ↔
      ∃ ib ∈ inbounds, ib.Protocol = "vless" ∨ ib.Protocol = "vmess") := by
  have key := foundSpecialProtocol_iff inbounds
  unfold generateSubscriptionLinks
  by_cases hf : foundSpecialProtocol inbounds = true
  · have hex := key.1 hf
    rw [hf]
    refine ⟨⟨?_, ?_⟩, ⟨fun _ => hex, fun _ => ⟨_, rfl⟩⟩⟩
    · rintro ⟨e, he⟩
      simp at he
    · intro hall
      obtain ⟨ib, hib, h⟩ := hex
      rcases h with h | h
      · exact absurd h (hall ib hib).1
      · exact absurd h (hall ib hib).2
  · have hnex : ¬ ∃ ib ∈ inbounds, ib.Protocol = "vless" ∨ ib.Protocol = "vmess" :=
      fun h => hf (key.2 h)
    have hf2 : foundSpecialProtocol inbounds = false := by simpa using hf
    rw [hf2]
    refine ⟨⟨fun _ ib hib => ?_, fun _ => ⟨_, rfl⟩⟩, ⟨?_, fun h => absurd h hnex⟩⟩
    · exact ⟨fun h => hnex ⟨ib, hib, Or.inl h⟩, fun h => hnex ⟨ib, hib, Or.inr h⟩⟩
    · rintro ⟨l, hl⟩
      simp at hl

/-- C2 (failing input): with one vless/raw inbound holding client `A`, one
vmess/raw inbound holding client `B`, token `A,B` and one profile for each
inbound, two admissible visiting orders of the two categories give the two
links in opposite orders. -/
theorem generateSubscriptionLinks_order_dependent (J : EncodingJSON) :
    MapOrder.Valid (insertionOrder : MapOrder clientInfo) ∧
    MapOrder.Valid (reverseOrder : MapOrder clientInfo) ∧
    generateSubscriptionLinks J insertionOrder ""
        [sampleInbound "vless" "tcp" [sampleClient "A" 0],
         sampleInbound "vmess" "tcp" [sampleClient "B" 0]]
        [sampleProfile "vless" "tcp" "none" "example.com" 0,
         sampleProfile "vmess" "tcp" "none" "example.com" 0] "A,B" =
      Except.ok ["vless://A@example.com:443#vless_raw_none",
                 "vmess://B@example.com:443#vmess_raw_none"] ∧
    generateSubscriptionLinks J reverseOrder ""
        [sampleInbound "vless" "tcp" [sampleClient "A" 0],
         sampleInbound "vmess" "tcp" [sampleClient "B" 0]]
        [sampleProfile "vless" "tcp" "none" "example.com" 0,
         sampleProfile "vmess" "tcp" "none" "example.com" 0] "A,B" =
      Except.ok ["vmess://B@example.com:443#vmess_raw_none",
                 "vless://A@example.com:443#vless_raw_none"] :=
  ⟨fun _ _ => List.Perm.refl _, fun _ m => List.reverse_perm m, rfl, rfl⟩

/-- C3 (failing input): for the buckets `[A,B]` (vless/raw) and `[B,C]`
(vmess/raw) and the token `A,B,C` without override secret, visiting the
categories in insertion order gives the matched sequence `[A,B,C]`, and
visiting them in the reverse order, which is admissible too, gives
`[B,A,C]`. -/
theorem orderedMatchedClients_alignment_order_dependent :
    MapOrder.Valid (reverseOrder : MapOrder clientInfo) ∧
    categorizedClients
        [sampleInbound "vless" "tcp" [sampleClient "A" 0, sampleClient "B" 0],
         sampleInbound "vmess" "tcp" [sampleClient "B" 0, sampleClient "C" 0]] =
      [("vless_raw", [sampleClient "A" 0, sampleClient "B" 0]),
       ("vmess_raw", [sampleClient "B" 0, sampleClient "C" 0])] ∧
    (matchClients insertionOrder ""
        [sampleInbound "vless" "tcp" [sampleClient "A" 0, sampleClient "B" 0],
         sampleInbound "vmess" "tcp" [sampleClient "B" 0, sampleClient "C" 0]]
        "A,B,C").orderedMatchedClients.map clientInfo.ID = ["A", "B", "C"] ∧
    (matchClients reverseOrder ""
        [sampleInbound "vless" "tcp" [sampleClient "A" 0, sampleClient "B" 0],
         sampleInbound "vmess" "tcp" [sampleClient "B" 0, sampleClient "C" 0]]
        "A,B,C").orderedMatchedClients.map clientInfo.ID = ["B", "A", "C"] :=
  ⟨fun _ m => List.reverse_perm m, rfl, rfl, rfl⟩

theorem useAllClients_false_of (superKey uuidQuery : String)
    (hs : superKey = "" ∨ superKey ≠ uuidQuery) : useAllClients superKey uuidQuery = false := by
  unfold useAllClients
  rcases hs with h | h
  · simp [h]
  · have : (uuidQuery == superKey) = false := by
      simpa using fun h2 : uuidQuery = superKey => h h2.symm
    simp [this]

theorem clientMatches_idlist (superKey uuidQuery : String)
    (hs : superKey = "" ∨ superKey ≠ uuidQuery) (id : String) :
    clientMatches superKey uuidQuery id = decide (id ∈ (Split uuidQuery ',').map TrimSpace) := by
  unfold clientMatches
  rw [useAllClients_false_of superKey uuidQuery hs]
  simp [targetIDs]

theorem clientMatches_all (superKey uuidQuery : String) (h1 : superKey ≠ "")
    (h2 : superKey = uuidQuery) (id : String) : clientMatches superKey uuidQuery id = true := by
  unfold clientMatches useAllClients
  simp [h1, h2.symm]

/-- C4: for every input and every visiting order, the ids of the clients of
`orderedMatchedClients` are pairwise distinct, and the sequence consists of
the first occurrence of every id among the matching clients in the order the
index loop meets them; when every category is visited once per round, each
matching id that occurs in some bucket (in one or several buckets, once or
several times) occurs exactly once in it. -/
theorem orderedMatchedClients_ids_nodup (order : MapOrder clientInfo) (superKey : String)
    (inbounds : List InboundDetourConfig) (uuidQuery : String) :
    ((matchClients order superKey inbounds uuidQuery).orderedMatchedClients.map
        clientInfo.ID).Nodup ∧
    (matchClients order superKey inbounds uuidQuery).orderedMatchedClients =
      firstOccurrences (encounters order (clientMatches superKey uuidQuery)
        (categorizedClients inbounds) (maxClients (categorizedClients inbounds))) ∧
    (MapOrder.Valid order → ∀ key, ∀ c ∈ mapGet (categorizedClients inbounds) key,
      clientMatches superKey uuidQuery c.ID = true →
      ((matchClients order superKey inbounds uuidQuery).orderedMatchedClients.map
        clientInfo.ID).count c.ID = 1) := by
  obtain ⟨h1, h2, _⟩ := inv_matchClients order superKey inbounds uuidQuery
  have hnd : ((matchClients order superKey inbounds uuidQuery).orderedMatchedClients.map
      clientInfo.ID).Nodup := h1 ▸ h2
  refine ⟨hnd, visitRounds_ordered order _ _ _, fun hv key c hc hm => ?_⟩
  exact List.count_eq_one_of_mem hnd
    ((mem_ordered_iff order hv superKey inbounds uuidQuery c.ID).2 ⟨⟨key, c, hc, rfl⟩, hm⟩)

/-- C4, an instance: client `B` sits in both buckets and `A` twice in the
first one; with token `A,B` the matched ids are `[A, B]`, each once. -/
theorem orderedMatchedClients_ids_nodup_witness :
    MapOrder.Valid (insertionOrder : MapOrder clientInfo) ∧
    (matchClients insertionOrder ""
        [sampleInbound "vless" "tcp" [sampleClient "A" 0, sampleClient "A" 0, sampleClient "B" 0],
         sampleInbound "vmess" "ws" [sampleClient "B" 0]]
        "A,B").orderedMatchedClients.map clientInfo.ID = ["A", "B"] ∧
    ((matchClients insertionOrder ""
        [sampleInbound "vless" "tcp" [sampleClient "A" 0, sampleClient "A" 0, sampleClient "B" 0],
         sampleInbound "vmess" "ws" [sampleClient "B" 0]]
        "A,B").orderedMatchedClients.map clientInfo.ID).count "B" = 1 :=
  ⟨fun _ _ => List.Perm.refl _, rfl,
    (orderedMatchedClients_ids_nodup insertionOrder ""
      [sampleInbound "vless" "tcp" [sampleClient "A" 0, sampleClient "A" 0, sampleClient "B" 0],
       sampleInbound "vmess" "ws" [sampleClient "B" 0]] "A,B").2.2
      (fun _ _ => List.Perm.refl _) "vmess_ws" (sampleClient "B" 0) (by decide) (by decide)⟩

/-- C5: when the override secret is empty or differs from the token and
every category is visited once per round, an id occurs in
`orderedMatchedClients` exactly when it occurs in some bucket of
`categorizedClients` and is one of the trimmed comma-separated pieces of the
token; and `filteredClients[key]` is the sub-list of `categorizedClients[key]`
of the clients whose id is such a piece, in bucket order. -/
theorem idlist_matching (order : MapOrder clientInfo) (hv : MapOrder.Valid order)
    (superKey : String) (inbounds : List InboundDetourConfig) (uuidQuery : String)
    (hs : superKey = "" ∨ superKey ≠ uuidQuery) :
    (∀ id, id ∈ (matchClients order superKey inbounds uuidQuery).orderedMatchedClients.map
          clientInfo.ID ↔
        (∃ key, ∃ c ∈ mapGet (categorizedClients inbounds) key, c.ID = id) ∧
          id ∈ (Split uuidQuery ',').map TrimSpace) ∧
    (∀ key, mapGet (matchClients order superKey inbounds uuidQuery).filteredClients key =
        (mapGet (categorizedClients inbounds) key).filter
          (fun c => decide (c.ID ∈ (Split uuidQuery ',').map TrimSpace))) := by
  constructor
  · intro id
    rw [mem_ordered_iff order hv, clientMatches_idlist superKey uuidQuery hs]
    simp
  · intro key
    rw [matchClients_filtered order hv]
    congr 1
    funext c
    exact clientMatches_idlist superKey uuidQuery hs c.ID

/-- C5, an instance: token `" B , X,A"` against the buckets `[A,B,C]` and
`[C,B]`, with an override secret that differs from the token. -/
theorem idlist_matching_witness :
    MapOrder.Valid (reverseOrder : MapOrder clientInfo) ∧
    ("secret" = "" ∨ "secret" ≠ " B , X,A") ∧
    (Split " B , X,A" ',').map TrimSpace = ["B", "X", "A"] ∧
    mapGet (matchClients reverseOrder "secret"
        [sampleInbound "vless" "tcp" [sampleClient "A" 0, sampleClient "B" 0, sampleClient "C" 0],
         sampleInbound "vmess" "ws" [sampleClient "C" 0, sampleClient "B" 0]]
        " B , X,A").filteredClients "vless_raw" = [sampleClient "A" 0, sampleClient "B" 0] ∧
    ("C" ∉ (matchClients reverseOrder "secret"
        [sampleInbound "vless" "tcp" [sampleClient "A" 0, sampleClient "B" 0, sampleClient "C" 0],
         sampleInbound "vmess" "ws" [sampleClient "C" 0, sampleClient "B" 0]]
        " B , X,A").orderedMatchedClients.map clientInfo.ID) :=
  ⟨fun _ m => List.reverse_perm m, Or.inr (by decide), rfl,
    ((idlist_matching reverseOrder (fun _ m => List.reverse_perm m) "secret"
      [sampleInbound "vless" "tcp" [sampleClient "A" 0, sampleClient "B" 0, sampleClient "C" 0],
       sampleInbound "vmess" "ws" [sampleClient "C" 0, sampleClient "B" 0]]
      " B , X,A" (Or.inr (by decide))).2 "vless_raw").trans rfl,
    fun h => absurd (((idlist_matching reverseOrder (fun _ m => List.reverse_perm m) "secret"
      [sampleInbound "vless" "tcp" [sampleClient "A" 0, sampleClient "B" 0, sampleClient "C" 0],
       sampleInbound "vmess" "ws" [sampleClient "C" 0, sampleClient "B" 0]]
      " B , X,A" (Or.inr (by decide))).1 "C").1 h).2 (by decide)⟩

/-- C6: when the override secret is non-empty and equals the token, and
every category is visited once per round, `filteredClients[key]` equals the
whole bucket `categorizedClients[key]` for every key and every id of every
bucket occurs in `orderedMatchedClients`; with an empty secret `useAllClients`
is false for every token and a client matches only if its id is a trimmed
piece of the token. -/
theorem match_all_mode (order : MapOrder clientInfo) (superKey : String)
    (inbounds : List InboundDetourConfig) (uuidQuery : String) :
    (MapOrder.Valid order → superKey ≠ "" → superKey = uuidQuery →
      (∀ key, mapGet (matchClients order superKey inbounds uuidQuery).filteredClients key =
          mapGet (categorizedClients inbounds) key) ∧
      (∀ key, ∀ c ∈ mapGet (categorizedClients inbounds) key,
          c.ID ∈ (matchClients order superKey inbounds uuidQuery).orderedMatchedClients.map
            clientInfo.ID)) ∧
    useAllClients "" uuidQuery = false ∧
    (∀ id, clientMatches "" uuidQuery id = true ↔ id ∈ (Split uuidQuery ',').map TrimSpace) := by
  refine ⟨fun hv h1 h2 => ⟨fun key => ?_, fun key c hc => ?_⟩, ?_, fun id => ?_⟩
  · rw [matchClients_filtered order hv]
    apply List.filter_eq_self.2
    intro c _
    exact clientMatches_all superKey uuidQuery h1 h2 c.ID
  · exact (mem_ordered_iff order hv superKey inbounds uuidQuery c.ID).2
      ⟨⟨key, c, hc, rfl⟩, clientMatches_all superKey uuidQuery h1 h2 c.ID⟩
  · exact useAllClients_false_of "" uuidQuery (Or.inl rfl)
  · rw [clientMatches_idlist "" uuidQuery (Or.inl rfl)]
    simp

/-- C6, an instance: secret and token are both `"k3y"`; the filtered list
of `vless_raw` is the whole bucket `[A, B]`. -/
theorem match_all_mode_witness :
    MapOrder.Valid (insertionOrder : MapOrder clientInfo) ∧ "k3y" ≠ "" ∧
    mapGet (matchClients insertionOrder "k3y"
        [sampleInbound "vless" "tcp" [sampleClient "A" 0, sampleClient "B" 0],
         sampleInbound "vmess" "ws" [sampleClient "C" 0]]
        "k3y").filteredClients "vless_raw" = [sampleClient "A" 0, sampleClient "B" 0] ∧
    "C" ∈ (matchClients insertionOrder "k3y"
        [sampleInbound "vless" "tcp" [sampleClient "A" 0, sampleClient "B" 0],
         sampleInbound "vmess" "ws" [sampleClient "C" 0]]
        "k3y").orderedMatchedClients.map clientInfo.ID :=
  ⟨fun _ _ => List.Perm.refl _, by decide,
    (((match_all_mode insertionOrder "k3y"
      [sampleInbound "vless" "tcp" [sampleClient "A" 0, sampleClient "B" 0],
       sampleInbound "vmess" "ws" [sampleClient "C" 0]] "k3y").1
      (fun _ _ => List.Perm.refl _) (by decide) rfl).1 "vless_raw").trans rfl,
    ((match_all_mode insertionOrder "k3y"
      [sampleInbound "vless" "tcp" [sampleClient "A" 0, sampleClient "B" 0],
       sampleInbound "vmess" "ws" [sampleClient "C" 0]] "k3y").1
      (fun _ _ => List.Perm.refl _) (by decide) rfl).2 "vmess_ws" (sampleClient "C" 0)
      (by decide)⟩

/-- C7: a link is appended for a pair (client, profile) with
`profile.Level ≠ -1` only if `profile.Level ≤ client.Level`; for a profile of
level `-1` the outcome for a client does not depend on the client's level;
and every link of the list returned by `generateSubscriptionLinks` is the
link of a pair (matched client, profile) that satisfies the gate. -/
theorem level_gate (J : EncodingJSON) (inbounds : List InboundDetourConfig) :
    (∀ categorized clientIndex client subIndex sub link,
      generateLink J inbounds categorized clientIndex client subIndex sub = some link →
      sub.Level ≠ -1 → sub.Level ≤ client.Level) ∧
    (∀ categorized clientIndex client subIndex sub (level : Int), sub.Level = -1 →
      generateLink J inbounds categorized clientIndex { client with Level := level } subIndex
          sub =
        generateLink J inbounds categorized clientIndex client subIndex sub) ∧
    (∀ order superKey profiles uuidQuery links,
      generateSubscriptionLinks J order superKey inbounds profiles uuidQuery = Except.ok links →
      ∀ link ∈ links, ∃ clientIndex client subIndex sub,
        (matchClients order superKey inbounds uuidQuery).orderedMatchedClients.get? clientIndex =
          some client ∧
        profiles.get? subIndex = some sub ∧
        generateLink J inbounds (categorizedClients inbounds) clientIndex client subIndex sub =
          some link ∧
        (sub.Level ≠ -1 → sub.Level ≤ client.Level)) := by
  have first : ∀ categorized clientIndex client subIndex sub link,
      generateLink J inbounds categorized clientIndex client subIndex sub = some link →
      sub.Level ≠ -1 → sub.Level ≤ client.Level := by
    intro categorized clientIndex client subIndex sub link h hne
    rcases ((generateLink_eq_some_iff _ _ _ _ _ _ _ _).1 h).2.1 with h1 | h1
    · exact absurd h1 hne
    · exact h1
  refine ⟨first, ?_, ?_⟩
  · intro categorized clientIndex client subIndex sub level hl
    simp only [generateLink, clientExistsForProfile, securityParams, realityParams, baseURL, hl,
      ne_eq, not_true_eq_false, false_and, if_false]
  · intro order superKey profiles uuidQuery links h link hlink
    obtain ⟨ci, c, si, p, h1, h2, h3⟩ :=
      (mem_generateSubscriptionLinks J order superKey inbounds profiles uuidQuery links h link).1
        hlink
    exact ⟨ci, c, si, p, h1, h2, h3, first _ _ _ _ _ _ h3⟩

/-- C7, an instance: a profile of level 1 yields a link for a client of
level 1 and none for a client of level 0. -/
theorem level_gate_witness :
    generateLink rejectingJSON [sampleInbound "vless" "tcp" [sampleClient "A" 1]]
        [("vless_raw", [sampleClient "A" 1])] 0 (sampleClient "A" 1) 0
        { sampleProfile "vless" "tcp" "none" "example.com" 0 with Level := 1 } =
      some "vless://A@example.com:443#vless_raw_none" ∧
    generateLink rejectingJSON [sampleInbound "vless" "tcp" [sampleClient "A" 1]]
        [("vless_raw", [sampleClient "A" 1])] 0 (sampleClient "A" 0) 0
        { sampleProfile "vless" "tcp" "none" "example.com" 0 with Level := 1 } = none ∧
    (1 : Int) ≤ (sampleClient "A" 1).Level :=
  ⟨rfl, rfl,
    (level_gate rejectingJSON [sampleInbound "vless" "tcp" [sampleClient "A" 1]]).1
      [("vless_raw", [sampleClient "A" 1])] 0 (sampleClient "A" 1) 0
      { sampleProfile "vless" "tcp" "none" "example.com" 0 with Level := 1 }
      "vless://A@example.com:443#vless_raw_none" rfl (by decide)⟩

/-- C9: a link emitted for a client and a profile starts with
`<protocol>://<id>@<address>:443` when the profile's port is 0 and with
`<protocol>://<id>@<address>:<port in decimal>` otherwise, and what follows
is the query string, empty or introduced by `?`, then `#` and the
fragment. -/
theorem default_port (J : EncodingJSON) (inbounds : List InboundDetourConfig)
    (categorized : SliceMap clientInfo) (clientIndex : Nat) (client : clientInfo)
    (subIndex : Nat) (sub : SubscriptionProfile) (link : String)
    (h : generateLink J inbounds categorized clientIndex client subIndex sub = some link) :
    (sub.Port = 0 → ∃ query fragment,
      link = sub.Protocol ++ "://" ++ client.ID ++ "@" ++ sub.Address ++ ":" ++ "443" ++
        query ++ "#" ++ fragment ∧ (query = "" ∨ ∃ encoded, query = "?" ++ encoded)) ∧
    (sub.Port ≠ 0 → ∃ query fragment,
      link = sub.Protocol ++ "://" ++ client.ID ++ "@" ++ sub.Address ++ ":" ++
        decimal sub.Port ++ query ++ "#" ++ fragment ∧
        (query = "" ∨ ∃ encoded, query = "?" ++ encoded)) := by
  obtain ⟨_, _, q, _, hl⟩ := (generateLink_eq_some_iff _ _ _ _ _ _ _ _).1 h
  have form : ∃ query fragment,
      link = baseURL client sub ++ query ++ "#" ++ fragment ∧
        (query = "" ∨ ∃ encoded, query = "?" ++ encoded) := by
    by_cases he : Values.Encode q ≠ ""
    · refine ⟨"?" ++ Values.Encode q,
        QueryEscape (description J sub (profileNetwork sub) (profileSecurity sub)), ?_,
        Or.inr ⟨Values.Encode q, rfl⟩⟩
      rw [hl, if_pos he, String.append_assoc (baseURL client sub) "?" (Values.Encode q)]
    · refine ⟨"", QueryEscape (description J sub (profileNetwork sub) (profileSecurity sub)),
        ?_, Or.inl rfl⟩
      rw [hl, if_neg he, String.append_empty]
  obtain ⟨query, fragment, hq, hform⟩ := form
  constructor
  · intro hp
    refine ⟨query, fragment, ?_, hform⟩
    rw [hq]
    unfold baseURL
    simp only [hp, if_true]
    rfl
  · intro hp
    refine ⟨query, fragment, ?_, hform⟩
    rw [hq]
    unfold baseURL
    simp only [hp, if_false]

/-- C9, an instance: port 0 gives `:443`, port 8443 gives `:8443`. -/
theorem default_port_witness :
    generateLink rejectingJSON [sampleInbound "vless" "ws" [sampleClient "A" 0]]
        [("vless_ws", [sampleClient "A" 0])] 0 (sampleClient "A" 0) 0
        (sampleProfile "vless" "ws" "none" "example.com" 0) =
      some "vless://A@example.com:443?host=example.com&type=ws#vless_ws_none" ∧
    decimal 8443 = "8443" ∧
    ∃ query fragment,
      "vless://A@example.com:8443?host=example.com&type=ws#vless_ws_none" =
        "vless" ++ "://" ++ "A" ++ "@" ++ "example.com" ++ ":" ++ decimal 8443 ++ query ++ "#" ++
          fragment ∧ (query = "" ∨ ∃ encoded, query = "?" ++ encoded) :=
  ⟨rfl, by decide,
    (default_port rejectingJSON [sampleInbound "vless" "ws" [sampleClient "A" 0]]
      [("vless_ws", [sampleClient "A" 0])] 0 (sampleClient "A" 0) 0
      (sampleProfile "vless" "ws" "none" "example.com" 8443)
      "vless://A@example.com:8443?host=example.com&type=ws#vless_ws_none" rfl).2 (by decide)⟩

theorem visitRounds_congr (order1 order2 : MapOrder clientInfo) (f : String → Bool)
    (categorized : SliceMap clientInfo) (h : ∀ i, order1 i categorized = order2 i categorized)
    (n : Nat) : visitRounds order1 f categorized n = visitRounds order2 f categorized n := by
  induction n with
  | zero => rfl
  | succ n ih =>
    unfold visitRounds at ih ⊢
    rw [List.range_succ, List.foldl_append, List.foldl_append, ih]
    simp only [List.foldl_cons, List.foldl_nil, visitRound, h]

theorem generateLink_raw_none (J : EncodingJSON) (inbounds : List InboundDetourConfig)
    (categorized : SliceMap clientInfo) (clientIndex : Nat) (client : clientInfo)
    (subIndex : Nat) (sub : SubscriptionProfile)
    (hnet : sub.Network = "tcp" ∨ sub.Network = "raw")
    (hsec : sub.Security = "none" ∨ sub.Security = "")
    (henc : sub.Encryption = "") (hdesc : sub.Description = "")
    (hex : clientExistsForProfile categorized (sub.Protocol ++ "_" ++ "raw") client = true)
    (hlevel : sub.Level = -1 ∨ sub.Level ≤ client.Level) :
    generateLink J inbounds categorized clientIndex client subIndex sub =
      some (sub.Protocol ++ "://" ++ client.ID ++ "@" ++ sub.Address ++ ":" ++
        decimal (if sub.Port = 0 then 443 else sub.Port) ++ "#" ++
        QueryEscape (sub.Protocol ++ "_raw_none")) := by
  have hn : profileNetwork sub = "raw" := by
    unfold profileNetwork
    rcases hnet with h | h <;> rw [h] <;> decide
  have hs : profileSecurity sub = "none" := by
    unfold profileSecurity
    rcases hsec with h | h <;> rw [h] <;> decide
  have hc : commonParams sub "raw" = [] := by
    unfold commonParams
    rcases hsec with h | h <;> simp [henc, h]
  have ht : transportParams J inbounds clientIndex subIndex sub "raw" [] = [] := by
    unfold transportParams
    simp only
    rw [if_neg (by decide), if_neg (by decide), if_neg (by decide), if_neg (by decide)]
  have hsp : securityParams inbounds clientIndex client subIndex sub "none" [] = some [] := by
    unfold securityParams
    rw [if_neg (by decide), if_neg (by decide)]
  have hd : description J sub "raw" "none" = sub.Protocol ++ "_raw_none" := by
    unfold description
    rw [if_pos hdesc]
    simp only
    rw [if_neg (fun h => absurd h.1 (by decide)), String.append_assoc, String.append_assoc,
      String.append_assoc]
    rfl
  rw [(generateLink_eq_some_iff J inbounds categorized clientIndex client subIndex sub _).2]
  refine ⟨by rw [hn]; exact hex, hlevel, [], by rw [hn, hs, hc, ht, hsp], ?_⟩
  have hE : Values.Encode [] = "" := rfl
  rw [hn, hs, hd, hE,
    show (if ("" : String) ≠ "" then baseURL client sub ++ "?" ++ "" else baseURL client sub) =
      baseURL client sub from if_neg (fun h => h rfl)]
  rfl

/-- C10: for a profile whose network is `tcp` or `raw`, whose security is
`none` or empty and whose encryption and description are empty, every
client that passes the membership and level gates gets the link
`<protocol>://<id>@<address>:<port>#` followed by the escaped text
`<protocol>_raw_none`, without query string; the escaped text is the text
itself when the protocol name has no character that needs escaping, as for
`vless` and `vmess`.  For one vless/raw inbound with client `u1` of level 0,
token `u1` and the profile vless, tcp, none, `example.com`, port 0, the
result is the single link `vless://u1@example.com:443#vless_raw_none`. -/
theorem raw_none_link (J : EncodingJSON) :
    (∀ inbounds categorized clientIndex client subIndex sub,
      (sub.Network = "tcp" ∨ sub.Network = "raw") →
      (sub.Security = "none" ∨ sub.Security = "") →
      sub.Encryption = "" → sub.Description = "" →
      clientExistsForProfile categorized (sub.Protocol ++ "_" ++ "raw") client = true →
      (sub.Level = -1 ∨ sub.Level ≤ client.Level) →
      generateLink J inbounds categorized clientIndex client subIndex sub =
        some (sub.Protocol ++ "://" ++ client.ID ++ "@" ++ sub.Address ++ ":" ++
          decimal (if sub.Port = 0 then 443 else sub.Port) ++ "#" ++
          QueryEscape (sub.Protocol ++ "_raw_none"))) ∧
    (∀ protocol : String, (∀ c ∈ protocol.data, unreserved c.toNat = true) →
      QueryEscape (protocol ++ "_raw_none") = protocol ++ "_raw_none") ∧
    QueryEscape ("vless" ++ "_raw_none") = "vless_raw_none" ∧
    QueryEscape ("vmess" ++ "_raw_none") = "vmess_raw_none" ∧
    (∀ order : MapOrder clientInfo, MapOrder.Valid order →
      generateSubscriptionLinks J order ""
          [sampleInbound "vless" "raw" [sampleClient "u1" 0]]
          [sampleProfile "vless" "tcp" "none" "example.com" 0] "u1" =
        Except.ok ["vless://u1@example.com:443#vless_raw_none"]) := by
  refine ⟨fun inbounds categorized clientIndex client subIndex sub hnet hsec henc hdesc hex
      hlevel => generateLink_raw_none J inbounds categorized clientIndex client subIndex sub
        hnet hsec henc hdesc hex hlevel, ?_, by decide, by decide, ?_⟩
  · intro protocol hp
    rw [QueryEscape_append, QueryEscape_unreserved protocol hp]
    congr 1
  · intro order hv
    have hcat : categorizedClients [sampleInbound "vless" "raw" [sampleClient "u1" 0]] =
        [("vless_raw", [sampleClient "u1" 0])] := rfl
    have hord : ∀ i, order i [("vless_raw", [sampleClient "u1" 0])] =
        insertionOrder i [("vless_raw", [sampleClient "u1" 0])] :=
      fun i => List.perm_singleton.1 (hv i _)
    have hm : matchClients order "" [sampleInbound "vless" "raw" [sampleClient "u1" 0]] "u1" =
        matchClients insertionOrder "" [sampleInbound "vless" "raw" [sampleClient "u1" 0]]
          "u1" := by
      unfold matchClients
      simp only [hcat]
      exact visitRounds_congr order insertionOrder _ _ hord _
    unfold generateSubscriptionLinks
    rw [hm]
    rfl

/-- C10, an instance: the profile vmess, raw, empty security, port 8080 and
client `u2` of the bucket `vmess_raw`. -/
theorem raw_none_link_witness :
    generateLink rejectingJSON [sampleInbound "vmess" "raw" [sampleClient "u2" 3]]
        [("vmess_raw", [sampleClient "u2" 3])] 0 (sampleClient "u2" 3) 0
        (sampleProfile "vmess" "raw" "" "example.org" 8080) =
      some "vmess://u2@example.org:8080#vmess_raw_none" :=
  ((raw_none_link rejectingJSON).1 [sampleInbound "vmess" "raw" [sampleClient "u2" 3]]
    [("vmess_raw", [sampleClient "u2" 3])] 0 (sampleClient "u2" 3) 0
    (sampleProfile "vmess" "raw" "" "example.org" 8080) (Or.inr rfl) (Or.inr rfl) rfl rfl
    (by decide) (Or.inr (by decide))).trans (by decide)

/-- C13: a pair of a client and a profile yields a link exactly when it
passes the membership, level and reality-password tests, and then exactly
one; when some inbound is vless or vmess the returned list is the
concatenation, over the matched clients in order, of the links of the
profiles in list order, so that the links of one client are contiguous and
precede those of the next; its length is at most the number of matched
clients times the number of profiles. -/
theorem output_structure (J : EncodingJSON) (order : MapOrder clientInfo) (superKey : String)
    (inbounds : List InboundDetourConfig) (profiles : List SubscriptionProfile)
    (uuidQuery : String) :
    (∀ clientIndex client subIndex sub,
      (∃ link, generateLink J inbounds (categorizedClients inbounds) clientIndex client subIndex
          sub = some link) ↔ passesGates (categorizedClients inbounds) client sub) ∧
    ((∃ ib ∈ inbounds, ib.Protocol = "vless" ∨ ib.Protocol = "vmess") →
      generateSubscriptionLinks J order superKey inbounds profiles uuidQuery =
        Except.ok
          (((matchClients order superKey inbounds uuidQuery).orderedMatchedClients.enum.map
            (fun x => profiles.enum.filterMap
              (fun y => generateLink J inbounds (categorizedClients inbounds) x.1 x.2 y.1
                y.2))).flatten)) ∧
    (∀ links, generateSubscriptionLinks J order superKey inbounds profiles uuidQuery =
        Except.ok links →
      links.length ≤
        (matchClients order superKey inbounds uuidQuery).orderedMatchedClients.length *
          profiles.length) := by
  refine ⟨fun clientIndex client subIndex sub =>
    generateLink_isSome_iff J inbounds _ clientIndex client subIndex sub, ?_, ?_⟩
  · intro hex
    rw [generateSubscriptionLinks_ok J order superKey inbounds profiles uuidQuery
      ((foundSpecialProtocol_iff inbounds).2 hex), clientLoop_eq_flatten]
    simp only [profileLoop_eq_filterMap]
    rfl
  · intro links h
    by_cases hf : foundSpecialProtocol inbounds = true
    · rw [generateSubscriptionLinks_ok J order superKey inbounds profiles uuidQuery hf] at h
      cases h
      exact length_clientLoop_le _ _
        (fun i c => length_profileLoop_le J inbounds _ i c profiles 0) _ 0
    · unfold generateSubscriptionLinks at h
      simp [hf] at h

/-- C13, an instance: two matched clients and three profiles, of which the
second is no profile of client `B` and the third has a level above both
clients; the list holds the links of `A`, then the link of `B`. -/
theorem output_structure_witness :
    generateSubscriptionLinks rejectingJSON insertionOrder ""
        [sampleInbound "vless" "tcp" [sampleClient "A" 0, sampleClient "B" 0],
         sampleInbound "vmess" "ws" [sampleClient "A" 0]]
        [sampleProfile "vless" "tcp" "none" "one.example" 0,
         sampleProfile "vmess" "ws" "none" "two.example" 0,
         { sampleProfile "vless" "raw" "none" "three.example" 0 with Level := 1 }]
        "A,B" =
      Except.ok ["vless://A@one.example:443#vless_raw_none",
                 "vmess://A@two.example:443?host=two.example&type=ws#vmess_ws_none",
                 "vless://B@one.example:443#vless_raw_none"] ∧
    (3 : Nat) ≤ 2 * 3 :=
  ⟨rfl,
    (output_structure rejectingJSON insertionOrder ""
      [sampleInbound "vless" "tcp" [sampleClient "A" 0, sampleClient "B" 0],
       sampleInbound "vmess" "ws" [sampleClient "A" 0]]
      [sampleProfile "vless" "tcp" "none" "one.example" 0,
       sampleProfile "vmess" "ws" "none" "two.example" 0,
       { sampleProfile "vless" "raw" "none" "three.example" 0 with Level := 1 }]
      "A,B").2.2 _ rfl⟩

/-- C15: when every category is visited once per round, the membership test
of the loop body against the bucket `categorizedClients[key]` and the same
test against `filteredClients[key]` agree for every client of
`orderedMatchedClients` and every key; hence a link is emitted for a matched
client and a profile only if the client's id occurs in `filteredClients` under
the profile's key. -/
theorem membership_gate (J : EncodingJSON) (order : MapOrder clientInfo)
    (hv : MapOrder.Valid order) (superKey : String) (inbounds : List InboundDetourConfig)
    (uuidQuery : String) :
    (∀ client ∈ (matchClients order superKey inbounds uuidQuery).orderedMatchedClients,
      ∀ key, clientExistsForProfile (categorizedClients inbounds) key client =
        clientExistsForProfile (matchClients order superKey inbounds uuidQuery).filteredClients
          key client) ∧
    (∀ client ∈ (matchClients order superKey inbounds uuidQuery).orderedMatchedClients,
      ∀ clientIndex subIndex sub link,
        generateLink J inbounds (categorizedClients inbounds) clientIndex client subIndex sub =
          some link →
        ∃ c ∈ mapGet (matchClients order superKey inbounds uuidQuery).filteredClients
            (sub.Protocol ++ "_" ++ profileNetwork sub), c.ID = client.ID) := by
  have main : ∀ client ∈ (matchClients order superKey inbounds uuidQuery).orderedMatchedClients,
      ∀ key, clientExistsForProfile (categorizedClients inbounds) key client =
        clientExistsForProfile (matchClients order superKey inbounds uuidQuery).filteredClients
          key client := by
    intro client hc key
    have hm : clientMatches superKey uuidQuery client.ID = true :=
      ((mem_ordered_iff order hv superKey inbounds uuidQuery client.ID).1
        (List.mem_map.2 ⟨client, hc, rfl⟩)).2
    unfold clientExistsForProfile
    rw [matchClients_filtered order hv, Bool.eq_iff_iff, List.any_eq_true, List.any_eq_true]
    constructor
    · rintro ⟨c, hcm, hid⟩
      refine ⟨c, List.mem_filter.2 ⟨hcm, ?_⟩, hid⟩
      rw [show c.ID = client.ID by simpa using hid]
      exact hm
    · rintro ⟨c, hcm, hid⟩
      exact ⟨c, (List.mem_filter.1 hcm).1, hid⟩
  refine ⟨main, ?_⟩
  intro client hc clientIndex subIndex sub link hg
  have h1 := ((generateLink_eq_some_iff _ _ _ _ _ _ _ _).1 hg).1
  rw [main client hc] at h1
  unfold clientExistsForProfile at h1
  obtain ⟨c, hcm, hid⟩ := List.any_eq_true.1 h1
  exact ⟨c, hcm, by simpa using hid⟩

/-- C15, an instance: client `B` is matched and sits in the bucket
`vmess_ws`; both tests answer yes. -/
theorem membership_gate_witness :
    MapOrder.Valid (insertionOrder : MapOrder clientInfo) ∧
    clientExistsForProfile
        (matchClients insertionOrder ""
          [sampleInbound "vless" "tcp" [sampleClient "A" 0, sampleClient "B" 0],
           sampleInbound "vmess" "ws" [sampleClient "C" 0, sampleClient "B" 0]]
          "B").filteredClients "vmess_ws" (sampleClient "B" 0) = true :=
  ⟨fun _ _ => List.Perm.refl _,
    ((membership_gate rejectingJSON insertionOrder (fun _ _ => List.Perm.refl _) ""
      [sampleInbound "vless" "tcp" [sampleClient "A" 0, sampleClient "B" 0],
       sampleInbound "vmess" "ws" [sampleClient "C" 0, sampleClient "B" 0]] "B").1
      (sampleClient "B" 0) (by decide) "vmess_ws").symm.trans (by decide)⟩

/-- C17 (failing input): for a `reality` profile with the flow override
`xtls-rprx-vision` the emitted link has no `flow` parameter, whether the
client has no flow or a flow of its own; the same profile without override
gives `flow=` the client's flow. -/
theorem reality_flow_override_dropped (J : EncodingJSON) :
    generateLink J [sampleInbound "vless" "tcp" [sampleFlowClient "A" ""]]
        [("vless_raw", [sampleFlowClient "A" ""])] 0 (sampleFlowClient "A" "") 0
        { sampleProfile "vless" "tcp" "reality" "example.com" 0 with
          Password := "PBK", Flow := "xtls-rprx-vision" } =
      some ("vless://A@example.com:443?fp=chrome&pbk=PBK&security=reality&spx=get-sub00000" ++
        "#vless_raw_reality") ∧
    generateLink J [sampleInbound "vless" "tcp" [sampleFlowClient "A" "xtls-rprx-vision"]]
        [("vless_raw", [sampleFlowClient "A" "xtls-rprx-vision"])] 0
        (sampleFlowClient "A" "xtls-rprx-vision") 0
        { sampleProfile "vless" "tcp" "reality" "example.com" 0 with
          Password := "PBK", Flow := "xtls-rprx-vision" } =
      some ("vless://A@example.com:443?fp=chrome&pbk=PBK&security=reality&spx=get-sub00000" ++
        "#vless_raw_reality") ∧
    generateLink J [sampleInbound "vless" "tcp" [sampleFlowClient "A" "xtls-rprx-vision"]]
        [("vless_raw", [sampleFlowClient "A" "xtls-rprx-vision"])] 0
        (sampleFlowClient "A" "xtls-rprx-vision") 0
        { sampleProfile "vless" "tcp" "reality" "example.com" 0 with Password := "PBK" } =
      some ("vless://A@example.com:443?flow=xtls-rprx-vision&fp=chrome&pbk=PBK" ++
        "&security=reality&spx=get-sub00000#vless_raw_reality") :=
  ⟨rfl, rfl, rfl⟩

/-- C18: `getRealityShortID(idx)` returns, for the short-id list `L` of the
first inbound with protocol vless, security reality and a non-empty short-id
list, the element `L[idx]` when `idx < len(L)` and the last element of `L`
otherwise, both of which exist; it returns the empty string when there is
no such inbound.  A link of a `reality` profile for the client at position
`idx` carries `sid` with this value when it is not empty and no `sid`
otherwise, whatever the position of the profile. -/
theorem deterministic_short_id (J : EncodingJSON) (inbounds : List InboundDetourConfig)
    (idx : Nat) :
    (∀ l, firstRealityShortIds inbounds = some l →
      l ≠ [] ∧
      (idx < l.length → l[idx]? = some (getRealityShortID inbounds idx)) ∧
      (l.length ≤ idx → l.getLast? = some (getRealityShortID inbounds idx))) ∧
    (firstRealityShortIds inbounds = none → getRealityShortID inbounds idx = "") ∧
    (∀ client subIndex sub q, sub.Security = "reality" →
      queryParamsOf J inbounds idx client subIndex sub = some q →
      mapGet q "sid" =
        if getRealityShortID inbounds idx = "" then [] else [getRealityShortID inbounds idx]) := by
  refine ⟨?_, ?_, ?_⟩
  · intro l hl
    have hne := firstRealityShortIds_ne_nil inbounds l hl
    have hpos : 0 < l.length := List.length_pos.2 hne
    have he := getRealityShortID_eq inbounds idx
    rw [hl] at he
    simp only at he
    refine ⟨hne, ?_, ?_⟩
    · intro hlt
      rw [he, if_pos hlt, List.getD_eq_getElem?_getD, List.getElem?_eq_getElem hlt]
      rfl
    · intro hge
      rw [he, if_neg (by omega), List.getD_eq_getElem?_getD, List.getLast?_eq_getElem?,
        List.getElem?_eq_getElem (by omega : l.length - 1 < l.length)]
      rfl
  · intro hn
    rw [getRealityShortID_eq, hn]
  · intro client subIndex sub q hsec hq
    rw [queryParamsOf_some J inbounds idx client subIndex sub q hq,
      reality_sid J inbounds idx client subIndex sub hsec]
    by_cases h : getRealityShortID inbounds idx = ""
    · rw [if_neg (by simpa using h), if_pos h]
    · rw [if_pos h, if_neg h]

/-- C18, an instance: with the short ids `aa`, `bb` on the second inbound,
index 0 selects `aa`, index 5 the last one, `bb`. -/
theorem deterministic_short_id_witness :
    firstRealityShortIds
        [sampleInbound "vless" "ws" [sampleClient "A" 0],
         sampleRealityInbound "tcp" ["aa", "bb"] [sampleClient "A" 0]] = some ["aa", "bb"] ∧
    getRealityShortID
        [sampleInbound "vless" "ws" [sampleClient "A" 0],
         sampleRealityInbound "tcp" ["aa", "bb"] [sampleClient "A" 0]] 0 = "aa" ∧
    ["aa", "bb"].getLast? = some (getRealityShortID
        [sampleInbound "vless" "ws" [sampleClient "A" 0],
         sampleRealityInbound "tcp" ["aa", "bb"] [sampleClient "A" 0]] 5) :=
  ⟨rfl, rfl,
    ((deterministic_short_id rejectingJSON
      [sampleInbound "vless" "ws" [sampleClient "A" 0],
       sampleRealityInbound "tcp" ["aa", "bb"] [sampleClient "A" 0]] 5).1
      ["aa", "bb"] rfl).2.2 (by decide)⟩

/-- C19: a link of a `reality` profile carries exactly one `spx` parameter,
built from the short id `sid` selected for the client: `get-` and the last
eight bytes of `sid` when `sid` has at least eight bytes, which for a short
id of letters and digits is `get-` and its last eight characters; and
`get-sub` followed by the profile's position written with `%05d` when `sid`
is shorter, which for a position below 100000 has exactly five digits. -/
theorem spx_placeholder (J : EncodingJSON) (inbounds : List InboundDetourConfig)
    (clientIndex : Nat) (client : clientInfo) (subIndex : Nat) (sub : SubscriptionProfile)
    (q : Values) (hsec : sub.Security = "reality")
    (hq : queryParamsOf J inbounds clientIndex client subIndex sub = some q) :
    mapGet q "spx" =
      [escapeBytes (spiderX (goBytes (getRealityShortID inbounds clientIndex)) subIndex)] ∧
    (8 ≤ goLen (getRealityShortID inbounds clientIndex) →
      spiderX (goBytes (getRealityShortID inbounds clientIndex)) subIndex =
        goBytes "get-" ++ (goBytes (getRealityShortID inbounds clientIndex)).drop
          (goLen (getRealityShortID inbounds clientIndex) - 8)) ∧
    (8 ≤ goLen (getRealityShortID inbounds clientIndex) →
      (∀ c ∈ (getRealityShortID inbounds clientIndex).data, unreserved c.toNat = true) →
      mapGet q "spx" =
        ["get-" ++ String.mk ((getRealityShortID inbounds clientIndex).data.drop
          ((getRealityShortID inbounds clientIndex).data.length - 8))]) ∧
    (goLen (getRealityShortID inbounds clientIndex) < 8 →
      mapGet q "spx" = ["get-sub" ++ decimal05 subIndex]) ∧
    (subIndex < 100000 →
      (decimal05 subIndex).length = 5 ∧
      decimal05 subIndex =
        String.mk (List.replicate (5 - (decimal subIndex).length) '0') ++ decimal subIndex) := by
  have hspx : mapGet q "spx" =
      [escapeBytes (spiderX (goBytes (getRealityShortID inbounds clientIndex)) subIndex)] := by
    rw [queryParamsOf_some J inbounds clientIndex client subIndex sub q hq,
      reality_spx J inbounds clientIndex client subIndex sub hsec]
  refine ⟨hspx, ?_, ?_, ?_, ?_⟩
  · intro hlen
    unfold spiderX
    rw [if_pos (show (goBytes (getRealityShortID inbounds clientIndex)).length ≥ 8 from hlen)]
    rfl
  · intro hlen hun
    rw [hspx, escapeBytes_spiderX_long _ subIndex hun hlen]
  · intro hlen
    rw [hspx, escapeBytes_spiderX_short _ subIndex hlen]
  · intro hlt
    exact ⟨length_decimal05 subIndex hlt, rfl⟩

/-- C19, an instance: the short id `0123456789abcdef` gives
`spx=get-89abcdef`; without short id the third profile (position 2) gives
`spx=get-sub00002`. -/
theorem spx_placeholder_witness :
    mapGet (Values.addAll [] (allAdds rejectingJSON
        [sampleRealityInbound "tcp" ["0123456789abcdef"] [sampleClient "A" 0]] 0
        (sampleClient "A" 0) 0
        { sampleProfile "vless" "tcp" "reality" "example.com" 0 with Password := "PBK" }))
      "spx" = ["get-89abcdef"] ∧
    generateLink rejectingJSON [sampleInbound "vless" "tcp" [sampleClient "A" 0]]
        [("vless_raw", [sampleClient "A" 0])] 0 (sampleClient "A" 0) 2
        { sampleProfile "vless" "tcp" "reality" "example.com" 0 with Password := "PBK" } =
      some ("vless://A@example.com:443?fp=chrome&pbk=PBK&security=reality&spx=get-sub00002" ++
        "#vless_raw_reality") :=
  ⟨((spx_placeholder rejectingJSON
      [sampleRealityInbound "tcp" ["0123456789abcdef"] [sampleClient "A" 0]] 0
      (sampleClient "A" 0) 0
      { sampleProfile "vless" "tcp" "reality" "example.com" 0 with Password := "PBK" }
      _ rfl rfl).2.2.1 (by decide) (by decide)).trans rfl, rfl⟩

/-- C16: whatever the `extra` value of a profile is, the profile yields a
link for a client exactly when the same profile without `extra` does, the
base of the link is the same and every parameter other than `extra` has the
same values; when `extra` cannot be decoded as an object the whole parameter
map is the one of the profile without `extra`, so the links agree up to the
fragment, and they are equal when the decoding of `downloadSettings.security`
fails as well.  No `extra` value makes the call return an error. -/
theorem malformed_extra_not_fatal (J : EncodingJSON) (inbounds : List InboundDetourConfig)
    (clientIndex : Nat) (client : clientInfo) (subIndex : Nat) (sub : SubscriptionProfile) :
    (∀ categorized,
      (∃ link, generateLink J inbounds categorized clientIndex client subIndex sub =
        some link) ↔
      (∃ link, generateLink J inbounds categorized clientIndex client subIndex
        { sub with Extra := "" } = some link)) ∧
    baseURL client sub = baseURL client { sub with Extra := "" } ∧
    (∀ q q0, queryParamsOf J inbounds clientIndex client subIndex sub = some q →
      queryParamsOf J inbounds clientIndex client subIndex { sub with Extra := "" } = some q0 →
      ∀ k, k ≠ "extra" → mapGet q k = mapGet q0 k) ∧
    (J.UnmarshalMap sub.Extra = none →
      queryParamsOf J inbounds clientIndex client subIndex sub =
        queryParamsOf J inbounds clientIndex client subIndex { sub with Extra := "" }) ∧
    (J.UnmarshalMap sub.Extra = none → ∀ categorized link,
      generateLink J inbounds categorized clientIndex client subIndex sub = some link →
      ∃ front fragment fragment0,
        link = front ++ "#" ++ fragment ∧
        generateLink J inbounds categorized clientIndex client subIndex
          { sub with Extra := "" } = some (front ++ "#" ++ fragment0)) ∧
    (J.UnmarshalMap sub.Extra = none → J.UnmarshalDownloadSecurity sub.Extra = none →
      ∀ categorized,
        generateLink J inbounds categorized clientIndex client subIndex sub =
          generateLink J inbounds categorized clientIndex client subIndex
            { sub with Extra := "" }) ∧
    (∀ order superKey profiles uuidQuery,
      (∃ ib ∈ inbounds, ib.Protocol = "vless" ∨ ib.Protocol = "vmess") →
      ∃ links, generateSubscriptionLinks J order superKey inbounds (sub :: profiles)
        uuidQuery = Except.ok links) := by
  refine ⟨?_, rfl, ?_, ?_, ?_, ?_, ?_⟩
  · intro categorized
    rw [generateLink_isSome_iff, generateLink_isSome_iff]
    exact Iff.rfl
  · intro q q0 hq hq0 k hk
    rw [queryParamsOf_some _ _ _ _ _ _ _ hq, queryParamsOf_some _ _ _ _ _ _ _ hq0,
      mapGet_addAll, mapGet_addAll, filter_allAdds_extra J inbounds clientIndex client subIndex
        sub k hk]
  · exact queryParamsOf_unmarshal_error J inbounds clientIndex client subIndex sub
  · intro hu categorized link hg
    obtain ⟨h1, h2, q, hq, hl⟩ := (generateLink_eq_some_iff _ _ _ _ _ _ _ _).1 hg
    have hq0 := queryParamsOf_unmarshal_error J inbounds clientIndex client subIndex sub hu
    unfold queryParamsOf at hq0
    rw [hq] at hq0
    refine ⟨_, _, QueryEscape (description J { sub with Extra := "" } (profileNetwork sub)
      (profileSecurity sub)), hl, ?_⟩
    exact (generateLink_eq_some_iff _ _ _ _ _ _ _ _).2 ⟨h1, h2, q, hq0.symm, rfl⟩
  · intro hu hd categorized
    have hq0 := queryParamsOf_unmarshal_error J inbounds clientIndex client subIndex sub hu
    have hdesc : description J sub (profileNetwork sub) (profileSecurity sub) =
        description J { sub with Extra := "" } (profileNetwork sub) (profileSecurity sub) := by
      unfold description
      have h0 : ¬ goLen "" > 2 := by decide
      simp only [hd, h0, and_false, if_false, ite_self]
    unfold queryParamsOf at hq0
    unfold generateLink
    simp only
    rw [hq0, hdesc]
    rfl
  · intro order superKey profiles uuidQuery hex
    exact ⟨_, generateSubscriptionLinks_ok J order superKey inbounds _ uuidQuery
      ((foundSpecialProtocol_iff inbounds).2 hex)⟩

/-- C16, an instance: an xhttp profile whose `extra` is the text `[1,2]`,
which the codec does not decode, gets the link of the same profile without
`extra`. -/
theorem malformed_extra_not_fatal_witness :
    generateLink rejectingJSON [sampleInbound "vless" "xhttp" [sampleClient "A" 0]]
        [("vless_xhttp", [sampleClient "A" 0])] 0 (sampleClient "A" 0) 0
        { sampleProfile "vless" "xhttp" "none" "example.com" 0 with Extra := "[1,2]" } =
      some "vless://A@example.com:443?host=example.com&mode=auto&type=xhttp#vless_xhttp_none" :=
  ((malformed_extra_not_fatal rejectingJSON
      [sampleInbound "vless" "xhttp" [sampleClient "A" 0]] 0 (sampleClient "A" 0) 0
      { sampleProfile "vless" "xhttp" "none" "example.com" 0 with Extra := "[1,2]" }).2.2.2.2.2.1
    rfl rfl [("vless_xhttp", [sampleClient "A" 0])]).trans rfl

/-- C14: when the inbounds of two calls correspond one to one and differ at
most in how the network `tcp` is written (unset, `tcp` or `raw`), and the
profiles correspond one to one and differ at most in writing `tcp` for `raw`
or `raw` for `tcp`, the two calls return the same result. -/
theorem tcp_raw_alias (J : EncodingJSON) (order : MapOrder clientInfo) (superKey : String)
    (inbounds inbounds2 : List InboundDetourConfig)
    (profiles profiles2 : List SubscriptionProfile) (uuidQuery : String)
    (hi : List.Forall₂ inboundAlias inbounds inbounds2)
    (hp : List.Forall₂ profileAlias profiles profiles2) :
    generateSubscriptionLinks J order superKey inbounds profiles uuidQuery =
      generateSubscriptionLinks J order superKey inbounds2 profiles2 uuidQuery := by
  rw [← generateSubscriptionLinks_normalize J order superKey inbounds profiles,
    ← generateSubscriptionLinks_normalize J order superKey inbounds2 profiles2,
    map_eq_of_forall₂ normalizeInbound inboundAlias normalizeInbound_eq_of_alias _ _ hi,
    map_eq_of_forall₂ normalizeProfile profileAlias normalizeProfile_eq_of_alias _ _ hp]

/-- C14, an instance: an inbound without network setting and a `tcp` profile
against the same inbound written `raw` and the profile written `raw`. -/
theorem tcp_raw_alias_witness :
    generateSubscriptionLinks rejectingJSON insertionOrder ""
        [⟨"vless", some ⟨none, "none", none, none, none, none⟩, [sampleClient "A" 0]⟩]
        [sampleProfile "vless" "tcp" "none" "example.com" 0] "A" =
      generateSubscriptionLinks rejectingJSON insertionOrder ""
        [sampleInbound "vless" "raw" [sampleClient "A" 0]]
        [sampleProfile "vless" "raw" "none" "example.com" 0] "A" ∧
    generateSubscriptionLinks rejectingJSON insertionOrder ""
        [sampleInbound "vless" "raw" [sampleClient "A" 0]]
        [sampleProfile "vless" "raw" "none" "example.com" 0] "A" =
      Except.ok ["vless://A@example.com:443#vless_raw_none"] :=
  ⟨tcp_raw_alias rejectingJSON insertionOrder ""
      [⟨"vless", some ⟨none, "none", none, none, none, none⟩, [sampleClient "A" 0]⟩]
      [sampleInbound "vless" "raw" [sampleClient "A" 0]]
      [sampleProfile "vless" "tcp" "none" "example.com" 0]
      [sampleProfile "vless" "raw" "none" "example.com" 0] "A"
      (List.Forall₂.cons ⟨rfl, rfl, Or.inr ⟨Or.inl rfl, Or.inr (Or.inr rfl)⟩, rfl⟩
        List.Forall₂.nil)
      (List.Forall₂.cons ⟨rfl, Or.inr ⟨Or.inl rfl, Or.inr rfl⟩⟩ List.Forall₂.nil),
    rfl⟩

theorem getRealityShortID_single (inbounds : List InboundDetourConfig) (idx : Nat)
    (sid : String) (h : firstRealityShortIds inbounds = some [sid]) :
    getRealityShortID inbounds idx = sid := by
  rw [getRealityShortID_eq, h]
  simp only [List.length_singleton]
  split
  · rename_i hlt
    have : idx = 0 := by omega
    subst this
    rfl
  · rfl

theorem encode_contains_sid_spx (J : EncodingJSON) (inbounds : List InboundDetourConfig)
    (clientIndex : Nat) (client : clientInfo) (subIndex : Nat) (sub : SubscriptionProfile)
    (hsec : sub.Security = "reality") (hsni : sub.ServerName = "")
    (hsid : getRealityShortID inbounds clientIndex = "ab12cd34") :
    ∃ front back,
      Values.Encode (Values.addAll [] (allAdds J inbounds clientIndex client subIndex sub)) =
        front ++ "sid=ab12cd34&spx=get-ab12cd34" ++ back := by
  have hkeys := keys_allAdds J inbounds clientIndex client subIndex sub
  have hnodup := allAdds_keys_nodup J inbounds clientIndex client subIndex sub
  have hsub := allAdds_keys J inbounds clientIndex client subIndex sub
  have hvsid := reality_sid J inbounds clientIndex client subIndex sub hsec
  have hvspx := reality_spx J inbounds clientIndex client subIndex sub hsec
  have hvsni := reality_sni J inbounds clientIndex client subIndex sub hsec hsni
  rw [hsid] at hvsid hvspx
  rw [if_pos (by decide)] at hvsid
  have hspxval : escapeBytes (spiderX (goBytes "ab12cd34") subIndex) = "get-ab12cd34" := by
    rw [escapeBytes_spiderX_long "ab12cd34" subIndex (by decide) (by decide)]
    decide
  rw [hspxval] at hvspx
  generalize hQ : Values.addAll [] (allAdds J inbounds clientIndex client subIndex sub) = Q
    at hkeys hvsid hvspx hvsni
  have hne : ∀ k ∈ Q.map Prod.fst, mapGet Q k ≠ [] := by
    rw [← hQ]
    exact mapGet_addAll_ne_nil _ [] (by simp)
  have hmem_sid : "sid" ∈ sortKeys (Q.map Prod.fst) :=
    (mem_sortKeys _ _).2 (mem_keys_of_mapGet_ne_nil Q "sid" (by rw [hvsid]; simp))
  have hmem_spx : "spx" ∈ sortKeys (Q.map Prod.fst) :=
    (mem_sortKeys _ _).2 (mem_keys_of_mapGet_ne_nil Q "spx" (by rw [hvspx]; simp))
  have hnd : (sortKeys (Q.map Prod.fst)).Nodup := by
    rw [(sortKeys_perm _).nodup_iff, hkeys]
    exact hnodup
  have hbetween : ∀ k ∈ sortKeys (Q.map Prod.fst),
      k = "sid" ∨ k = "spx" ∨ ¬ keyLe "sid" k ∨ ¬ keyLe k "spx" := by
    intro k hk
    have hk1 : k ∈ Q.map Prod.fst := (mem_sortKeys _ _).1 hk
    have hk2 : k ∈ parameterKeys := hsub.subset (hkeys ▸ hk1)
    rcases parameterKeys_between k hk2 with h | h | h | h | h
    · exact Or.inl h
    · exact Or.inr (Or.inl h)
    · subst h
      exact absurd hvsni (hne "sni" hk1)
    · exact Or.inr (Or.inr (Or.inl h))
    · exact Or.inr (Or.inr (Or.inr h))
  obtain ⟨l1, l2, hl⟩ := sorted_adjacent _ "sid" "spx" (sortKeys_sorted _) hnd hmem_sid
    hmem_spx (by decide) hbetween
  unfold Values.Encode Values.pairs
  rw [hl, foldr_pairs_append]
  simp only [List.foldr_cons, hvsid, hvspx, List.map_cons, List.map_nil, List.singleton_append]
  obtain ⟨front, back, he⟩ := intercalate_adjacent "&"
    (QueryEscape "sid" ++ "=" ++ QueryEscape "ab12cd34")
    (QueryEscape "spx" ++ "=" ++ QueryEscape "get-ab12cd34")
    (l1.foldr (fun k acc =>
      (mapGet Q k).map (fun x => QueryEscape k ++ "=" ++ QueryEscape x) ++ acc) [])
    (l2.foldr (fun k acc =>
      (mapGet Q k).map (fun x => QueryEscape k ++ "=" ++ QueryEscape x) ++ acc) [])
  refine ⟨front, back, ?_⟩
  rw [he]
  have : QueryEscape "sid" ++ "=" ++ QueryEscape "ab12cd34" ++ "&" ++
      (QueryEscape "spx" ++ "=" ++ QueryEscape "get-ab12cd34") =
      "sid=ab12cd34&spx=get-ab12cd34" := by decide
  rw [this]

theorem append_ne_empty (front mid back : String) (h : mid ≠ "") :
    front ++ mid ++ back ≠ "" := by
  intro he
  have hl := congrArg String.length he
  rw [String.length_append, String.length_append] at hl
  have hm : mid.length ≠ 0 := by
    intro h0
    apply h
    apply String.ext
    exact List.length_eq_zero.1 h0
  have : ("" : String).length = 0 := rfl
  omega

/-- C11: when the first inbound with protocol vless, security reality and a
non-empty short-id list has the short ids `["ab12cd34"]`, every link emitted
for a `reality` profile without server name has a query string that contains
`sid=ab12cd34&spx=get-ab12cd34`, and with an empty fingerprint it has the
parameter `fp=chrome`. -/
theorem reality_scenario (J : EncodingJSON) (inbounds : List InboundDetourConfig)
    (categorized : SliceMap clientInfo) (clientIndex : Nat) (client : clientInfo)
    (subIndex : Nat) (sub : SubscriptionProfile) (link : String)
    (hids : firstRealityShortIds inbounds = some ["ab12cd34"])
    (hsec : sub.Security = "reality") (hsni : sub.ServerName = "")
    (hg : generateLink J inbounds categorized clientIndex client subIndex sub = some link) :
    ∃ q, queryParamsOf J inbounds clientIndex client subIndex sub = some q ∧
      (∃ fragment, link = baseURL client sub ++ "?" ++ Values.Encode q ++ "#" ++ fragment) ∧
      (∃ front back, Values.Encode q = front ++ "sid=ab12cd34&spx=get-ab12cd34" ++ back) ∧
      (sub.Fingerprint = "" → mapGet q "fp" = ["chrome"] ∧ "fp=chrome" ∈ Values.pairs q) := by
  obtain ⟨hgates, hl⟩ := (generateLink_eq_some_iff_adds _ _ _ _ _ _ _ _).1 hg
  have hq := queryParamsOf_eq J inbounds clientIndex client subIndex sub
  rw [if_neg hgates.2.2] at hq
  have hsid := getRealityShortID_single inbounds clientIndex "ab12cd34" hids
  obtain ⟨front, back, henc⟩ :=
    encode_contains_sid_spx J inbounds clientIndex client subIndex sub hsec hsni hsid
  have hne : Values.Encode
      (Values.addAll [] (allAdds J inbounds clientIndex client subIndex sub)) ≠ "" := by
    rw [henc]
    exact append_ne_empty _ _ _ (by decide)
  refine ⟨_, hq,
    ⟨QueryEscape (description J sub (profileNetwork sub) (profileSecurity sub)), ?_⟩,
    ⟨front, back, henc⟩, ?_⟩
  · rw [hl, if_pos hne]
  · intro hfp
    have h1 := reality_fp J inbounds clientIndex client subIndex sub hsec
    rw [if_pos hfp] at h1
    refine ⟨h1, ?_⟩
    have := encodePair_mem_pairs _ "fp" "chrome" (by rw [h1]; exact List.mem_singleton_self _)
    exact this

/-- C11, an instance: one vless/raw inbound with security reality, the short
ids `["ab12cd34"]` and the client `A`, and a `reality` profile with password
`PBK` and nothing else set. -/
theorem reality_scenario_witness :
    generateLink rejectingJSON
        [sampleRealityInbound "tcp" ["ab12cd34"] [sampleClient "A" 0]]
        [("vless_raw", [sampleClient "A" 0])] 0 (sampleClient "A" 0) 0
        { sampleProfile "vless" "tcp" "reality" "example.com" 0 with Password := "PBK" } =
      some ("vless://A@example.com:443?fp=chrome&pbk=PBK&security=reality" ++
        "&sid=ab12cd34&spx=get-ab12cd34#vless_raw_reality") ∧
    ∃ q, queryParamsOf rejectingJSON
        [sampleRealityInbound "tcp" ["ab12cd34"] [sampleClient "A" 0]] 0 (sampleClient "A" 0) 0
        { sampleProfile "vless" "tcp" "reality" "example.com" 0 with Password := "PBK" } =
        some q ∧
      ∃ front back, Values.Encode q = front ++ "sid=ab12cd34&spx=get-ab12cd34" ++ back :=
  ⟨rfl,
    (reality_scenario rejectingJSON
      [sampleRealityInbound "tcp" ["ab12cd34"] [sampleClient "A" 0]]
      [("vless_raw", [sampleClient "A" 0])] 0 (sampleClient "A" 0) 0
      { sampleProfile "vless" "tcp" "reality" "example.com" 0 with Password := "PBK" }
      _ rfl rfl rfl rfl).imp (fun _ h => ⟨h.1, h.2.2.1⟩)⟩

set_option maxRecDepth 4000 in
/-- C20 (counter-example): the `extra` value
`{"downloadSettings":{"security":"reality"}}` has a `downloadSettings` object
with security `reality` and neither `shortId` nor `spiderX`, and the short id
`ab12cd34` is selected; the merged object is the decoded object itself, its
`downloadSettings` has neither key, and the link carries the text as it
was. -/
theorem extra_enrichment_counterexample :
    realityJSON.UnmarshalMap bareRealityText = some bareRealityObject ∧
    getRealityShortID [sampleRealityInbound "xhttp" ["ab12cd34"] [sampleClient "A" 0]] 0 =
      "ab12cd34" ∧
    mergeExtra bareRealityObject "ab12cd34" 0 = bareRealityObject ∧
    (∃ ds, jsonGet (mergeExtra bareRealityObject "ab12cd34" 0) "downloadSettings" =
        some (Json.object ds) ∧
      jsonGet ds "security" = some (Json.string (goBytes "reality")) ∧
      jsonGet ds "shortId" = none ∧ jsonGet ds "spiderX" = none ∧
      jsonGet ds "realitySettings" = none) ∧
    generateLink realityJSON [sampleRealityInbound "xhttp" ["ab12cd34"] [sampleClient "A" 0]]
        [("vless_xhttp", [sampleClient "A" 0])] 0 (sampleClient "A" 0) 0
        { sampleProfile "vless" "xhttp" "tls" "example.com" 0 with Extra := bareRealityText } =
      some ("vless://A@example.com:443?extra=%257B%2522downloadSettings%2522%253A%257B" ++
        "%2522security%2522%253A%2522reality%2522%257D%257D&host=example.com&mode=auto" ++
        "&security=tls&type=xhttp#vless_xhttp_tls2reality") :=
  ⟨rfl, rfl, rfl, ⟨_, rfl, rfl, rfl, rfl, rfl⟩, rfl⟩

/-- C20 as amended: when the decoded `extra` has a `downloadSettings` object
with security `reality` that holds a `realitySettings` object with neither
`shortId` nor `spiderX`, and the short id selected for the client is not
empty, the merged object has under `downloadSettings.realitySettings` the key
`shortId` with the selected short id and the key `spiderX` with the
placeholder derived from it.  When `downloadSettings.security` is not the
string `reality`, when `downloadSettings` holds no `realitySettings` object,
and when there is no `downloadSettings` object, the merged object is the
decoded one.  The `extra` parameter of the link is built from the text
written for the merged object, which in these three cases is the text written
for the decoded object. -/
theorem extra_enrichment (J : EncodingJSON) (inbounds : List InboundDetourConfig)
    (clientIndex : Nat) (client : clientInfo) (subIndex : Nat) (sub : SubscriptionProfile)
    (extraConfig : JsonObject) :
    (∀ ds rs, jsonGet extraConfig "downloadSettings" = some (Json.object ds) →
      jsonGet ds "security" = some (Json.string (goBytes "reality")) →
      jsonGet ds "realitySettings" = some (Json.object rs) →
      jsonGet rs "shortId" = none → jsonGet rs "spiderX" = none →
      getRealityShortID inbounds clientIndex ≠ "" →
      ∃ ds2 rs2,
        jsonGet (mergeExtra extraConfig (getRealityShortID inbounds clientIndex) subIndex)
          "downloadSettings" = some (Json.object ds2) ∧
        jsonGet ds2 "realitySettings" = some (Json.object rs2) ∧
        jsonGet rs2 "shortId" =
          some (Json.string (goBytes (getRealityShortID inbounds clientIndex))) ∧
        jsonGet rs2 "spiderX" =
          some (Json.string
            (spiderX (goBytes (getRealityShortID inbounds clientIndex)) subIndex))) ∧
    (∀ ds, jsonGet extraConfig "downloadSettings" = some (Json.object ds) →
      jsonGet ds "security" ≠ some (Json.string (goBytes "reality")) →
      mergeExtra extraConfig (getRealityShortID inbounds clientIndex) subIndex = extraConfig) ∧
    (sub.Network = "xhttp" → goLen sub.Extra > 2 →
      J.UnmarshalMap sub.Extra = some extraConfig →
      ∀ q, queryParamsOf J inbounds clientIndex client subIndex sub = some q →
        mapGet q "extra" = [QueryEscape (J.Marshal
          (mergeExtra extraConfig (getRealityShortID inbounds clientIndex) subIndex))]) ∧
    (∀ ds, jsonGet extraConfig "downloadSettings" = some (Json.object ds) →
      (∀ rs, jsonGet ds "realitySettings" ≠ some (Json.object rs)) →
      mergeExtra extraConfig (getRealityShortID inbounds clientIndex) subIndex = extraConfig) ∧
    ((∀ ds, jsonGet extraConfig "downloadSettings" ≠ some (Json.object ds)) →
      mergeExtra extraConfig (getRealityShortID inbounds clientIndex) subIndex = extraConfig) ∧
    (∀ ds, jsonGet extraConfig "downloadSettings" = some (Json.object ds) →
      (jsonGet ds "security" ≠ some (Json.string (goBytes "reality")) ∨
        ∀ rs, jsonGet ds "realitySettings" ≠ some (Json.object rs)) →
      sub.Network = "xhttp" → goLen sub.Extra > 2 →
      J.UnmarshalMap sub.Extra = some extraConfig →
      ∀ q, queryParamsOf J inbounds clientIndex client subIndex sub = some q →
        mapGet q "extra" = [QueryEscape (J.Marshal extraConfig)]) := by
  have hextra : sub.Network = "xhttp" → goLen sub.Extra > 2 →
      J.UnmarshalMap sub.Extra = some extraConfig →
      ∀ q, queryParamsOf J inbounds clientIndex client subIndex sub = some q →
        mapGet q "extra" = [QueryEscape (J.Marshal
          (mergeExtra extraConfig (getRealityShortID inbounds clientIndex) subIndex))] := by
    intro hnet hlen hu q hq
    rw [queryParamsOf_some _ _ _ _ _ _ _ hq, xhttp_extra _ _ _ _ _ _ hnet, if_pos hlen, hu]
  refine ⟨?_, ?_, hextra, ?_, ?_, ?_⟩
  · intro ds rs hd hsec hrs h1 h2 hsid
    have hf := jsonGet_fill_absent rs (getRealityShortID inbounds clientIndex) subIndex h1 h2
      hsid
    refine ⟨jsonSet ds "realitySettings" (Json.object
        (fillRealitySettings rs (getRealityShortID inbounds clientIndex) subIndex)),
      fillRealitySettings rs (getRealityShortID inbounds clientIndex) subIndex,
      ?_, ?_, hf.1, hf.2⟩
    · rw [mergeExtra_reality extraConfig ds rs _ _ hd hsec hrs, jsonGet_jsonSet, if_pos rfl]
    · rw [jsonGet_jsonSet, if_pos rfl]
  · intro ds hd hsec
    exact mergeExtra_not_reality extraConfig ds _ _ hd hsec
  · intro ds hd hrs
    exact mergeExtra_no_realitySettings extraConfig ds _ _ hd hrs
  · intro hd
    exact mergeExtra_no_downloadSettings extraConfig _ _ hd
  · intro ds hd hcase hnet hlen hu q hq
    have hm : mergeExtra extraConfig (getRealityShortID inbounds clientIndex) subIndex =
        extraConfig := by
      rcases hcase with h | h
      · exact mergeExtra_not_reality extraConfig ds _ _ hd h
      · exact mergeExtra_no_realitySettings extraConfig ds _ _ hd h
    have := hextra hnet hlen hu q hq
    rw [hm] at this
    exact this

/-- C20, an instance: the `extra` value
`{"downloadSettings":{"realitySettings":{},"security":"reality"}}` with the
short id `ab12cd34` gives the text with `shortId` and `spiderX` filled in
under `realitySettings`; the `extra` value
`{"downloadSettings":{"security":"reality"}}`, without `realitySettings`, is
emitted as it was decoded. -/
theorem extra_enrichment_witness :
    mergeExtra emptyRealityObject "ab12cd34" 0 = filledRealityObject ∧
    mapGet (Values.addAll [] (allAdds realityJSON
        [sampleRealityInbound "xhttp" ["ab12cd34"] [sampleClient "A" 0]] 0 (sampleClient "A" 0)
        0 { sampleProfile "vless" "xhttp" "tls" "example.com" 0 with
            Extra := emptyRealityText })) "extra" = [QueryEscape filledRealityText] ∧
    mapGet (Values.addAll [] (allAdds realityJSON
        [sampleRealityInbound "xhttp" ["ab12cd34"] [sampleClient "A" 0]] 0 (sampleClient "A" 0)
        0 { sampleProfile "vless" "xhttp" "tls" "example.com" 0 with
            Extra := bareRealityText })) "extra" = [QueryEscape bareRealityText] :=
  ⟨rfl,
    ((extra_enrichment realityJSON
      [sampleRealityInbound "xhttp" ["ab12cd34"] [sampleClient "A" 0]] 0 (sampleClient "A" 0) 0
      { sampleProfile "vless" "xhttp" "tls" "example.com" 0 with Extra := emptyRealityText }
      emptyRealityObject).2.2.1 rfl (by decide) rfl _ rfl).trans rfl,
    ((extra_enrichment realityJSON
      [sampleRealityInbound "xhttp" ["ab12cd34"] [sampleClient "A" 0]] 0 (sampleClient "A" 0) 0
      { sampleProfile "vless" "xhttp" "tls" "example.com" 0 with Extra := bareRealityText }
      bareRealityObject).2.2.2.2.2 [("security", Json.string (goBytes "reality"))] rfl
      (Or.inr (fun rs h => by cases h)) rfl (by decide) rfl _ rfl).trans rfl⟩

/-- C12 (counter-example): the `extra` value `{ }` is a JSON object; the
link carries `extra` with the text `{}`.  Fed back as the profile's `extra`,
the text `{}` is not longer than the empty-object literal and the link
carries no `extra` at all. -/
theorem extra_merge_counterexample :
    emptyObjectJSON.UnmarshalMap "\x7b \x7d" = some [] ∧
    emptyObjectJSON.Marshal (mergeExtra [] "" 0) = "\x7b\x7d" ∧
    generateLink emptyObjectJSON [sampleInbound "vless" "xhttp" [sampleClient "A" 0]]
        [("vless_xhttp", [sampleClient "A" 0])] 0 (sampleClient "A" 0) 0
        { sampleProfile "vless" "xhttp" "none" "example.com" 0 with Extra := "\x7b \x7d" } =
      some ("vless://A@example.com:443?extra=%257B%257D&host=example.com&mode=auto" ++
        "&type=xhttp#vless_xhttp_none") ∧
    generateLink emptyObjectJSON [sampleInbound "vless" "xhttp" [sampleClient "A" 0]]
        [("vless_xhttp", [sampleClient "A" 0])] 0 (sampleClient "A" 0) 0
        { sampleProfile "vless" "xhttp" "none" "example.com" 0 with Extra := "\x7b\x7d" } =
      some "vless://A@example.com:443?host=example.com&mode=auto&type=xhttp#vless_xhttp_none" :=
  ⟨rfl, rfl, rfl, rfl⟩

/-- C12 as amended: the merge leaves every key of the decoded `extra` other
than `downloadSettings` as it is; it either returns the decoded object or
replaces, inside a `downloadSettings` object with security `reality`, the
`realitySettings` object by one in which every key present before has the
value it had and only `shortId` and `spiderX` can be new, every other key of
`downloadSettings` being as before; merging a merged object again changes
nothing; and when the text written for the merged object is longer than the
empty-object literal and is decoded back to the merged object, the profile
with that text as `extra` gets the same `extra` parameter. -/
theorem extra_merge_preserves (J : EncodingJSON) (inbounds : List InboundDetourConfig)
    (clientIndex : Nat) (client : clientInfo) (subIndex : Nat) (sub : SubscriptionProfile)
    (extraConfig : JsonObject) :
    (∀ k, k ≠ "downloadSettings" →
      jsonGet (mergeExtra extraConfig (getRealityShortID inbounds clientIndex) subIndex) k =
        jsonGet extraConfig k) ∧
    (mergeExtra extraConfig (getRealityShortID inbounds clientIndex) subIndex = extraConfig ∨
      ∃ ds rs ds2 rs2,
        jsonGet extraConfig "downloadSettings" = some (Json.object ds) ∧
        jsonGet ds "security" = some (Json.string (goBytes "reality")) ∧
        jsonGet ds "realitySettings" = some (Json.object rs) ∧
        jsonGet (mergeExtra extraConfig (getRealityShortID inbounds clientIndex) subIndex)
          "downloadSettings" = some (Json.object ds2) ∧
        (∀ k, k ≠ "realitySettings" → jsonGet ds2 k = jsonGet ds k) ∧
        jsonGet ds2 "realitySettings" = some (Json.object rs2) ∧
        (∀ k v, jsonGet rs k = some v → jsonGet rs2 k = some v) ∧
        (∀ k, k ≠ "shortId" → k ≠ "spiderX" → jsonGet rs2 k = jsonGet rs k)) ∧
    mergeExtra (mergeExtra extraConfig (getRealityShortID inbounds clientIndex) subIndex)
        (getRealityShortID inbounds clientIndex) subIndex =
      mergeExtra extraConfig (getRealityShortID inbounds clientIndex) subIndex ∧
    (sub.Network = "xhttp" → goLen sub.Extra > 2 →
      J.UnmarshalMap sub.Extra = some extraConfig →
      goLen (J.Marshal
        (mergeExtra extraConfig (getRealityShortID inbounds clientIndex) subIndex)) > 2 →
      J.UnmarshalMap (J.Marshal
          (mergeExtra extraConfig (getRealityShortID inbounds clientIndex) subIndex)) =
        some (mergeExtra extraConfig (getRealityShortID inbounds clientIndex) subIndex) →
      ∀ q q2, queryParamsOf J inbounds clientIndex client subIndex sub = some q →
        queryParamsOf J inbounds clientIndex client subIndex
          { sub with Extra := J.Marshal
                                (mergeExtra extraConfig
                                  (getRealityShortID inbounds clientIndex) subIndex) } =
          some q2 →
        mapGet q "extra" = [QueryEscape (J.Marshal
          (mergeExtra extraConfig (getRealityShortID inbounds clientIndex) subIndex))] ∧
        mapGet q2 "extra" = mapGet q "extra") := by
  refine ⟨?_, ?_, mergeExtra_idem _ _ _, ?_⟩
  · intro k hk
    rcases mergeExtra_cases extraConfig (getRealityShortID inbounds clientIndex) subIndex with
      h | ⟨ds, rs, hd, hsec, hrs⟩
    · rw [h]
    · rw [mergeExtra_reality extraConfig ds rs _ _ hd hsec hrs, jsonGet_jsonSet,
        if_neg (Ne.symm hk)]
  · rcases mergeExtra_cases extraConfig (getRealityShortID inbounds clientIndex) subIndex with
      h | ⟨ds, rs, hd, hsec, hrs⟩
    · exact Or.inl h
    · refine Or.inr ⟨ds, rs, jsonSet ds "realitySettings" (Json.object
          (fillRealitySettings rs (getRealityShortID inbounds clientIndex) subIndex)),
        fillRealitySettings rs (getRealityShortID inbounds clientIndex) subIndex,
        hd, hsec, hrs, ?_, ?_, ?_, ?_, ?_⟩
      · rw [mergeExtra_reality extraConfig ds rs _ _ hd hsec hrs, jsonGet_jsonSet, if_pos rfl]
      · intro k hk
        rw [jsonGet_jsonSet, if_neg (Ne.symm hk)]
      · rw [jsonGet_jsonSet, if_pos rfl]
      · intro k v hv
        exact jsonGet_fill_of_some rs _ _ k v hv
      · intro k h1 h2
        exact jsonGet_fill_other rs _ _ k h1 h2
  · intro hnet hlen hu hlen2 hrt q q2 hq hq2
    have h1 : mapGet q "extra" = [QueryEscape (J.Marshal
        (mergeExtra extraConfig (getRealityShortID inbounds clientIndex) subIndex))] := by
      rw [queryParamsOf_some _ _ _ _ _ _ _ hq, xhttp_extra _ _ _ _ _ _ hnet, if_pos hlen, hu]
    refine ⟨h1, ?_⟩
    rw [h1, queryParamsOf_some _ _ _ _ _ _ _ hq2,
      xhttp_extra J inbounds clientIndex client subIndex
        { sub with Extra := J.Marshal
                              (mergeExtra extraConfig
                                (getRealityShortID inbounds clientIndex) subIndex) } hnet]
    dsimp only
    rw [if_pos hlen2, hrt]
    simp only
    rw [mergeExtra_idem]

/-- C12, an instance: the profile whose `extra` is the text written for the
merged sample object gets that text again. -/
theorem extra_merge_preserves_witness :
    mergeExtra filledRealityObject "ab12cd34" 0 = filledRealityObject ∧
    mapGet (Values.addAll [] (allAdds realityJSON
        [sampleRealityInbound "xhttp" ["ab12cd34"] [sampleClient "A" 0]] 0 (sampleClient "A" 0)
        0 { sampleProfile "vless" "xhttp" "tls" "example.com" 0 with
            Extra := filledRealityText })) "extra" = [QueryEscape filledRealityText] :=
  ⟨rfl,
    (((extra_merge_preserves realityJSON
      [sampleRealityInbound "xhttp" ["ab12cd34"] [sampleClient "A" 0]] 0 (sampleClient "A" 0) 0
      { sampleProfile "vless" "xhttp" "tls" "example.com" 0 with Extra := emptyRealityText }
      emptyRealityObject).2.2.2 rfl (by decide) rfl (by decide) rfl _ _ rfl rfl).2).trans rfl⟩

/-- C30: every emitted link has the parameter `security`, with the
profile's security value, exactly when that value is neither empty nor
`none`; the parameter `encryption` exactly when the profile's encryption is
not empty and either the protocol is vless and the encryption is not `none`
or the protocol is vmess and the encryption is not `auto`; and the parameter
`type`, with the normalized network, exactly when that network is not
`raw`. -/
theorem common_parameters (J : EncodingJSON) (inbounds : List InboundDetourConfig)
    (categorized : SliceMap clientInfo) (clientIndex : Nat) (client : clientInfo)
    (subIndex : Nat) (sub : SubscriptionProfile) (link : String)
    (hg : generateLink J inbounds categorized clientIndex client subIndex sub = some link) :
    ∃ q, queryParamsOf J inbounds clientIndex client subIndex sub = some q ∧
      link = finalURL client sub q (description J sub (profileNetwork sub) (profileSecurity sub)) ∧
      ("security" ∈ q.map Prod.fst ↔ sub.Security ≠ "" ∧ sub.Security ≠ "none") ∧
      (sub.Security ≠ "" ∧ sub.Security ≠ "none" →
        mapGet q "security" = [sub.Security] ∧
        encodePair "security" sub.Security ∈ Values.pairs q) ∧
      ("encryption" ∈ q.map Prod.fst ↔
        sub.Encryption ≠ "" ∧ ((sub.Protocol = "vless" ∧ sub.Encryption ≠ "none") ∨
          (sub.Protocol = "vmess" ∧ sub.Encryption ≠ "auto"))) ∧
      (sub.Encryption ≠ "" ∧ ((sub.Protocol = "vless" ∧ sub.Encryption ≠ "none") ∨
          (sub.Protocol = "vmess" ∧ sub.Encryption ≠ "auto")) →
        mapGet q "encryption" =
          [if sub.Protocol = "vless" then QueryEscape sub.Encryption else sub.Encryption]) ∧
      ("type" ∈ q.map Prod.fst ↔ profileNetwork sub ≠ "raw") ∧
      (profileNetwork sub ≠ "raw" →
        mapGet q "type" = [profileNetwork sub] ∧
        encodePair "type" (profileNetwork sub) ∈ Values.pairs q) := by
  obtain ⟨_, hq, hl⟩ := generateLink_parts J inbounds categorized clientIndex client subIndex
    sub link hg
  have hs := common_security J inbounds clientIndex client subIndex sub
  have he := common_encryption J inbounds clientIndex client subIndex sub
  have ht := common_type J inbounds clientIndex client subIndex sub
  refine ⟨_, hq, hl, ?_, ?_, ?_, ?_, ?_, ?_⟩
  · rw [mem_keys_addAll_iff, hs]
    exact ite_singleton_ne_nil_iff _ _
  · intro h
    rw [if_pos h] at hs
    exact ⟨hs, encodePair_mem_pairs _ _ _ (by rw [hs]; exact List.mem_singleton_self _)⟩
  · rw [mem_keys_addAll_iff, he]
    exact ite_singleton_ne_nil_iff _ _
  · intro h
    rw [if_pos h] at he
    exact he
  · rw [mem_keys_addAll_iff, ht]
    exact ite_singleton_ne_nil_iff _ _
  · intro h
    rw [if_pos h] at ht
    exact ⟨ht, encodePair_mem_pairs _ _ _ (by rw [ht]; exact List.mem_singleton_self _)⟩

/-- C30, an instance: a vmess profile over ws with security `tls` and the
encryption `zero` carries all three parameters. -/
theorem common_parameters_witness :
    generateLink rejectingJSON [sampleInbound "vmess" "ws" [sampleClient "A" 0]]
        [("vmess_ws", [sampleClient "A" 0])] 0 (sampleClient "A" 0) 0
        { sampleProfile "vmess" "ws" "tls" "example.com" 0 with Encryption := "zero" } =
      some ("vmess://A@example.com:443?encryption=zero&host=example.com&security=tls" ++
        "&type=ws#vmess_ws_tls") ∧
    ∃ q, queryParamsOf rejectingJSON [sampleInbound "vmess" "ws" [sampleClient "A" 0]] 0
        (sampleClient "A" 0) 0
        { sampleProfile "vmess" "ws" "tls" "example.com" 0 with Encryption := "zero" } =
        some q ∧
      ("security" ∈ q.map Prod.fst ↔ "tls" ≠ "" ∧ "tls" ≠ "none") :=
  ⟨rfl,
    (common_parameters rejectingJSON [sampleInbound "vmess" "ws" [sampleClient "A" 0]]
      [("vmess_ws", [sampleClient "A" 0])] 0 (sampleClient "A" 0) 0
      { sampleProfile "vmess" "ws" "tls" "example.com" 0 with Encryption := "zero" }
      _ rfl).imp (fun _ h => ⟨h.1, h.2.2.1⟩)⟩

/-- C24: every link emitted for a profile whose network is http, ws or
httpupgrade has exactly one `host` parameter, built from the profile's host
when that is not empty (with every space removed when the network is http,
as it is for ws and httpupgrade) and from the profile's address otherwise;
it has a `path` parameter, built from the profile's path, exactly when that
path is neither empty nor `/`. -/
theorem http_host_path (J : EncodingJSON) (inbounds : List InboundDetourConfig)
    (categorized : SliceMap clientInfo) (clientIndex : Nat) (client : clientInfo)
    (subIndex : Nat) (sub : SubscriptionProfile) (link : String)
    (hnet : sub.Network = "http" ∨ sub.Network = "ws" ∨ sub.Network = "httpupgrade")
    (hg : generateLink J inbounds categorized clientIndex client subIndex sub = some link) :
    ∃ q, queryParamsOf J inbounds clientIndex client subIndex sub = some q ∧
      link = finalURL client sub q (description J sub (profileNetwork sub) (profileSecurity sub)) ∧
      (sub.Host ≠ "" → sub.Network = "http" →
        mapGet q "host" = [QueryEscape (removeSpaces sub.Host)]) ∧
      (sub.Host ≠ "" → sub.Network ≠ "http" → mapGet q "host" = [QueryEscape sub.Host]) ∧
      (sub.Host = "" → mapGet q "host" = [QueryEscape sub.Address]) ∧
      (∀ c, c ∈ (removeSpaces sub.Host).data ↔ c ∈ sub.Host.data ∧ c ≠ ' ') ∧
      (removeSpaces sub.Host).data = sub.Host.data.filter (fun c => c != ' ') ∧
      ("path" ∈ q.map Prod.fst ↔ sub.Path ≠ "" ∧ sub.Path ≠ "/") ∧
      (sub.Path ≠ "" ∧ sub.Path ≠ "/" → mapGet q "path" = [QueryEscape sub.Path]) := by
  obtain ⟨_, hq, hl⟩ := generateLink_parts J inbounds categorized clientIndex client subIndex
    sub link hg
  have hh := http_host J inbounds clientIndex client subIndex sub hnet
  have hp := http_path J inbounds clientIndex client subIndex sub hnet
  refine ⟨_, hq, hl, ?_, ?_, ?_, mem_removeSpaces sub.Host, rfl, ?_, ?_⟩
  · intro h1 h2
    rw [hh, if_pos h1, if_pos h2]
  · intro h1 h2
    rw [hh, if_pos h1, if_neg h2]
  · intro h1
    rw [hh, if_neg (fun h => h h1)]
  · rw [mem_keys_addAll_iff, hp]
    exact ite_singleton_ne_nil_iff _ _
  · intro h
    rw [hp, if_pos h]

/-- C24, an instance: an http profile with host `a b.example` and path
`/x`, and the same profile over ws. -/
theorem http_host_path_witness :
    generateLink rejectingJSON [sampleInbound "vless" "ws" [sampleClient "A" 0]]
        [("vless_ws", [sampleClient "A" 0])] 0 (sampleClient "A" 0) 0
        { sampleProfile "vless" "ws" "none" "example.com" 0 with
          Host := "a b.example", Path := "/x" } =
      some "vless://A@example.com:443?host=a%2Bb.example&path=%252Fx&type=ws#vless_ws_none" ∧
    (∃ q, queryParamsOf rejectingJSON [sampleInbound "vless" "http" [sampleClient "A" 0]] 0
        (sampleClient "A" 0) 0
        { sampleProfile "vless" "http" "none" "example.com" 0 with
          Host := "a b.example", Path := "/x" } = some q ∧
      mapGet q "host" = ["ab.example"]) :=
  ⟨rfl,
    (http_host_path rejectingJSON [sampleInbound "vless" "http" [sampleClient "A" 0]]
      [("vless_http", [sampleClient "A" 0])] 0 (sampleClient "A" 0) 0
      { sampleProfile "vless" "http" "none" "example.com" 0 with
        Host := "a b.example", Path := "/x" }
      _ (Or.inl rfl) rfl).imp
      (fun _ h => ⟨h.1, (h.2.2.1 (by decide) rfl).trans rfl⟩)⟩

/-- C22 (counter-example): an xhttp profile whose `extra` is the text
`not-json`, longer than the empty-object literal and not decodable, gets a
link without any `extra` parameter. -/
theorem raw_extra_counterexample :
    goLen "not-json" > 2 ∧
    rejectingJSON.UnmarshalMap "not-json" = none ∧
    generateLink rejectingJSON [sampleInbound "vless" "xhttp" [sampleClient "A" 0]]
        [("vless_xhttp", [sampleClient "A" 0])] 0 (sampleClient "A" 0) 0
        { sampleProfile "vless" "xhttp" "none" "example.com" 0 with Extra := "not-json" } =
      some "vless://A@example.com:443?host=example.com&mode=auto&type=xhttp#vless_xhttp_none" ∧
    mapGet (Values.addAll [] (allAdds rejectingJSON
        [sampleInbound "vless" "xhttp" [sampleClient "A" 0]] 0 (sampleClient "A" 0) 0
        { sampleProfile "vless" "xhttp" "none" "example.com" 0 with Extra := "not-json" }))
      "extra" = [] :=
  ⟨by decide, rfl, rfl, rfl⟩

/-- C22 as amended: a link emitted for an xhttp profile for whose `extra`
`json.Unmarshal` into the map returns an error has no `extra` parameter; the
parameter is present exactly when `extra` is longer than the empty-object
literal and `json.Unmarshal` into the map returns no error, and its value is
then built from the text `json.Marshal` writes for the decoded map after the
merge. -/
theorem extra_parse_failure (J : EncodingJSON) (inbounds : List InboundDetourConfig)
    (categorized : SliceMap clientInfo) (clientIndex : Nat) (client : clientInfo)
    (subIndex : Nat) (sub : SubscriptionProfile) (link : String)
    (hnet : sub.Network = "xhttp")
    (hg : generateLink J inbounds categorized clientIndex client subIndex sub = some link) :
    ∃ q, queryParamsOf J inbounds clientIndex client subIndex sub = some q ∧
      link = finalURL client sub q (description J sub (profileNetwork sub) (profileSecurity sub)) ∧
      (J.UnmarshalMap sub.Extra = none →
        mapGet q "extra" = [] ∧ "extra" ∉ q.map Prod.fst) ∧
      ("extra" ∈ q.map Prod.fst ↔
        goLen sub.Extra > 2 ∧ ∃ m, J.UnmarshalMap sub.Extra = some m) ∧
      (∀ m, goLen sub.Extra > 2 → J.UnmarshalMap sub.Extra = some m →
        mapGet q "extra" = [QueryEscape (J.Marshal
          (mergeExtra m (getRealityShortID inbounds clientIndex) subIndex))]) := by
  obtain ⟨_, hq, hl⟩ := generateLink_parts J inbounds categorized clientIndex client subIndex
    sub link hg
  have hx := xhttp_extra J inbounds clientIndex client subIndex sub hnet
  have hnone : J.UnmarshalMap sub.Extra = none →
      mapGet (Values.addAll [] (allAdds J inbounds clientIndex client subIndex sub))
        "extra" = [] := by
    intro hu
    rw [hx, hu]
    split_ifs <;> rfl
  refine ⟨_, hq, hl, ?_, ?_, ?_⟩
  · intro hu
    refine ⟨hnone hu, ?_⟩
    rw [mem_keys_addAll_iff, hnone hu]
    exact fun h => h rfl
  · rw [mem_keys_addAll_iff, hx]
    constructor
    · intro h
      by_cases hlen : goLen sub.Extra > 2
      · rw [if_pos hlen] at h
        cases hu : J.UnmarshalMap sub.Extra with
        | none =>
          rw [hu] at h
          exact absurd rfl h
        | some m => exact ⟨hlen, m, rfl⟩
      · rw [if_neg hlen] at h
        exact absurd rfl h
    · rintro ⟨hlen, m, hu⟩
      rw [if_pos hlen, hu]
      exact List.cons_ne_nil _ _
  · intro m hlen hu
    rw [hx, if_pos hlen, hu]

/-- C22, an instance: the xhttp profile with the undecodable `extra` value
`[1,2,3]` has no `extra` parameter; the xhttp profile with the `extra` value
`null`, for which `json.Unmarshal` returns no error, has `extra=null`. -/
theorem extra_parse_failure_witness :
    (∃ q, queryParamsOf rejectingJSON [sampleInbound "vless" "xhttp" [sampleClient "A" 0]] 0
        (sampleClient "A" 0) 0
        { sampleProfile "vless" "xhttp" "none" "example.com" 0 with Extra := "[1,2,3]" } =
        some q ∧
      mapGet q "extra" = []) ∧
    nullJSON.UnmarshalMap "null" = some [] ∧
    nullJSON.Marshal [] = "null" ∧
    generateLink nullJSON [sampleInbound "vless" "xhttp" [sampleClient "A" 0]]
        [("vless_xhttp", [sampleClient "A" 0])] 0 (sampleClient "A" 0) 0
        { sampleProfile "vless" "xhttp" "none" "example.com" 0 with Extra := "null" } =
      some ("vless://A@example.com:443?extra=null&host=example.com&mode=auto&type=xhttp" ++
        "#vless_xhttp_none") ∧
    (∃ q, queryParamsOf nullJSON [sampleInbound "vless" "xhttp" [sampleClient "A" 0]] 0
        (sampleClient "A" 0) 0
        { sampleProfile "vless" "xhttp" "none" "example.com" 0 with Extra := "null" } =
        some q ∧
      mapGet q "extra" = ["null"]) :=
  ⟨(extra_parse_failure rejectingJSON [sampleInbound "vless" "xhttp" [sampleClient "A" 0]]
      [("vless_xhttp", [sampleClient "A" 0])] 0 (sampleClient "A" 0) 0
      { sampleProfile "vless" "xhttp" "none" "example.com" 0 with Extra := "[1,2,3]" }
      _ rfl rfl).imp (fun _ h => ⟨h.1, (h.2.2.1 rfl).1⟩),
    rfl, rfl, rfl,
    (extra_parse_failure nullJSON [sampleInbound "vless" "xhttp" [sampleClient "A" 0]]
      [("vless_xhttp", [sampleClient "A" 0])] 0 (sampleClient "A" 0) 0
      { sampleProfile "vless" "xhttp" "none" "example.com" 0 with Extra := "null" }
      _ rfl rfl).imp (fun _ h => ⟨h.1, (h.2.2.2.2 [] (by decide) rfl).trans rfl⟩)⟩

/-- C23: an emitted link ends in `#` and the percent-encoded description.
The description is the profile's description when that is not empty.
Otherwise it is `<protocol>_<normalized network>_<security>`, with security
`none` when the profile's security is empty, followed by `2` and `d` exactly
when the normalized network is xhttp, `extra` is longer than the empty-object
literal and is decoded with a `downloadSettings.security` `d` that is not
empty and differs from the security; nothing is appended when `d` is the
profile's security.  The percent-encoding writes `+` for a space, a letter,
a digit, `-`, `_`, `.` or `~` as it is, and any other byte as `%` and its two
upper-case hexadecimal digits: `My Node` gives `My+Node`; a description of
letters, digits, `-`, `_`, `.` and `~` is its own percent-encoding. -/
theorem fragment_rule (J : EncodingJSON) (inbounds : List InboundDetourConfig)
    (categorized : SliceMap clientInfo) (clientIndex : Nat) (client : clientInfo)
    (subIndex : Nat) (sub : SubscriptionProfile) (link : String)
    (hg : generateLink J inbounds categorized clientIndex client subIndex sub = some link) :
    (∃ q, queryParamsOf J inbounds clientIndex client subIndex sub = some q ∧
      link = finalURL client sub q
        (description J sub (profileNetwork sub) (profileSecurity sub))) ∧
    (∃ front, link = front ++ "#" ++
      QueryEscape (description J sub (profileNetwork sub) (profileSecurity sub))) ∧
    (sub.Description ≠ "" →
      description J sub (profileNetwork sub) (profileSecurity sub) = sub.Description) ∧
    profileSecurity sub = (if sub.Security = "" then "none" else sub.Security) ∧
    (sub.Description = "" → ∀ d, profileNetwork sub = "xhttp" → goLen sub.Extra > 2 →
      J.UnmarshalDownloadSecurity sub.Extra = some d → d ≠ "" → profileSecurity sub ≠ d →
      description J sub (profileNetwork sub) (profileSecurity sub) =
        sub.Protocol ++ "_" ++ profileNetwork sub ++ "_" ++ profileSecurity sub ++ "2" ++ d) ∧
    (sub.Description = "" →
      ¬ (profileNetwork sub = "xhttp" ∧ goLen sub.Extra > 2 ∧
        ∃ d, J.UnmarshalDownloadSecurity sub.Extra = some d ∧ d ≠ "" ∧
          profileSecurity sub ≠ d) →
      description J sub (profileNetwork sub) (profileSecurity sub) =
        sub.Protocol ++ "_" ++ profileNetwork sub ++ "_" ++ profileSecurity sub) ∧
    (sub.Description = "" → ∀ d, J.UnmarshalDownloadSecurity sub.Extra = some d →
      d = sub.Security →
      description J sub (profileNetwork sub) (profileSecurity sub) =
        sub.Protocol ++ "_" ++ profileNetwork sub ++ "_" ++ profileSecurity sub) ∧
    ((∀ c ∈ (description J sub (profileNetwork sub) (profileSecurity sub)).data,
        unreserved c.toNat = true) →
      QueryEscape (description J sub (profileNetwork sub) (profileSecurity sub)) =
        description J sub (profileNetwork sub) (profileSecurity sub)) ∧
    (sub.Description ≠ "" → ∃ front, link = front ++ "#" ++ QueryEscape sub.Description) ∧
    (∀ s, (QueryEscape s).data = (goBytes s).flatMap (fun b =>
      if b = 32 then ['+']
      else if (97 ≤ b ∧ b ≤ 122) ∨ (65 ≤ b ∧ b ≤ 90) ∨ (48 ≤ b ∧ b ≤ 57) ∨
          b = 45 ∨ b = 95 ∨ b = 46 ∨ b = 126 then [Char.ofNat b]
      else ['%',
        if b / 16 < 10 then Char.ofNat (48 + b / 16) else Char.ofNat (55 + b / 16),
        if b % 16 < 10 then Char.ofNat (48 + b % 16) else Char.ofNat (55 + b % 16)])) ∧
    QueryEscape "My Node" = "My+Node" ∧
    QueryEscape "a/b#c&d=e~f" = "a%2Fb%23c%26d%3De~f" ∧
    QueryEscape "café" = "caf%C3%A9" := by
  obtain ⟨_, hq, hl⟩ := generateLink_parts J inbounds categorized clientIndex client subIndex
    sub link hg
  refine ⟨⟨_, hq, hl⟩, ⟨_, hl⟩, description_of_nonempty J sub _ _, profileSecurity_eq sub,
    ?_, description_plain J sub _ _, ?_, QueryEscape_unreserved _, ?_, ?_, rfl, rfl, rfl⟩
  · intro h d hn hlen hu hd hne
    exact description_suffix J sub _ _ d h hn hlen hu hd hne
  · intro h d hu hd
    apply description_plain J sub _ _ h
    rintro ⟨_, _, d2, hu2, hd2, hne⟩
    rw [hu] at hu2
    cases hu2
    apply hne
    rw [profileSecurity_eq, hd]
    by_cases hs : sub.Security = ""
    · exact absurd (hd.trans hs) hd2
    · rw [if_neg hs]
  · intro h
    rw [description_of_nonempty J sub (profileNetwork sub) (profileSecurity sub) h] at hl
    exact ⟨_, hl⟩
  · intro s
    rw [QueryEscape_data]
    congr 1
    funext b
    exact escapeByte_rule b

set_option maxRecDepth 4000 in
/-- C23, an instance: an xhttp profile with security `tls` whose `extra`
has `downloadSettings.security` `reality` gets the fragment
`vless_xhttp_tls2reality`; a profile with the description `My Node` gets the
fragment `My+Node`. -/
theorem fragment_rule_witness :
    description realityJSON
        { sampleProfile "vless" "xhttp" "tls" "example.com" 0 with Extra := bareRealityText }
        "xhttp" "tls" = "vless_xhttp_tls2reality" ∧
    QueryEscape "vless_xhttp_tls2reality" = "vless_xhttp_tls2reality" ∧
    generateLink rejectingJSON [sampleInbound "vless" "tcp" [sampleClient "A" 0]]
        [("vless_raw", [sampleClient "A" 0])] 0 (sampleClient "A" 0) 0
        { sampleProfile "vless" "tcp" "none" "example.com" 0 with Description := "My Node" } =
      some "vless://A@example.com:443#My+Node" ∧
    (∃ front, "vless://A@example.com:443#My+Node" = front ++ "#" ++ "My+Node") :=
  ⟨((fragment_rule realityJSON [sampleInbound "vless" "xhttp" [sampleClient "A" 0]]
      [("vless_xhttp", [sampleClient "A" 0])] 0 (sampleClient "A" 0) 0
      { sampleProfile "vless" "xhttp" "tls" "example.com" 0 with Extra := bareRealityText }
      _ rfl).2.2.2.2.1 rfl "reality" rfl (by decide) rfl (by decide) (by decide)).trans rfl,
    rfl, rfl,
    ((fragment_rule rejectingJSON [sampleInbound "vless" "tcp" [sampleClient "A" 0]]
      [("vless_raw", [sampleClient "A" 0])] 0 (sampleClient "A" 0) 0
      { sampleProfile "vless" "tcp" "none" "example.com" 0 with Description := "My Node" }
      "vless://A@example.com:443#My+Node" rfl).2.2.2.2.2.2.2.2.1 (by decide)).imp
      (fun _ h => h.trans rfl)⟩

set_option maxRecDepth 4000 in
/-- C21 (counter-example): the `extra` value supplies the short id
`0123456789abcdef` under `downloadSettings.realitySettings` and no `spiderX`,
and the short id selected for the client is `ab12cd34`, whose placeholder is
`get-ab12cd34`; the `spiderX` filled in is `get-89abcdef`, the placeholder of
the supplied short id, and the `extra` parameter is built from the text with
that value. -/
theorem extra_spiderX_counterexample :
    suppliedJSON.UnmarshalMap suppliedRealityText = some suppliedRealityObject ∧
    getRealityShortID [sampleRealityInbound "xhttp" ["ab12cd34"] [sampleClient "A" 0]] 0 =
      "ab12cd34" ∧
    spiderX (goBytes "ab12cd34") 0 = goBytes "get-ab12cd34" ∧
    mergeExtra suppliedRealityObject "ab12cd34" 0 = suppliedFilledObject ∧
    (∃ ds rs, jsonGet (mergeExtra suppliedRealityObject "ab12cd34" 0) "downloadSettings" =
        some (Json.object ds) ∧
      jsonGet ds "realitySettings" = some (Json.object rs) ∧
      jsonGet rs "shortId" = some (Json.string (goBytes "0123456789abcdef")) ∧
      jsonGet rs "spiderX" = some (Json.string (goBytes "get-89abcdef"))) ∧
    goBytes "get-89abcdef" ≠ goBytes "get-ab12cd34" ∧
    suppliedJSON.Marshal suppliedFilledObject = suppliedFilledText ∧
    mapGet (Values.addAll [] (allAdds suppliedJSON
        [sampleRealityInbound "xhttp" ["ab12cd34"] [sampleClient "A" 0]] 0 (sampleClient "A" 0)
        0 { sampleProfile "vless" "xhttp" "tls" "example.com" 0 with
            Extra := suppliedRealityText })) "extra" = [QueryEscape suppliedFilledText] :=
  ⟨rfl, rfl, rfl, rfl, ⟨_, _, rfl, rfl, rfl, rfl⟩, by decide, rfl, rfl⟩

/-- C21 as amended: when the decoded `extra` of an xhttp profile has a
`downloadSettings` object with security `reality` whose `realitySettings`
object supplies `shortId` and no `spiderX`, the supplied `shortId` is kept and
the `spiderX` filled in is the placeholder derived from the supplied
`shortId` when that is a string, and from the empty short id when it is not;
it is the placeholder of the short id selected for the client when the
supplied `shortId` is that short id.  The `extra` parameter of the link is
built from the text written for the object so filled. -/
theorem extra_spiderX_source (J : EncodingJSON) (inbounds : List InboundDetourConfig)
    (clientIndex : Nat) (client : clientInfo) (subIndex : Nat) (sub : SubscriptionProfile)
    (extraConfig ds rs : JsonObject) (v : Json)
    (hd : jsonGet extraConfig "downloadSettings" = some (Json.object ds))
    (hsec : jsonGet ds "security" = some (Json.string (goBytes "reality")))
    (hrs : jsonGet ds "realitySettings" = some (Json.object rs))
    (h1 : jsonGet rs "shortId" = some v) (h2 : jsonGet rs "spiderX" = none) :
    (∃ ds2 rs2,
      jsonGet (mergeExtra extraConfig (getRealityShortID inbounds clientIndex) subIndex)
        "downloadSettings" = some (Json.object ds2) ∧
      jsonGet ds2 "realitySettings" = some (Json.object rs2) ∧
      jsonGet rs2 "shortId" = some v ∧
      (∀ b, v = Json.string b →
        jsonGet rs2 "spiderX" = some (Json.string (spiderX b subIndex))) ∧
      ((∀ b, v ≠ Json.string b) →
        jsonGet rs2 "spiderX" = some (Json.string (spiderX [] subIndex))) ∧
      (v = Json.string (goBytes (getRealityShortID inbounds clientIndex)) →
        jsonGet rs2 "spiderX" = some (Json.string
          (spiderX (goBytes (getRealityShortID inbounds clientIndex)) subIndex)))) ∧
    (sub.Network = "xhttp" → goLen sub.Extra > 2 →
      J.UnmarshalMap sub.Extra = some extraConfig →
      ∀ q, queryParamsOf J inbounds clientIndex client subIndex sub = some q →
        mapGet q "extra" = [QueryEscape (J.Marshal
          (mergeExtra extraConfig (getRealityShortID inbounds clientIndex) subIndex))]) := by
  refine ⟨⟨jsonSet ds "realitySettings" (Json.object
      (fillRealitySettings rs (getRealityShortID inbounds clientIndex) subIndex)),
    fillRealitySettings rs (getRealityShortID inbounds clientIndex) subIndex,
    ?_, ?_, ?_, ?_, ?_, ?_⟩, ?_⟩
  · rw [mergeExtra_reality extraConfig ds rs _ _ hd hsec hrs, jsonGet_jsonSet, if_pos rfl]
  · rw [jsonGet_jsonSet, if_pos rfl]
  · exact jsonGet_fill_of_some rs _ _ _ v h1
  · intro b hb
    rw [hb] at h1
    exact (jsonGet_fill_supplied rs _ subIndex b h1 h2).2
  · intro hv
    exact (jsonGet_fill_supplied_other rs _ subIndex v h1 hv h2).2
  · intro hb
    rw [hb] at h1
    exact (jsonGet_fill_supplied rs _ subIndex _ h1 h2).2
  · intro hnet hlen hu q hq
    rw [queryParamsOf_some _ _ _ _ _ _ _ hq, xhttp_extra _ _ _ _ _ _ hnet, if_pos hlen, hu]

/-- C21, an instance: the supplied short id `0123456789abcdef` gives the
`spiderX` value `get-89abcdef` whatever short id is selected. -/
theorem extra_spiderX_source_witness :
    ∃ ds2 rs2,
      jsonGet (mergeExtra suppliedRealityObject
        (getRealityShortID [sampleRealityInbound "xhttp" ["ab12cd34"] [sampleClient "A" 0]] 0)
        0) "downloadSettings" = some (Json.object ds2) ∧
      jsonGet ds2 "realitySettings" = some (Json.object rs2) ∧
      jsonGet rs2 "spiderX" = some (Json.string (goBytes "get-89abcdef")) :=
  (extra_spiderX_source suppliedJSON
    [sampleRealityInbound "xhttp" ["ab12cd34"] [sampleClient "A" 0]] 0 (sampleClient "A" 0) 0
    { sampleProfile "vless" "xhttp" "tls" "example.com" 0 with Extra := suppliedRealityText }
    suppliedRealityObject
    [("realitySettings", Json.object
        [("shortId", Json.string (goBytes "0123456789abcdef"))]),
     ("security", Json.string (goBytes "reality"))]
    [("shortId", Json.string (goBytes "0123456789abcdef"))]
    (Json.string (goBytes "0123456789abcdef")) rfl rfl rfl rfl rfl).1.imp
    (fun _ h => h.imp (fun _ h2 => ⟨h2.1, h2.2.1, (h2.2.2.2.1 _ rfl).trans rfl⟩))

/-- C25 (failing input): for a `tls` profile with the alpn list
`["h2", "http/1.1"]` the link carries `alpn=h2%252Chttp%252F1.1`: the value
added is the percent-encoding `h2%2Chttp%2F1.1` of the comma-joined list and
`Encode` encodes it once more.  Decoding the parameter once gives
`h2%2Chttp%2F1.1`, not `h2,http/1.1`; only a second decoding gives the
comma-joined list.  The server name of the same profile, added without
`url.QueryEscape`, is encoded once: `sni=s%2Fn` for `s/n`.  With an empty
alpn list the link has no `alpn` parameter. -/
theorem alpn_double_encoded :
    generateLink rejectingJSON [sampleInbound "vless" "tcp" [sampleClient "A" 0]]
        [("vless_raw", [sampleClient "A" 0])] 0 (sampleClient "A" 0) 0
        { sampleProfile "vless" "tcp" "tls" "example.com" 0 with
          Alpn := ["h2", "http/1.1"], ServerName := "s/n" } =
      some ("vless://A@example.com:443?alpn=h2%252Chttp%252F1.1&security=tls&sni=s%2Fn" ++
        "#vless_raw_tls") ∧
    ",".intercalate ["h2", "http/1.1"] = "h2,http/1.1" ∧
    QueryEscape "h2,http/1.1" = "h2%2Chttp%2F1.1" ∧
    QueryUnescape "h2%252Chttp%252F1.1" = some (goBytes "h2%2Chttp%2F1.1") ∧
    goBytes "h2%2Chttp%2F1.1" ≠ goBytes "h2,http/1.1" ∧
    QueryUnescape "h2%2Chttp%2F1.1" = some (goBytes "h2,http/1.1") ∧
    QueryUnescape "s%2Fn" = some (goBytes "s/n") ∧
    generateLink rejectingJSON [sampleInbound "vless" "tcp" [sampleClient "A" 0]]
        [("vless_raw", [sampleClient "A" 0])] 0 (sampleClient "A" 0) 0
        (sampleProfile "vless" "tcp" "tls" "example.com" 0) =
      some "vless://A@example.com:443?security=tls#vless_raw_tls" :=
  ⟨rfl, rfl, rfl, rfl, by decide, rfl, rfl, rfl⟩

/-- C29: when neither of two tokens is a non-empty override secret and the
trimmed pieces of the two tokens form the same set, the two calls with the
same inbounds and profiles return the same result. -/
theorem idlist_token_set (J : EncodingJSON) (order : MapOrder clientInfo) (superKey : String)
    (inbounds : List InboundDetourConfig) (profiles : List SubscriptionProfile)
    (token1 token2 : String)
    (h1 : superKey = "" ∨ superKey ≠ token1) (h2 : superKey = "" ∨ superKey ≠ token2)
    (hset : ∀ id, id ∈ targetIDs token1 ↔ id ∈ targetIDs token2) :
    generateSubscriptionLinks J order superKey inbounds profiles token1 =
      generateSubscriptionLinks J order superKey inbounds profiles token2 := by
  have hf : clientMatches superKey token1 = clientMatches superKey token2 := by
    funext id
    rw [clientMatches_idlist superKey token1 h1, clientMatches_idlist superKey token2 h2]
    exact decide_eq_decide.2 (hset id)
  unfold generateSubscriptionLinks matchClients
  rw [hf]

/-- C29, an instance: the tokens `A,B` and ` B , A,B` name the same ids. -/
theorem idlist_token_set_witness :
    targetIDs " B , A,B" = ["B", "A", "B"] ∧
    generateSubscriptionLinks rejectingJSON insertionOrder ""
        [sampleInbound "vless" "tcp" [sampleClient "A" 0, sampleClient "B" 0]]
        [sampleProfile "vless" "tcp" "none" "example.com" 0] "A,B" =
      generateSubscriptionLinks rejectingJSON insertionOrder ""
        [sampleInbound "vless" "tcp" [sampleClient "A" 0, sampleClient "B" 0]]
        [sampleProfile "vless" "tcp" "none" "example.com" 0] " B , A,B" ∧
    generateSubscriptionLinks rejectingJSON insertionOrder ""
        [sampleInbound "vless" "tcp" [sampleClient "A" 0, sampleClient "B" 0]]
        [sampleProfile "vless" "tcp" "none" "example.com" 0] " B , A,B" =
      Except.ok ["vless://A@example.com:443#vless_raw_none",
                 "vless://B@example.com:443#vless_raw_none"] :=
  ⟨rfl,
    idlist_token_set rejectingJSON insertionOrder ""
      [sampleInbound "vless" "tcp" [sampleClient "A" 0, sampleClient "B" 0]]
      [sampleProfile "vless" "tcp" "none" "example.com" 0] "A,B" " B , A,B"
      (Or.inl rfl) (Or.inl rfl) (by
        intro id
        rw [show targetIDs "A,B" = ["A", "B"] from rfl,
          show targetIDs " B , A,B" = ["B", "A", "B"] from rfl]
        simp only [List.mem_cons, List.mem_singleton, List.not_mem_nil, or_false]
        constructor
        · rintro (h | h)
          · exact Or.inr (Or.inl h)
          · exact Or.inl h
        · rintro (h | h | h)
          · exact Or.inr h
          · exact Or.inl h
          · exact Or.inr h),
    rfl⟩

/-- C28: in every emitted link each parameter key occurs once in the
parameter map and has one value, so the query holds one `key=value` pair for
each key; the pairs follow the keys in ascending byte order, strictly; the
sequence of keys is the ascending list of all parameter keys restricted to
the keys present, and the query is the same for every order in which the same
parameters are added.  In a `reality` link with a server name and a short id
the pairs of `sid`, `sni` and `spx` follow each other in this order. -/
theorem sorted_parameters (J : EncodingJSON) (inbounds : List InboundDetourConfig)
    (categorized : SliceMap clientInfo) (clientIndex : Nat) (client : clientInfo)
    (subIndex : Nat) (sub : SubscriptionProfile) (link : String)
    (hg : generateLink J inbounds categorized clientIndex client subIndex sub = some link) :
    ∃ q, queryParamsOf J inbounds clientIndex client subIndex sub = some q ∧
      link = finalURL client sub q (description J sub (profileNetwork sub) (profileSecurity sub)) ∧
      (q.map Prod.fst).Nodup ∧
      (∀ k, (mapGet q k).length ≤ 1) ∧
      Values.Encode q = "&".intercalate (Values.pairs q) ∧
      Values.pairs q =
        (sortKeys (q.map Prod.fst)).map (fun k => encodePair k ((mapGet q k).headD "")) ∧
      (∀ k ∈ q.map Prod.fst, QueryEscape k = k) ∧
      List.Pairwise (fun a b => keyLe a b ∧ ¬ keyLe b a) (sortKeys (q.map Prod.fst)) ∧
      sortKeys (q.map Prod.fst) =
        (["alpn", "ech", "encryption", "extra", "flow", "fp", "headerType", "host", "mode",
          "path", "pbk", "pqv", "security", "seed", "serviceName", "sid", "sni", "spx",
          "type"].filter (fun k => decide (k ∈ q.map Prod.fst))) ∧
      (∀ adds, adds.Perm (allAdds J inbounds clientIndex client subIndex sub) →
        Values.Encode (Values.addAll [] adds) = Values.Encode q) ∧
      (sub.Security = "reality" → sub.ServerName ≠ "" →
        getRealityShortID inbounds clientIndex ≠ "" →
        ∃ l1 l2, Values.pairs q =
          l1 ++ [encodePair "sid" (getRealityShortID inbounds clientIndex),
            encodePair "sni" sub.ServerName,
            encodePair "spx"
              (escapeBytes (spiderX (goBytes (getRealityShortID inbounds clientIndex))
                subIndex))] ++ l2) := by
  obtain ⟨_, hq, hl⟩ := generateLink_parts J inbounds categorized clientIndex client subIndex
    sub link hg
  have hn := allAdds_keys_nodup J inbounds clientIndex client subIndex sub
  have hs : ∀ k ∈ (allAdds J inbounds clientIndex client subIndex sub).map Prod.fst,
      k ∈ parameterKeys :=
    fun k hk => (allAdds_keys J inbounds clientIndex client subIndex sub).subset hk
  have hk := keys_allAdds J inbounds clientIndex client subIndex sub
  have hsort := sortKeys_eq_filter _ hn hs
  have hpairs := pairs_addAll _ hn
  rw [← hk] at hsort hpairs
  refine ⟨_, hq, hl, ?_, length_mapGet_addAll_le _ hn, rfl, hpairs, ?_, ?_, ?_, ?_, ?_⟩
  · rw [hk]
    exact hn
  · intro k hkm
    rw [hk] at hkm
    exact QueryEscape_unreserved k (parameterKeys_unreserved k (hs k hkm))
  · rw [hsort]
    exact sortKeys_parameterKeys_strict.sublist (List.filter_sublist _)
  · rw [hsort, sortKeys_parameterKeys]
  · intro adds hp
    unfold Values.Encode
    rw [pairs_addAll_perm _ adds hn hs hp]
  · intro hsec hsni hsid
    have hvsid := reality_sid J inbounds clientIndex client subIndex sub hsec
    have hvspx := reality_spx J inbounds clientIndex client subIndex sub hsec
    have hvsni := reality_sni_some J inbounds clientIndex client subIndex sub hsec hsni
    rw [if_pos hsid] at hvsid
    have m1 : "sid" ∈ (Values.addAll []
        (allAdds J inbounds clientIndex client subIndex sub)).map Prod.fst :=
      mem_keys_of_mapGet_ne_nil _ "sid" (by rw [hvsid]; exact List.cons_ne_nil _ _)
    have m2 : "sni" ∈ (Values.addAll []
        (allAdds J inbounds clientIndex client subIndex sub)).map Prod.fst :=
      mem_keys_of_mapGet_ne_nil _ "sni" (by rw [hvsni]; exact List.cons_ne_nil _ _)
    have m3 : "spx" ∈ (Values.addAll []
        (allAdds J inbounds clientIndex client subIndex sub)).map Prod.fst :=
      mem_keys_of_mapGet_ne_nil _ "spx" (by rw [hvspx]; exact List.cons_ne_nil _ _)
    have hsplit : sortKeys parameterKeys =
        ["alpn", "ech", "encryption", "extra", "flow", "fp", "headerType", "host", "mode",
          "path", "pbk", "pqv", "security", "seed", "serviceName"] ++
          ["sid", "sni", "spx"] ++ ["type"] := sortKeys_parameterKeys
    have hmid : (["sid", "sni", "spx"].filter (fun k => decide (k ∈ (Values.addAll []
        (allAdds J inbounds clientIndex client subIndex sub)).map Prod.fst))).map
        (fun k => encodePair k ((mapGet (Values.addAll []
          (allAdds J inbounds clientIndex client subIndex sub)) k).headD "")) =
        [encodePair "sid" (getRealityShortID inbounds clientIndex),
          encodePair "sni" sub.ServerName,
          encodePair "spx"
            (escapeBytes (spiderX (goBytes (getRealityShortID inbounds clientIndex))
              subIndex))] := by
      rw [List.filter_cons_of_pos (by simpa using m1),
        List.filter_cons_of_pos (by simpa using m2),
        List.filter_cons_of_pos (by simpa using m3), List.filter_nil]
      simp only [List.map_cons, List.map_nil, hvsid, hvsni, hvspx, List.headD_cons]
    rw [hpairs, hsort, hsplit, List.filter_append, List.filter_append, List.map_append,
      List.map_append, hmid]
    exact ⟨_, _, rfl⟩

/-- C28, an instance: a `reality` link with the server name `sni.example`
and the short id `ab12cd34`. -/
theorem sorted_parameters_witness :
    generateLink rejectingJSON [sampleRealityInbound "tcp" ["ab12cd34"] [sampleClient "A" 0]]
        [("vless_raw", [sampleClient "A" 0])] 0 (sampleClient "A" 0) 0
        { sampleProfile "vless" "tcp" "reality" "example.com" 0 with
          Password := "PBK", ServerName := "sni.example" } =
      some ("vless://A@example.com:443?fp=chrome&pbk=PBK&security=reality&sid=ab12cd34" ++
        "&sni=sni.example&spx=get-ab12cd34#vless_raw_reality") ∧
    ∃ q, queryParamsOf rejectingJSON
        [sampleRealityInbound "tcp" ["ab12cd34"] [sampleClient "A" 0]] 0 (sampleClient "A" 0) 0
        { sampleProfile "vless" "tcp" "reality" "example.com" 0 with
          Password := "PBK", ServerName := "sni.example" } = some q ∧
      (q.map Prod.fst).Nodup ∧
      List.Pairwise (fun a b => keyLe a b ∧ ¬ keyLe b a) (sortKeys (q.map Prod.fst)) :=
  ⟨rfl,
    (sorted_parameters rejectingJSON
      [sampleRealityInbound "tcp" ["ab12cd34"] [sampleClient "A" 0]]
      [("vless_raw", [sampleClient "A" 0])] 0 (sampleClient "A" 0) 0
      { sampleProfile "vless" "tcp" "reality" "example.com" 0 with
        Password := "PBK", ServerName := "sni.example" }
      _ rfl).imp (fun _ h => ⟨h.1, h.2.2.1, h.2.2.2.2.2.2.2.1⟩)⟩

/-- C27 (counter-example): the inbound has protocol `vless` and network
`x_raw`, the profile protocol `vless_x` and network `tcp`; both give the key
`vless_x_raw`, a link with the scheme `vless_x` is returned, no inbound has
the protocol `vless_x` and no original inbound is found. -/
theorem key_collision_counterexample :
    categorizedClients [sampleInbound "vless" "x_raw" [sampleClient "A" 0]] =
      [("vless_x_raw", [sampleClient "A" 0])] ∧
    (sampleProfile "vless_x" "tcp" "none" "example.com" 0).Protocol ++ "_" ++
        profileNetwork (sampleProfile "vless_x" "tcp" "none" "example.com" 0) =
      "vless_x_raw" ∧
    generateSubscriptionLinks rejectingJSON insertionOrder ""
        [sampleInbound "vless" "x_raw" [sampleClient "A" 0]]
        [sampleProfile "vless_x" "tcp" "none" "example.com" 0] "A" =
      Except.ok ["vless_x://A@example.com:443#vless_x_raw_none"] ∧
    (¬ ∃ ib ∈ [sampleInbound "vless" "x_raw" [sampleClient "A" 0]],
      ib.Protocol = (sampleProfile "vless_x" "tcp" "none" "example.com" 0).Protocol) ∧
    originalInbound [sampleInbound "vless" "x_raw" [sampleClient "A" 0]]
        (sampleProfile "vless_x" "tcp" "none" "example.com" 0) "raw" = none :=
  ⟨rfl, rfl, rfl, by decide, rfl⟩

/-- C27 as amended: for every link emitted for a profile there is an inbound
with protocol vless or vmess whose key `protocol + "_" + network` (network
normalized) is the key of the profile, and the link starts with the profile's
protocol as its scheme.  When no vless or vmess inbound has a `_` in its
normalized network, or when the profile's protocol is vless or vmess, that
inbound has the profile's protocol and the profile's normalized network, so
the scheme is vless or vmess and the search for the original inbound finds an
inbound with this protocol and network. -/
theorem key_identifies_pair (J : EncodingJSON) (inbounds : List InboundDetourConfig)
    (clientIndex : Nat) (client : clientInfo) (subIndex : Nat) (sub : SubscriptionProfile)
    (link : String)
    (hg : generateLink J inbounds (categorizedClients inbounds) clientIndex client subIndex
      sub = some link) :
    (∃ ib ∈ inbounds, (ib.Protocol = "vless" ∨ ib.Protocol = "vmess") ∧
      ib.Protocol ++ "_" ++ inboundNetwork ib = sub.Protocol ++ "_" ++ profileNetwork sub) ∧
    (∃ rest, link = sub.Protocol ++ "://" ++ rest) ∧
    (((∀ ib ∈ inbounds, ib.Protocol = "vless" ∨ ib.Protocol = "vmess" →
          '_' ∉ (inboundNetwork ib).data) ∨
        sub.Protocol = "vless" ∨ sub.Protocol = "vmess") →
      (sub.Protocol = "vless" ∨ sub.Protocol = "vmess") ∧
      (∃ ib ∈ inbounds, ib.Protocol = sub.Protocol ∧
        inboundNetwork ib = profileNetwork sub) ∧
      ∃ ib ∈ inbounds, originalInbound inbounds sub (profileNetwork sub) = some ib ∧
        ib.Protocol = sub.Protocol ∧ inboundNetwork ib = profileNetwork sub) := by
  obtain ⟨hgates, _, hl⟩ := generateLink_parts J inbounds _ clientIndex client subIndex
    sub link hg
  obtain ⟨ib, hm, hp, hkey⟩ := inbound_of_clientExists inbounds _ client hgates.1
  refine ⟨⟨ib, hm, hp, hkey.symm⟩, ?_, ?_⟩
  · rw [hl]
    exact finalURL_scheme client sub _ _
  · intro hcond
    have hpair : sub.Protocol = ib.Protocol ∧ profileNetwork sub = inboundNetwork ib := by
      rcases hcond with hno | hsp
      · refine key_cancel _ _ _ _ hkey ?_ (hno ib hm hp)
        rcases hp with h | h <;> rw [h] <;> decide
      · exact key_cancel_protocol _ _ _ _ hkey hsp hp
    have hex : ∃ ib ∈ inbounds, ib.Protocol = sub.Protocol ∧
        inboundNetwork ib = profileNetwork sub := ⟨ib, hm, hpair.1.symm, hpair.2.symm⟩
    refine ⟨?_, hex, originalInbound_of_mem inbounds sub _ hex⟩
    rw [hpair.1]
    exact hp

/-- C27, an instance: a vless inbound over ws and a vless profile over ws. -/
theorem key_identifies_pair_witness :
    generateLink rejectingJSON [sampleInbound "vless" "ws" [sampleClient "A" 0]]
        (categorizedClients [sampleInbound "vless" "ws" [sampleClient "A" 0]]) 0
        (sampleClient "A" 0) 0 (sampleProfile "vless" "ws" "none" "example.com" 0) =
      some "vless://A@example.com:443?host=example.com&type=ws#vless_ws_none" ∧
    ∃ ib ∈ [sampleInbound "vless" "ws" [sampleClient "A" 0]],
      originalInbound [sampleInbound "vless" "ws" [sampleClient "A" 0]]
        (sampleProfile "vless" "ws" "none" "example.com" 0)
        (profileNetwork (sampleProfile "vless" "ws" "none" "example.com" 0)) = some ib ∧
      ib.Protocol = "vless" ∧
      inboundNetwork ib = profileNetwork (sampleProfile "vless" "ws" "none" "example.com" 0) :=
  ⟨rfl,
    ((key_identifies_pair rejectingJSON [sampleInbound "vless" "ws" [sampleClient "A" 0]] 0
      (sampleClient "A" 0) 0 (sampleProfile "vless" "ws" "none" "example.com" 0) _ rfl).2.2
      (Or.inr (Or.inl rfl))).2.2⟩

/-- C26: for every visiting order that visits each category once per round,
when the smallest bucket position of a matching id `a`, over all categories,
is smaller than the smallest bucket position of a matching id `b`, both ids
are in the matched sequence and `a` stands before `b`; hence two ids that
two such visiting orders put in different orders have the same smallest
bucket position. -/
theorem first_occurrence_order (superKey : String) (inbounds : List InboundDetourConfig)
    (uuidQuery : String) (a b : String) :
    (∀ order, MapOrder.Valid order → ∀ ia ib,
      clientMatches superKey uuidQuery a = true →
      clientMatches superKey uuidQuery b = true →
      smallestIndex (categorizedClients inbounds) a = some ia →
      smallestIndex (categorizedClients inbounds) b = some ib → ia < ib →
      a ∈ (matchClients order superKey inbounds uuidQuery).orderedMatchedClients.map
          clientInfo.ID ∧
      b ∈ (matchClients order superKey inbounds uuidQuery).orderedMatchedClients.map
          clientInfo.ID ∧
      ((matchClients order superKey inbounds uuidQuery).orderedMatchedClients.map
          clientInfo.ID).indexOf a <
        ((matchClients order superKey inbounds uuidQuery).orderedMatchedClients.map
          clientInfo.ID).indexOf b) ∧
    (∀ order1 order2, MapOrder.Valid order1 → MapOrder.Valid order2 →
      a ∈ (matchClients order1 superKey inbounds uuidQuery).orderedMatchedClients.map
          clientInfo.ID →
      b ∈ (matchClients order1 superKey inbounds uuidQuery).orderedMatchedClients.map
          clientInfo.ID →
      ((matchClients order1 superKey inbounds uuidQuery).orderedMatchedClients.map
          clientInfo.ID).indexOf a <
        ((matchClients order1 superKey inbounds uuidQuery).orderedMatchedClients.map
          clientInfo.ID).indexOf b →
      ((matchClients order2 superKey inbounds uuidQuery).orderedMatchedClients.map
          clientInfo.ID).indexOf b <
        ((matchClients order2 superKey inbounds uuidQuery).orderedMatchedClients.map
          clientInfo.ID).indexOf a →
      smallestIndex (categorizedClients inbounds) a =
        smallestIndex (categorizedClients inbounds) b) := by
  have hn := nodup_keys_categorizedClients inbounds
  have first : ∀ (x y : String) order, MapOrder.Valid order → ∀ ix iy,
      clientMatches superKey uuidQuery x = true →
      clientMatches superKey uuidQuery y = true →
      smallestIndex (categorizedClients inbounds) x = some ix →
      smallestIndex (categorizedClients inbounds) y = some iy → ix < iy →
      x ∈ (matchClients order superKey inbounds uuidQuery).orderedMatchedClients.map
          clientInfo.ID ∧
      y ∈ (matchClients order superKey inbounds uuidQuery).orderedMatchedClients.map
          clientInfo.ID ∧
      ((matchClients order superKey inbounds uuidQuery).orderedMatchedClients.map
          clientInfo.ID).indexOf x <
        ((matchClients order superKey inbounds uuidQuery).orderedMatchedClients.map
          clientInfo.ID).indexOf y := by
    intro x y order hv ix iy hfx hfy hx hy hlt
    exact ordered_index_lt order hv _ _ hn x y ix iy hfx hfy hx hy hlt
  refine ⟨first a b, ?_⟩
  intro order1 order2 hv1 hv2 hma hmb h1 h2
  obtain ⟨hfa, ja, _, hoa⟩ := (mem_ordered_rounds order1 hv1 _ _ hn _ a).1 hma
  obtain ⟨hfb, jb, _, hob⟩ := (mem_ordered_rounds order1 hv1 _ _ hn _ b).1 hmb
  obtain ⟨ia, hia⟩ := smallestIndex_exists _ a ja hoa
  obtain ⟨ib, hib⟩ := smallestIndex_exists _ b jb hob
  rw [hia, hib]
  rcases Nat.lt_trichotomy ia ib with h | h | h
  · have := (first a b order2 hv2 ia ib hfa hfb hia hib h).2.2
    omega
  · rw [h]
  · have := (first b a order1 hv1 ib ia hfb hfa hib hia h).2.2
    omega

/-- C26, an instance: with the buckets `[A, B]` and `[B, C]` the id `A`
first occurs at position 0 and `C` at position 1; `A` stands before `C`
when the categories are visited in insertion order and when they are visited
in reverse order. -/
theorem first_occurrence_order_witness :
    smallestIndex (categorizedClients
        [sampleInbound "vless" "tcp" [sampleClient "A" 0, sampleClient "B" 0],
         sampleInbound "vmess" "tcp" [sampleClient "B" 0, sampleClient "C" 0]]) "A" = some 0 ∧
    smallestIndex (categorizedClients
        [sampleInbound "vless" "tcp" [sampleClient "A" 0, sampleClient "B" 0],
         sampleInbound "vmess" "tcp" [sampleClient "B" 0, sampleClient "C" 0]]) "C" = some 1 ∧
    (matchClients reverseOrder ""
        [sampleInbound "vless" "tcp" [sampleClient "A" 0, sampleClient "B" 0],
         sampleInbound "vmess" "tcp" [sampleClient "B" 0, sampleClient "C" 0]]
        "A,B,C").orderedMatchedClients.map clientInfo.ID = ["B", "A", "C"] ∧
    ((matchClients reverseOrder ""
        [sampleInbound "vless" "tcp" [sampleClient "A" 0, sampleClient "B" 0],
         sampleInbound "vmess" "tcp" [sampleClient "B" 0, sampleClient "C" 0]]
        "A,B,C").orderedMatchedClients.map clientInfo.ID).indexOf "A" <
      ((matchClients reverseOrder ""
        [sampleInbound "vless" "tcp" [sampleClient "A" 0, sampleClient "B" 0],
         sampleInbound "vmess" "tcp" [sampleClient "B" 0, sampleClient "C" 0]]
        "A,B,C").orderedMatchedClients.map clientInfo.ID).indexOf "C" :=
  ⟨rfl, rfl, rfl,
    ((first_occurrence_order ""
      [sampleInbound "vless" "tcp" [sampleClient "A" 0, sampleClient "B" 0],
       sampleInbound "vmess" "tcp" [sampleClient "B" 0, sampleClient "C" 0]]
      "A,B,C" "A" "C").1 reverseOrder (fun _ m => List.reverse_perm m) 0 1 rfl rfl rfl rfl
      (by decide)).2.2⟩

end Subscription
